import Mathlib

/-!
# Disk-based result buffer (`src/query/src/qResultbuf.c`)

A shallow embedding of the paged result buffer and a verification of its
contract.  The buffer hands out fixed-size pages, keeps an LRU list of the
memory-resident ones and spills pages to a scratch file when the in-memory
budget is exhausted.

Conventions of the embedding

* Heap objects are kept in arenas and a pointer is an index into the arena:
  `pages` holds the `SPageInfo` objects, `mem` the page slabs.  `none` is `NULL`.
* A slab is `POINTER_BYTES` of header followed by `pageSize` bytes of payload.
  The header word `((void**)pData)[0]` is kept as `Slab.owner`.
* A function that can hit an `assert` or dereference a bad pointer returns
  `Except Fault _`; the fault names the place.
* The outcome of the operating-system calls (`fopen`, `fread`) is an explicit
  input `Env` of the operations that perform them.
* Sizes and counters are natural numbers, file positions integers (`-1` marks
  "never written").  The struct declarations of `qResultbuf.h` are not among the
  sources, so the widths of the counters are not known; they do not wrap here.
  The page id is handed out as an `int32_t` and wraps.
* `calloc` and `malloc` always succeed.
* The caller's accesses to a page payload are the operations `storePayload` and
  `payloadAt` on the payload pointer that `getNewDataBuf` or `getResBufPage`
  returned.
-/

namespace QResultBuf

/-- Places at which the C code aborts. -/
inductive Fault where
  /-- `inMemBufSize / pagesize` or `... / rowSize` with a zero divisor -/
  | divByZero
  /-- `assert(inMemBufSize >= pagesize * 2)` in `createDiskbasedResultBuffer` -/
  | assertCreate
  /-- `assert(!pg->used && pg->pData != NULL)` in `doFlushPageToDisk` -/
  | assertFlushPage
  /-- `assert(numOfPages * pageSize == totalBufSize && numOfPages >= inMemPages)` -/
  | assertFlushBudget
  /-- `assert(pageInfo->pageId >= 0 && pageInfo->pn == pn)` in `getEldestUnrefedPage` -/
  | assertEldest
  /-- `assert(d->pn == pn)` in `evicOneDataPage` -/
  | assertEvictNode
  /-- `assert(listNEles(lruList) < inMemPages && inMemPages > 0)` in `getNewDataBuf` -/
  | assertLruRoom
  /-- `assert(pResultBuf != NULL && id >= 0)` in `getResBufPage` -/
  | assertGetId
  /-- `assert(pi != NULL && *pi != NULL)` in `getResBufPage` -/
  | assertKnownPage
  /-- `assert(*pInfo == *pi)` in `getResBufPage` -/
  | assertNodeBack
  /-- `assert(pData == NULL && pn == NULL && info.length >= 0 && info.offset >= 0)` -/
  | assertOnDisk
  /-- `assert(pi->pData != NULL && pi->used)` in `releaseResBufPageInfo` -/
  | assertRelease
  /-- dereference of `NULL` or of a pointer to no live object -/
  | badPointer
  /-- `memcpy` past the end of a slab -/
  | bufferOverrun
  deriving DecidableEq, Repr

/-- What the functions of this file take from code that is not part of it. -/
structure Deps where
  /-- the macro `POINTER_BYTES` -/
  POINTER_BYTES : Nat
  /-- the value of `sizeof(tFilePage)` -/
  sizeofFilePage : Nat
  /-- `tsCompressString`: the bytes it leaves in the output buffer -/
  tsCompressString : List Nat → List Nat
  /-- `tsDecompressString input outputSize`: the bytes it leaves in the output buffer -/
  tsDecompressString : List Nat → Nat → List Nat

/-- Outcome of the system calls made during one API call. -/
structure Env where
  /-- whether `fopen` in `createDiskFile` succeeds -/
  fopenOk : Bool
  /-- `some k`: `fread` delivers at most `k` bytes; `none`: all bytes present -/
  freadMax : Option Nat
  deriving DecidableEq, Repr

/-- Environment without I/O failure. -/
def Env.good : Env := ⟨true, none⟩

/-- On-disk extent of a page: `SPageDiskInfo`. -/
structure SPageDiskInfo where
  offset : Int
  length : Int
  deriving DecidableEq, Repr

/-- Modelled from the spec: the macro `PAGE_INFO_INITIALIZER` of `qResultbuf.h`
is not among the sources; a page that was never written has no disk position,
which `doFlushPageToDisk` tests as `info.offset == -1`. -/
def PAGE_INFO_INITIALIZER : SPageDiskInfo := ⟨-1, -1⟩

/-- Reclaimed file extent: `SFreeListItem`. -/
structure SFreeListItem where
  offset : Int
  len : Int
  deriving DecidableEq, Repr

/-- Page metadata: `SPageInfo`.  `pn` is the address of the page's LRU node,
`pData` the address of its slab. -/
structure SPageInfo where
  pn : Option Nat
  pageId : Int
  info : SPageDiskInfo
  pData : Option Nat
  used : Bool
  deriving DecidableEq, Repr

/-- A page slab of `pageSize + POINTER_BYTES` bytes: the header word and the payload. -/
structure Slab where
  owner : Option Nat
  payload : List Nat
  deriving DecidableEq, Repr

/-- Node of the LRU list: its address and its data, a `SPageInfo*`. -/
structure SListNode where
  id : Nat
  data : Nat
  deriving DecidableEq, Repr

/-- The counters of `statis`. -/
structure SResultBufStatisInfo where
  getPages : Nat
  releasePages : Nat
  flushPages : Nat
  flushBytes : Nat
  loadBytes : Nat
  deriving DecidableEq, Repr

/-- The buffer `SDiskbasedResultBuf` together with the heap objects it owns.
`lruList` is listed from the head (most recently acquired) to the tail. -/
structure SDiskbasedResultBuf where
  numOfRowsPerPage : Nat
  numOfPages : Nat
  totalBufSize : Nat
  fileSize : Int
  file : Option (List Nat)
  allocateId : Int
  pageSize : Nat
  inMemPages : Nat
  groupSet : List (Int × List Nat)
  all : List (Int × Nat)
  lruList : List SListNode
  pFree : Option (List SFreeListItem)
  nextPos : Int
  comp : Bool
  statis : SResultBufStatisInfo
  pages : List SPageInfo
  mem : List Slab
  nodeSeq : Nat
  deriving Repr

/-- Two's-complement wrap of an integer into the range of `int32_t`. -/
def wrapInt32 (x : Int) : Int := (x + 2147483648) % 4294967296 - 2147483648

/-- Modelled from the spec: `taosHashGet` of `hash.c` (not among the sources)
on a table kept as an association list. -/
def taosHashGet {α : Type} (h : List (Int × α)) (k : Int) : Option α :=
  match h with
  | [] => none
  | (k', v) :: t => if k' = k then some v else taosHashGet t k

/-- Modelled from the spec: `taosHashPut` of `hash.c` (not among the sources):
the value of an existing key is replaced, a new key is added at the end. -/
def taosHashPut {α : Type} (h : List (Int × α)) (k : Int) (v : α) : List (Int × α) :=
  match h with
  | [] => [(k, v)]
  | (k', v') :: t => if k' = k then (k, v) :: t else (k', v') :: taosHashPut t k v

/-- Modelled from the spec: `taosArrayPush` of `tarray.c` (not among the
sources) on the free list.  The array is passed by value, so a push cannot turn
a `NULL` list into a list: nothing is stored then. -/
def taosArrayPushFree (a : Option (List SFreeListItem)) (x : SFreeListItem) :
    Option (List SFreeListItem) :=
  match a with
  | none => none
  | some l => some (l ++ [x])

/-- Constructor `createDiskbasedResultBuffer`.  `numOfRowsPerPage` is computed
in `size_t` arithmetic (64 bits). -/
def createDiskbasedResultBuffer (d : Deps) (rowSize pagesize inMemBufSize : Nat) :
    Except Fault SDiskbasedResultBuf :=
  if pagesize = 0 then .error .divByZero
  else if ¬ (inMemBufSize ≥ pagesize * 2) then .error .assertCreate
  else if rowSize = 0 then .error .divByZero
  else .ok
    { numOfRowsPerPage := ((pagesize + 18446744073709551616 - d.sizeofFilePage)
                            % 18446744073709551616) / rowSize
      numOfPages := 0
      totalBufSize := 0
      fileSize := 0
      file := none
      allocateId := -1
      pageSize := pagesize
      inMemPages := inMemBufSize / pagesize
      groupSet := []
      all := []
      lruList := []
      pFree := none
      nextPos := 0
      comp := true
      statis := ⟨0, 0, 0, 0, 0⟩
      pages := []
      mem := []
      nodeSeq := 0 }

/-- The bytes `doCompressData` leaves in the page payload `data`, and `*dst`. -/
def doCompressData (d : Deps) (comp : Bool) (data : List Nat) (srcSize : Nat) :
    Except Fault (Nat × List Nat) :=
  if !comp then .ok (srcSize, data)
  else
    let out := d.tsCompressString (data.take srcSize)
    if out.length ≤ data.length then .ok (out.length, out ++ data.drop out.length)
    else .error .bufferOverrun

/-- The bytes `doDecompressData` leaves in the page payload `data`, and `*dst`. -/
def doDecompressData (d : Deps) (comp : Bool) (pageSize : Nat) (data : List Nat)
    (srcSize : Nat) : Except Fault (Nat × List Nat) :=
  if !comp then .ok (srcSize, data)
  else
    let out := d.tsDecompressString (data.take srcSize) pageSize
    if out.length ≤ data.length then .ok (out.length, out ++ data.drop out.length)
    else .error .bufferOverrun

/-- The scan of `allocatePositionInFile` over the free list: the first item
with `len >= size` is split. -/
def allocateFromFree (size : Int) : List SFreeListItem → Option (Int × List SFreeListItem)
  | [] => none
  | it :: rest =>
    if it.len ≥ size then some (it.offset, ⟨it.offset + size, it.len - size⟩ :: rest)
    else match allocateFromFree size rest with
      | none => none
      | some (off, rest') => some (off, it :: rest')

/-- The function `allocatePositionInFile`: the position, and the free list afterwards. -/
def allocatePositionInFile (b : SDiskbasedResultBuf) (size : Nat) :
    Int × Option (List SFreeListItem) :=
  match b.pFree with
  | none => (b.nextPos, none)
  | some l =>
    match allocateFromFree size l with
    | some (off, l') => (off, some l')
    | none => (b.nextPos, some l)

/-- Positioned write `fseek(file, off, SEEK_SET); fwrite(...)`; a gap before
`off` reads as zero bytes. -/
def fileWrite (f : List Nat) (off : Nat) (bytes : List Nat) : List Nat :=
  let g := f ++ List.replicate (off - f.length) 0
  g.take off ++ bytes ++ g.drop (off + bytes.length)

/-- The call `memset(ret, 0, pageSize)` on a slab: it starts at the header, so
it clears the header word and the first `pageSize - POINTER_BYTES` payload bytes. -/
def memsetSlab (d : Deps) (pageSize : Nat) (s : Slab) : Slab :=
  { owner := if pageSize = 0 then s.owner else none
    payload := List.replicate (min (pageSize - d.POINTER_BYTES) s.payload.length) 0
                 ++ s.payload.drop (pageSize - d.POINTER_BYTES) }

/-- The function `doFlushPageToDisk`; returns the slab it took from the page. -/
def doFlushPageToDisk (d : Deps) (b : SDiskbasedResultBuf) (pg : Nat) :
    Except Fault (SDiskbasedResultBuf × Nat) :=
  match b.pages[pg]? with
  | none => .error .badPointer
  | some p =>
    match p.used, p.pData with
    | true, _ => .error .assertFlushPage
    | false, none => .error .assertFlushPage
    | false, some s =>
      match b.mem[s]?, b.file with
      | none, _ => .error .badPointer
      | some _, none => .error .badPointer
      | some slab, some f =>
        match doCompressData d b.comp slab.payload b.pageSize with
        | .error e => .error e
        | .ok (size, t) =>
          let fresh := decide (p.info.offset = -1) || decide (p.info.length < size)
          let pFree1 := if p.info.offset ≠ -1 ∧ p.info.length < size
            then taosArrayPushFree b.pFree ⟨p.info.offset, p.info.length⟩ else b.pFree
          let alloc := allocatePositionInFile { b with pFree := pFree1 } size
          let offset := if fresh then alloc.1 else p.info.offset
          let pFree2 := if fresh then alloc.2 else pFree1
          let nextPos := if fresh then b.nextPos + size else b.nextPos
          let file := fileWrite f offset.toNat (t.take size)
          let fileSize := if b.fileSize < offset + p.info.length
            then offset + p.info.length else b.fileSize
          .ok ({ b with
                  pFree := pFree2
                  nextPos := nextPos
                  file := some file
                  fileSize := fileSize
                  mem := b.mem.set s (memsetSlab d b.pageSize { slab with payload := t })
                  pages := b.pages.set pg { p with info := ⟨offset, size⟩, pData := none }
                  statis := { b.statis with flushBytes := b.statis.flushBytes + size } }, s)

/-- The function `flushPageToDisk`: `none` is its `NULL` (the file could not be created). -/
def flushPageToDisk (d : Deps) (env : Env) (b : SDiskbasedResultBuf) (pg : Nat) :
    Except Fault (SDiskbasedResultBuf × Option Nat) :=
  if ¬ (b.numOfPages * b.pageSize = b.totalBufSize ∧ b.numOfPages ≥ b.inMemPages) then
    .error .assertFlushBudget
  else
    match b.file with
    | none =>
      if env.fopenOk then
        match doFlushPageToDisk d { b with file := some [] } pg with
        | .error e => .error e
        | .ok (b', s) => .ok (b', some s)
      else .ok (b, none)
    | some _ =>
      match doFlushPageToDisk d b pg with
      | .error e => .error e
      | .ok (b', s) => .ok (b', some s)

/-- The function `loadPageFromDisk`; the flag tells whether it returned non-`NULL`. -/
def loadPageFromDisk (d : Deps) (env : Env) (b : SDiskbasedResultBuf) (pg : Nat) :
    Except Fault (SDiskbasedResultBuf × Bool) :=
  match b.pages[pg]? with
  | none => .error .badPointer
  | some p =>
    match p.pData, b.file with
    | none, _ => .error .badPointer
    | some _, none => .error .badPointer
    | some s, some f =>
      match b.mem[s]? with
      | none => .error .badPointer
      | some slab =>
        let avail := (f.drop p.info.offset.toNat).take p.info.length.toNat
        let got := match env.freadMax with
          | none => avail
          | some k => avail.take k
        let raw := got ++ slab.payload.drop got.length
        if (got.length : Int) ≠ p.info.length then
          .ok ({ b with mem := b.mem.set s { slab with payload := raw } }, false)
        else
          match doDecompressData d b.comp b.pageSize raw got.length with
          | .error e => .error e
          | .ok (_, t) =>
            .ok ({ b with
                    mem := b.mem.set s { slab with payload := t }
                    statis := { b.statis with
                                loadBytes := b.statis.loadBytes + got.length } }, true)

/-- The macro `NO_AVAILABLE_PAGES`. -/
def NO_AVAILABLE_PAGES (b : SDiskbasedResultBuf) : Bool :=
  decide (b.numOfPages ≥ b.inMemPages)

/-- The function `registerPage` (with `addNewGroup`): the page object is
allocated at the end of the arena and its address appended to the group's list. -/
def registerPage (b : SDiskbasedResultBuf) (groupId : Int) (pageId : Int) :
    SDiskbasedResultBuf × Nat :=
  let list := match taosHashGet b.groupSet groupId with
    | none => []
    | some l => l
  let ppi := b.pages.length
  ({ b with
      groupSet := taosHashPut b.groupSet groupId (list ++ [ppi])
      numOfPages := b.numOfPages + 1
      pages := b.pages ++ [⟨none, pageId, PAGE_INFO_INITIALIZER, none, true⟩] }, ppi)

/-- The loop of `getEldestUnrefedPage` over the nodes from the tail on. -/
def eldestFrom (pages : List SPageInfo) : List SListNode → Except Fault (Option SListNode)
  | [] => .ok none
  | pn :: rest =>
    match pages[pn.data]? with
    | none => .error .badPointer
    | some pageInfo =>
      if ¬ (pageInfo.pageId ≥ 0 ∧ pageInfo.pn = some pn.id) then .error .assertEldest
      else if !pageInfo.used then .ok (some pn)
      else eldestFrom pages rest

/-- The function `getEldestUnrefedPage`: backward iteration over the LRU list. -/
def getEldestUnrefedPage (b : SDiskbasedResultBuf) : Except Fault (Option SListNode) :=
  eldestFrom b.pages b.lruList.reverse

/-- Modelled from the spec: `tdListPopNode` of `tlist.c` (not among the
sources): the node with the given address leaves the list. -/
def tdListPopNode (l : List SListNode) (pn : Nat) : List SListNode :=
  l.filter (fun n => n.id != pn)

/-- The function `evicOneDataPage`: `none` is its `NULL`. -/
def evicOneDataPage (d : Deps) (env : Env) (b : SDiskbasedResultBuf) :
    Except Fault (SDiskbasedResultBuf × Option Nat) :=
  match getEldestUnrefedPage b with
  | .error e => .error e
  | .ok none => .ok ({ b with inMemPages := b.inMemPages * 3 / 2 }, none)
  | .ok (some pn) =>
    match b.pages[pn.data]? with
    | none => .error .badPointer
    | some p =>
      if p.pn ≠ some pn.id then .error .assertEvictNode
      else
        flushPageToDisk d env
          { b with
            statis := { b.statis with flushPages := b.statis.flushPages + 1 }
            lruList := tdListPopNode b.lruList pn.id
            pages := b.pages.set pn.data { p with pn := none } } pn.data

/-- The function `lruListPushFront`: a new node in front, and `pi->pn` set to it. -/
def lruListPushFront (b : SDiskbasedResultBuf) (pg : Nat) : SDiskbasedResultBuf :=
  { b with
    lruList := ⟨b.nodeSeq, pg⟩ :: b.lruList
    nodeSeq := b.nodeSeq + 1
    pages := b.pages.modify (fun p => { p with pn := some b.nodeSeq }) pg }

/-- The function `lruListMoveToFront`. -/
def lruListMoveToFront (l : List SListNode) (pn : SListNode) : List SListNode :=
  pn :: tdListPopNode l pn.id

/-- Attach a slab to a page: `pi->pData = calloc(...)` when no slab is at hand,
else the slab given; then `((void**)pi->pData)[0] = pi`. -/
def attachSlab (b : SDiskbasedResultBuf) (pg : Nat) (availablePage : Option Nat) :
    SDiskbasedResultBuf × Nat :=
  match availablePage with
  | none =>
    ({ b with
        mem := b.mem ++ [⟨some pg, List.replicate b.pageSize 0⟩]
        pages := b.pages.modify (fun p => { p with pData := some b.mem.length }) pg },
      b.mem.length)
  | some s =>
    ({ b with
        mem := b.mem.modify (fun slab => { slab with owner := some pg }) s
        pages := b.pages.modify (fun p => { p with pData := some s }) pg }, s)

/-- The function `getNewDataBuf`: the new page id and the payload pointer. -/
def getNewDataBuf (d : Deps) (env : Env) (b : SDiskbasedResultBuf) (groupId : Int) :
    Except Fault (SDiskbasedResultBuf × Int × Nat) :=
  let b0 := { b with statis := { b.statis with getPages := b.statis.getPages + 1 } }
  match (if NO_AVAILABLE_PAGES b0 then evicOneDataPage d env b0 else .ok (b0, none)) with
  | .error e => .error e
  | .ok (b1, availablePage) =>
    let pageId := wrapInt32 (b1.allocateId + 1)
    let r := registerPage { b1 with allocateId := pageId } groupId pageId
    if ¬ (r.1.lruList.length < r.1.inMemPages ∧ r.1.inMemPages > 0) then
      .error .assertLruRoom
    else
      let b3 := lruListPushFront r.1 r.2
      let b4 := { b3 with all := taosHashPut b3.all pageId r.2 }
      let a := attachSlab b4 r.2 availablePage
      .ok ({ a.1 with
              totalBufSize := a.1.totalBufSize + a.1.pageSize
              pages := a.1.pages.modify (fun p => { p with used := true }) r.2 },
            pageId, a.2)

/-- The function `getResBufPage`: the payload pointer. -/
def getResBufPage (d : Deps) (env : Env) (b : SDiskbasedResultBuf) (id : Int) :
    Except Fault (SDiskbasedResultBuf × Nat) :=
  if ¬ (id ≥ 0) then .error .assertGetId
  else
    let b0 := { b with statis := { b.statis with getPages := b.statis.getPages + 1 } }
    match taosHashGet b0.all id with
    | none => .error .assertKnownPage
    | some pi =>
      match b0.pages[pi]? with
      | none => .error .badPointer
      | some p =>
        match p.pData with
        | some s =>
          if b0.numOfPages = 1 then
            .ok ({ b0 with pages := b0.pages.set pi { p with used := true } }, s)
          else
            match p.pn with
            | none => .error .badPointer
            | some n =>
              match b0.lruList.find? (fun m => m.id == n) with
              | none => .error .badPointer
              | some node =>
                if node.data ≠ pi then .error .assertNodeBack
                else
                  .ok ({ b0 with
                          lruList := lruListMoveToFront b0.lruList node
                          pages := b0.pages.set pi { p with used := true } }, s)
        | none =>
          if ¬ (p.pn = none ∧ p.info.length ≥ 0 ∧ p.info.offset ≥ 0) then
            .error .assertOnDisk
          else
            match (if NO_AVAILABLE_PAGES b0 then evicOneDataPage d env b0
                   else .ok (b0, none)) with
            | .error e => .error e
            | .ok (b1, availablePage) =>
              let a := attachSlab b1 pi availablePage
              match loadPageFromDisk d env (lruListPushFront a.1 pi) pi with
              | .error e => .error e
              | .ok (b2, _) => .ok (b2, a.2)

/-- The function `releaseResBufPageInfo`. -/
def releaseResBufPageInfo (b : SDiskbasedResultBuf) (pi : Nat) :
    Except Fault SDiskbasedResultBuf :=
  match b.pages[pi]? with
  | none => .error .badPointer
  | some p =>
    if ¬ (p.pData ≠ none ∧ p.used = true) then .error .assertRelease
    else
      .ok { b with
            pages := b.pages.set pi { p with used := false }
            statis := { b.statis with releasePages := b.statis.releasePages + 1 } }

/-- The function `releaseResBufPage`: the page is found through the header
word in front of the payload. -/
def releaseResBufPage (b : SDiskbasedResultBuf) (page : Nat) :
    Except Fault SDiskbasedResultBuf :=
  match b.mem[page]? with
  | none => .error .badPointer
  | some slab =>
    match slab.owner with
    | none => .error .badPointer
    | some ppi => releaseResBufPageInfo b ppi

/-- The function `getDataBufPagesIdList`: the group's list of `SPageInfo*`, or
the empty dummy list. -/
def getDataBufPagesIdList (b : SDiskbasedResultBuf) (groupId : Int) : List Nat :=
  match taosHashGet b.groupSet groupId with
  | none => []
  | some l => l

/-- The caller stores `bytes` through a payload pointer it was given. -/
def storePayload (b : SDiskbasedResultBuf) (page : Nat) (bytes : List Nat) :
    Except Fault SDiskbasedResultBuf :=
  match b.mem[page]? with
  | none => .error .badPointer
  | some slab =>
    if bytes.length ≤ slab.payload.length then
      .ok { b with
            mem := b.mem.set page
              { slab with payload := bytes ++ slab.payload.drop bytes.length } }
    else .error .bufferOverrun

/-- The payload a caller reads through a payload pointer. -/
def payloadAt (b : SDiskbasedResultBuf) (page : Nat) : Option (List Nat) :=
  match b.mem[page]? with
  | none => none
  | some slab => some slab.payload

/-- The page object registered under a page id in the table `all`. -/
def pageOfId (b : SDiskbasedResultBuf) (id : Int) : Option SPageInfo :=
  match taosHashGet b.all id with
  | none => none
  | some pi => b.pages[pi]?

/-- One step of a client of the buffer. -/
inductive Call where
  | newDataBuf (env : Env) (groupId : Int)
  | resBufPage (env : Env) (id : Int)
  | release (page : Nat)
  | store (page : Nat) (bytes : List Nat)
  deriving DecidableEq, Repr

/-- What a call hands back to the client. -/
inductive Ret where
  | newPage (pageId : Int) (page : Nat)
  | page (page : Nat)
  | done
  deriving DecidableEq, Repr

/-- Perform one call. -/
def exec (d : Deps) (b : SDiskbasedResultBuf) : Call → Except Fault (SDiskbasedResultBuf × Ret)
  | .newDataBuf env groupId =>
    match getNewDataBuf d env b groupId with
    | .error e => .error e
    | .ok (b1, pageId, page) => .ok (b1, .newPage pageId page)
  | .resBufPage env id =>
    match getResBufPage d env b id with
    | .error e => .error e
    | .ok (b1, page) => .ok (b1, .page page)
  | .release page =>
    match releaseResBufPage b page with
    | .error e => .error e
    | .ok b1 => .ok (b1, .done)
  | .store page bytes =>
    match storePayload b page bytes with
    | .error e => .error e
    | .ok b1 => .ok (b1, .done)

/-- Perform a sequence of calls, collecting what they return. -/
def runCalls (d : Deps) (b : SDiskbasedResultBuf) :
    List Call → Except Fault (SDiskbasedResultBuf × List Ret)
  | [] => .ok (b, [])
  | c :: cs =>
    match exec d b c with
    | .error e => .error e
    | .ok (b1, r) =>
      match runCalls d b1 cs with
      | .error e => .error e
      | .ok (b2, rs) => .ok (b2, r :: rs)

/-- A buffer is created and a sequence of calls performed on it. -/
def session (d : Deps) (rowSize pagesize inMemBufSize : Nat) (cs : List Call) :
    Except Fault (SDiskbasedResultBuf × List Ret) :=
  match createDiskbasedResultBuffer d rowSize pagesize inMemBufSize with
  | .error e => .error e
  | .ok b => runCalls d b cs

/-- A stand-in for the string codec: trailing zero bytes are cut off and
restored.  It is used to run the buffer on concrete inputs. -/
def trimDeps : Deps :=
  { POINTER_BYTES := 8
    sizeofFilePage := 8
    tsCompressString := fun x => (x.reverse.dropWhile (fun v => v == 0)).reverse
    tsDecompressString := fun y n => y ++ List.replicate (n - y.length) 0 }


/-! ## Predicates used in the statements -/

/-- The fields that only `getNewDataBuf` itself writes. -/
def SameTables (b b' : SDiskbasedResultBuf) : Prop :=
  b'.numOfPages = b.numOfPages ∧ b'.totalBufSize = b.totalBufSize ∧
  b'.allocateId = b.allocateId ∧ b'.pageSize = b.pageSize ∧
  b'.groupSet = b.groupSet ∧ b'.all = b.all ∧ b'.nodeSeq = b.nodeSeq ∧
  b'.pages.length = b.pages.length

/-- The state in which `getNewDataBuf` and `getResBufPage` look for a slab:
`statis.getPages` has been counted up. -/
def counted (b : SDiskbasedResultBuf) : SDiskbasedResultBuf :=
  { b with statis := { b.statis with getPages := b.statis.getPages + 1 } }

/-- The slab search shared by `getNewDataBuf` and `getResBufPage` ended in
state `b1` with slab `avail`. -/
def Acquired (d : Deps) (env : Env) (b b1 : SDiskbasedResultBuf) (avail : Option Nat) : Prop :=
  (b.numOfPages < b.inMemPages ∧ b1 = counted b ∧ avail = none) ∨
  (b.inMemPages ≤ b.numOfPages ∧ evicOneDataPage d env (counted b) = .ok (b1, avail))

/-- Every node of the LRU list refers to a page that points back to the node
and has a slab. -/
def LruSound (b : SDiskbasedResultBuf) : Prop :=
  ∀ n ∈ b.lruList, ∃ p, b.pages[n.data]? = some p ∧ p.pn = some n.id ∧ p.pData ≠ none

/-- Number of pages with `pData != NULL`. -/
def residentPages (b : SDiskbasedResultBuf) : Nat :=
  b.pages.countP (fun p => p.pData.isSome)

/-- Whether the scratch file can be created during the call. -/
def Call.fopenOk : Call → Bool
  | .newDataBuf env _ => env.fopenOk
  | .resBufPage env _ => env.fopenOk
  | .release _ => true
  | .store _ _ => true

/-- The budget invariant: the resident pages fit the budget, every page object
is counted in `numOfPages`, and the budget is at least two pages. -/
def BudgetInv (b : SDiskbasedResultBuf) : Prop :=
  residentPages b ≤ b.inMemPages ∧ b.pages.length = b.numOfPages ∧ 2 ≤ b.inMemPages

/-- Every page that has a slab has a node in the LRU list. -/
def LruCovers (b : SDiskbasedResultBuf) : Prop :=
  ∀ i p, b.pages[i]? = some p → p.pData ≠ none → ∃ n ∈ b.lruList, n.data = i

/-- The nodes of the LRU list have distinct addresses, all handed out already. -/
def LruFresh (b : SDiskbasedResultBuf) : Prop :=
  (b.lruList.map SListNode.id).Nodup ∧ ∀ n ∈ b.lruList, n.id < b.nodeSeq

/-- The LRU list holds exactly the memory-resident pages. -/
def LruExact (b : SDiskbasedResultBuf) : Prop :=
  LruSound b ∧ LruCovers b ∧ LruFresh b

/-- The buffer at the end of a session (a blank record if the session faults). -/
def finalBuf (r : Except Fault (SDiskbasedResultBuf × List Ret)) : SDiskbasedResultBuf :=
  match r with
  | .ok (b, _) => b
  | .error _ => ⟨0, 0, 0, 0, none, -1, 0, 0, [], [], [], none, 0, true, ⟨0, 0, 0, 0, 0⟩, [], [], 0⟩

/-- What the calls of a session returned (nothing if the session faults). -/
def finalRets (r : Except Fault (SDiskbasedResultBuf × List Ret)) : List Ret :=
  match r with
  | .ok (_, rs) => rs
  | .error _ => []

/-- The page ids that the `getNewDataBuf` calls of a session returned, in order. -/
def newPageIds : List Ret → List Int
  | [] => []
  | .newPage pageId _ :: rs => pageId :: newPageIds rs
  | .page _ :: rs => newPageIds rs
  | .done :: rs => newPageIds rs

/-- Whether a call is a call of `getNewDataBuf`. -/
def Call.isNew : Call → Bool
  | .newDataBuf _ _ => true
  | _ => false

/-- What a call does to `allocateId`, by what it returns. -/
def IdStep (b b' : SDiskbasedResultBuf) : Ret → Prop
  | .newPage pageId _ => pageId = wrapInt32 (b.allocateId + 1) ∧ b'.allocateId = pageId
  | .page _ => b'.allocateId = b.allocateId
  | .done => b'.allocateId = b.allocateId

/-- A call of `getNewDataBuf` returns a new page, the other calls do not. -/
def RetMatches : Call → Ret → Prop
  | .newDataBuf _ _, .newPage _ _ => True
  | .resBufPage _ _, .page _ => True
  | .release _, .done => True
  | .store _ _, .done => True
  | _, _ => False

/-- The group id a call of `getNewDataBuf` is made with. -/
def Call.group? : Call → Option Int
  | .newDataBuf _ groupId => some groupId
  | _ => none

/-- The group ids of the `getNewDataBuf` calls of a session, in order. -/
def groupsOf : List Call → List Int
  | [] => []
  | c :: cs =>
    match c.group? with
    | some g => g :: groupsOf cs
    | none => groupsOf cs

/-- A session that consists of `getNewDataBuf` calls only. -/
def newCalls (reqs : List (Env × Int)) : List Call :=
  reqs.map (fun q => Call.newDataBuf q.1 q.2)

/-- The positions, counted from 0, at which group `g` occurs in `gs`: the pages
created with group `g` when the k-th created page is counted as k, in the order
of creation. -/
def idsOfGroup (gs : List Int) (g : Int) : List Nat :=
  (List.range gs.length).filter (fun i => gs[i]? == some g)

/-- The page ids of a list of `SPageInfo*`. -/
def pageIdsOf (b : SDiskbasedResultBuf) (l : List Nat) : List (Option Int) :=
  l.map (fun pi => (b.pages[pi]?).map SPageInfo.pageId)

/-- The tables of the buffer record the pages created so far, `gs` being the
group ids they were created with. -/
def TableInv (b : SDiskbasedResultBuf) (gs : List Int) : Prop :=
  b.pages.length = gs.length ∧ b.allocateId = wrapInt32 ((gs.length : Int) - 1) ∧
  (∀ (i : Nat) (p : SPageInfo), b.pages[i]? = some p → p.pageId = wrapInt32 i) ∧
  ∀ g, getDataBufPagesIdList b g = idsOfGroup gs g

/-- No page was released or evicted yet: the LRU list holds every page, all used. -/
def AllPinned (b : SDiskbasedResultBuf) : Prop :=
  (∀ m ∈ b.lruList, ∃ p, b.pages[m.data]? = some p ∧ 0 ≤ p.pageId ∧ p.pn = some m.id ∧
    p.used = true) ∧
  b.lruList.length = b.numOfPages ∧ b.numOfPages ≤ b.inMemPages ∧ 2 ≤ b.inMemPages

/-- The keys of the table `all` are the page ids `ids`. -/
def KnownIds (b : SDiskbasedResultBuf) (ids : List Int) : Prop :=
  ∀ id, taosHashGet b.all id ≠ none ↔ id ∈ ids

/-- What a call does to the table `all`, by what it returns. -/
def AllStep (b b' : SDiskbasedResultBuf) : Ret → Prop
  | .newPage pageId _ => ∃ pi, b'.all = taosHashPut b.all pageId pi
  | .page _ => b'.all = b.all
  | .done => b'.all = b.all

/-- Whether a call is a call of `getResBufPage` or of `releaseResBufPage`. -/
def Call.isFetchOrRelease : Call → Bool
  | .resBufPage _ _ => true
  | .release _ => true
  | _ => false

/-- Nothing was flushed yet: no flush is counted, the scratch file does not
exist, every page has its slab, and `numOfPages` counts the page objects. -/
def Fits (b : SDiskbasedResultBuf) : Prop :=
  b.statis.flushPages = 0 ∧ b.statis.flushBytes = 0 ∧ b.file = none ∧
  (∀ p ∈ b.pages, p.pData ≠ none) ∧ b.pages.length = b.numOfPages

/-- The links from the pages to their LRU nodes: no two pages have the same
node, and every node address was handed out already. -/
def PnLinks (pages : List SPageInfo) (nodeSeq : Nat) : Prop :=
  (∀ (i j : Nat) (p q : SPageInfo) (n : Nat), pages[i]? = some p → pages[j]? = some q →
    p.pn = some n → q.pn = some n → i = j) ∧
  (∀ (p : SPageInfo) (n : Nat), p ∈ pages → p.pn = some n → n < nodeSeq)

/-- A page's disk extent is in order: the offset is -1 or a file position, and
a page without a slab has no LRU node and a proper extent. -/
def PageOk (p : SPageInfo) : Prop :=
  (p.info.offset = -1 ∨ 0 ≤ p.info.offset) ∧
  (p.pData = none → p.pn = none ∧ 0 ≤ p.info.length ∧ 0 ≤ p.info.offset)

/-- What `getResBufPage` and `flushPageToDisk` assert about the bookkeeping:
the links to the LRU nodes, the disk extents, and `totalBufSize`. -/
def LinkInv (b : SDiskbasedResultBuf) : Prop :=
  PnLinks b.pages b.nodeSeq ∧ (∀ p ∈ b.pages, PageOk p) ∧
  b.pFree = none ∧ 0 ≤ b.nextPos ∧ b.numOfPages * b.pageSize = b.totalBufSize

/-- The function `getNumOfRowsPerPage`. -/
def getNumOfRowsPerPage (b : SDiskbasedResultBuf) : Nat :=
  b.numOfRowsPerPage

/-- The function `getLastPageInfo`: the entry at index `size - 1` of the list,
the index being computed in `size_t` (64 bits); `none` if there is no such entry. -/
def getLastPageInfo (pList : List Nat) : Option Nat :=
  pList[(pList.length + 18446744073709551616 - 1) % 18446744073709551616]?

/-- Page `i` with content `p` has a slab and a node in the list `l` that refers
to it and that `p.pn` points to. -/
def Linked (l : List SListNode) (i : Nat) (p : SPageInfo) : Prop :=
  p.pData ≠ none ∧ ∃ n ∈ l, n.data = i ∧ p.pn = some n.id

/-- Every pinned page is memory-resident and has its node in the LRU list; as
long as there is at most one page, so does every page; the budget is at least
two pages. -/
def PinInv (b : SDiskbasedResultBuf) : Prop :=
  (∀ (i : Nat) (p : SPageInfo), b.pages[i]? = some p → p.used = true → Linked b.lruList i p) ∧
  (b.numOfPages ≤ 1 → ∀ (i : Nat) (p : SPageInfo), b.pages[i]? = some p →
    Linked b.lruList i p) ∧
  2 ≤ b.inMemPages

/-- The disk extents `infos` of the pages lie below `nextPos` and no two of
them overlap (`offset = -1`: the page was never written). -/
def ExtentsOk (infos : List SPageDiskInfo) (nextPos : Int) : Prop :=
  (∀ x ∈ infos, x.offset ≠ -1 → 0 ≤ x.offset ∧ 0 ≤ x.length ∧ x.offset + x.length ≤ nextPos) ∧
  (∀ (i j : Nat) (x y : SPageDiskInfo), i ≠ j → infos[i]? = some x → infos[j]? = some y →
    x.offset ≠ -1 → y.offset ≠ -1 →
    x.offset + x.length ≤ y.offset ∨ y.offset + y.length ≤ x.offset)

/-- The bytes that `fread` delivers in `loadPageFromDisk` for a page with the
disk extent `info`, the file holding `f`. -/
def freadBytes (env : Env) (f : List Nat) (info : SPageDiskInfo) : List Nat :=
  match env.freadMax with
  | none => (f.drop info.offset.toNat).take info.length.toNat
  | some k => ((f.drop info.offset.toNat).take info.length.toNat).take k

/-- A session on a buffer whose `comp` flag the caller has set to `comp` right
after `createDiskbasedResultBuffer`, which itself always sets the flag to `true`. -/
def sessionComp (d : Deps) (comp : Bool) (rowSize pagesize inMemBufSize : Nat)
    (cs : List Call) : Except Fault (SDiskbasedResultBuf × List Ret) :=
  match createDiskbasedResultBuffer d rowSize pagesize inMemBufSize with
  | .error e => .error e
  | .ok b => runCalls d { b with comp := comp } cs

/-- The function `getResBufSize`. -/
def getResBufSize (b : SDiskbasedResultBuf) : Nat :=
  b.totalBufSize

/-- Number of pages with an LRU node (`pn != NULL`). -/
def linkedPages (b : SDiskbasedResultBuf) : Nat :=
  b.pages.countP (fun p => p.pn.isSome)

/-- The LRU list has one node per page with `pn != NULL`, it fits the budget,
the budget is at least two pages, and `numOfPages` counts the page objects. -/
def RoomInv (b : SDiskbasedResultBuf) : Prop :=
  b.lruList.length = linkedPages b ∧ b.lruList.length ≤ b.inMemPages ∧
  2 ≤ b.inMemPages ∧ b.pages.length = b.numOfPages

/-- Run a session and look at the final buffer. -/
def observe {α : Type} (r : Except Fault (SDiskbasedResultBuf × List Ret))
    (f : SDiskbasedResultBuf → α) : Option α :=
  match r with
  | .error _ => none
  | .ok (b, _) => some (f b)

/-! ## Concrete sessions

All of them run on a buffer created by
`createDiskbasedResultBuffer trimDeps 4 16 32 ...`: pages of 16 bytes and a
budget of `32 / 16 = 2` pages (or `48 / 16 = 3` pages where said so). -/

/-- A page payload of 16 bytes `v`. -/
def fill (v : Nat) : List Nat := List.replicate 16 v

/-- A session in which the creation of the scratch file fails: two pages within
the budget of two, then a third page whose eviction attempt cannot open the file. -/
def fopenFailureCalls : List Call :=
  [.newDataBuf Env.good 0, .release 0, .newDataBuf Env.good 0, .newDataBuf ⟨false, none⟩ 0]

/-- Two pages are created, written and released: the budget of two is used up
and both pages can be evicted. -/
def twoReleasedCalls : List Call :=
  [.newDataBuf Env.good 0, .store 0 (fill 161), .release 0,
   .newDataBuf Env.good 0, .store 1 (fill 162), .release 1]

/-- After `twoReleasedCalls` a third page is created: page 0 is evicted and its
slab handed to the new page. -/
def recycleCalls : List Call :=
  twoReleasedCalls ++ [.newDataBuf Env.good 0]

/-- The scenario "eviction and reload" with a budget of three pages: three
pages are created, written and released, a fourth page is created (page 0 is
evicted), then page 0 is fetched again. -/
def reloadCalls : List Call :=
  [.newDataBuf Env.good 0, .store 0 (fill 161), .release 0,
   .newDataBuf Env.good 0, .store 1 (fill 162), .release 1,
   .newDataBuf Env.good 0, .store 2 (fill 163), .release 2,
   .newDataBuf Env.good 0, .resBufPage Env.good 0]

/-- A client that holds page 2, fetches page 0 and writes it, fetches page 1
and writes page 0 once more through the pointer it holds, then fetches page 0. -/
def aliasCalls : List Call :=
  recycleCalls ++
  [.resBufPage Env.good 0, .store 1 (fill 3), .resBufPage Env.good 1, .store 1 (fill 4),
   .resBufPage Env.good 0]

/-- Two pages are created and kept pinned. -/
def twoPinnedCalls : List Call :=
  [.newDataBuf Env.good 0, .newDataBuf Env.good 0]

/-- The buffer after `twoPinnedCalls`. -/
def twoPinnedBuf : SDiskbasedResultBuf :=
  { numOfRowsPerPage := 2
    numOfPages := 2
    totalBufSize := 32
    fileSize := 0
    file := none
    allocateId := 1
    pageSize := 16
    inMemPages := 2
    groupSet := [(0, [0, 1])]
    all := [(0, 0), (1, 1)]
    lruList := [⟨1, 1⟩, ⟨0, 0⟩]
    pFree := none
    nextPos := 0
    comp := true
    statis := ⟨2, 0, 0, 0, 0⟩
    pages := [⟨some 0, 0, ⟨-1, -1⟩, some 0, true⟩, ⟨some 1, 1, ⟨-1, -1⟩, some 1, true⟩]
    mem := [⟨some 0, fill 0⟩, ⟨some 1, fill 0⟩]
    nodeSeq := 2 }

/-- The buffer after `twoReleasedCalls`. -/
def twoReleasedBuf : SDiskbasedResultBuf :=
  { twoPinnedBuf with
    statis := ⟨2, 2, 0, 0, 0⟩
    pages := [⟨some 0, 0, ⟨-1, -1⟩, some 0, false⟩, ⟨some 1, 1, ⟨-1, -1⟩, some 1, false⟩]
    mem := [⟨some 0, fill 161⟩, ⟨some 1, fill 162⟩] }

/-- Three pages are created and kept pinned (budget three), then a fourth. -/
def fourPinnedCalls : List Call :=
  [.newDataBuf Env.good 0, .newDataBuf Env.good 0, .newDataBuf Env.good 0,
   .newDataBuf Env.good 0]

/-- The first three calls of `fopenFailureCalls`: the state before the eviction
attempt in which `fopen` fails. -/
def beforeFopenFailureCalls : List Call :=
  [.newDataBuf Env.good 0, .release 0, .newDataBuf Env.good 0]

/-- Three pages are created and kept pinned (budget three). -/
def threePinnedCalls : List Call :=
  [.newDataBuf Env.good 0, .newDataBuf Env.good 0, .newDataBuf Env.good 0]

/-- The buffer after `beforeFopenFailureCalls`: page 0 released, page 1 pinned. -/
def beforeFopenFailureBuf : SDiskbasedResultBuf :=
  { twoPinnedBuf with
    statis := ⟨2, 1, 0, 0, 0⟩
    pages := [⟨some 0, 0, ⟨-1, -1⟩, some 0, false⟩, ⟨some 1, 1, ⟨-1, -1⟩, some 1, true⟩] }

/-- The buffer `beforeFopenFailureBuf` after an eviction attempt that could not
create the scratch file. -/
def failedFlushBuf : SDiskbasedResultBuf :=
  { twoPinnedBuf with
    statis := ⟨2, 1, 1, 0, 0⟩
    lruList := [⟨1, 1⟩]
    pages := [⟨none, 0, ⟨-1, -1⟩, some 0, false⟩, ⟨some 1, 1, ⟨-1, -1⟩, some 1, true⟩] }

/-- The first part of the scenario "fits in memory" with a budget of three
pages: three pages are created and filled with the bytes 161, 162 and 163. -/
def withinBudgetCalls : List Call :=
  [.newDataBuf Env.good 0, .store 0 (fill 161),
   .newDataBuf Env.good 0, .store 1 (fill 162),
   .newDataBuf Env.good 0, .store 2 (fill 163)]

/-- The second part of the scenario "fits in memory": the three pages are
released and then fetched in reverse order. -/
def releaseAndFetchCalls : List Call :=
  [.release 0, .release 1, .release 2,
   .resBufPage Env.good 2, .resBufPage Env.good 1, .resBufPage Env.good 0]

/-- The buffer after `withinBudgetCalls`. -/
def threeFilledBuf : SDiskbasedResultBuf :=
  { numOfRowsPerPage := 2
    numOfPages := 3
    totalBufSize := 48
    fileSize := 0
    file := none
    allocateId := 2
    pageSize := 16
    inMemPages := 3
    groupSet := [(0, [0, 1, 2])]
    all := [(0, 0), (1, 1), (2, 2)]
    lruList := [⟨2, 2⟩, ⟨1, 1⟩, ⟨0, 0⟩]
    pFree := none
    nextPos := 0
    comp := true
    statis := ⟨3, 0, 0, 0, 0⟩
    pages := [⟨some 0, 0, ⟨-1, -1⟩, some 0, true⟩, ⟨some 1, 1, ⟨-1, -1⟩, some 1, true⟩,
              ⟨some 2, 2, ⟨-1, -1⟩, some 2, true⟩]
    mem := [⟨some 0, fill 161⟩, ⟨some 1, fill 162⟩, ⟨some 2, fill 163⟩]
    nodeSeq := 3 }

/-- A payload of 16 bytes that the stand-in codec shortens to the one byte `v`. -/
def sparse (v : Nat) : List Nat := v :: List.replicate 15 0

/-- The start of the scenario "eviction and reload" with a budget of three
pages: three pages are created, filled and released. -/
def threeReleasedCalls : List Call :=
  [.newDataBuf Env.good 0, .store 0 (fill 161), .release 0,
   .newDataBuf Env.good 0, .store 1 (fill 162), .release 1,
   .newDataBuf Env.good 0, .store 2 (fill 163), .release 2]

/-- As `threeReleasedCalls`, with payloads that the stand-in codec shortens. -/
def threeSparseCalls : List Call :=
  [.newDataBuf Env.good 0, .store 0 (sparse 161), .release 0,
   .newDataBuf Env.good 0, .store 1 (sparse 162), .release 1,
   .newDataBuf Env.good 0, .store 2 (sparse 163), .release 2]

/-- After `threeReleasedCalls` a fourth page is created: page 0 is evicted. -/
def pageZeroEvictedCalls : List Call :=
  threeReleasedCalls ++ [.newDataBuf Env.good 0]

/-- After `pageZeroEvictedCalls` page 0 is fetched and `fread` delivers no byte. -/
def shortReadCalls : List Call :=
  pageZeroEvictedCalls ++ [.resBufPage ⟨true, some 0⟩ 0]

/-- The buffer after `threeReleasedCalls` when the caller has cleared `comp`. -/
def threeReleasedPlainBuf : SDiskbasedResultBuf :=
  { threeFilledBuf with
    comp := false
    statis := ⟨3, 3, 0, 0, 0⟩
    pages := [⟨some 0, 0, ⟨-1, -1⟩, some 0, false⟩, ⟨some 1, 1, ⟨-1, -1⟩, some 1, false⟩,
              ⟨some 2, 2, ⟨-1, -1⟩, some 2, false⟩] }

/-- Budget two.  Page 0 is filled, released and evicted (16 bytes at offset 0),
fetched again and overwritten with a payload that the codec shortens to 1 byte. -/
def slotCalls : List Call :=
  [.newDataBuf Env.good 0, .store 0 (fill 161), .release 0,
   .newDataBuf Env.good 0, .release 1,
   .newDataBuf Env.good 0,
   .resBufPage Env.good 0, .store 1 (sparse 5)]

/-- After `slotCalls` a fourth page is created: page 0 is flushed into its slot. -/
def shrinkCalls : List Call :=
  slotCalls ++ [.newDataBuf Env.good 0]

/-- The buffer after `slotCalls`. -/
def slotBuf : SDiskbasedResultBuf :=
  { numOfRowsPerPage := 2
    numOfPages := 3
    totalBufSize := 48
    fileSize := 15
    file := some (fill 161)
    allocateId := 2
    pageSize := 16
    inMemPages := 2
    groupSet := [(0, [0, 1, 2])]
    all := [(0, 0), (1, 1), (2, 2)]
    lruList := [⟨3, 0⟩, ⟨2, 2⟩]
    pFree := none
    nextPos := 16
    comp := true
    statis := ⟨4, 2, 2, 16, 16⟩
    pages := [⟨some 3, 0, ⟨0, 16⟩, some 1, false⟩, ⟨none, 1, ⟨16, 0⟩, none, false⟩,
              ⟨some 2, 2, ⟨-1, -1⟩, some 0, true⟩]
    mem := [⟨some 2, List.replicate 8 0 ++ List.replicate 8 161⟩, ⟨some 0, sparse 5⟩]
    nodeSeq := 4 }

/-- Budget two.  Page 0 holds a payload that the codec shortens to 1 byte; it is
released and evicted (1 byte at offset 0), fetched again and overwritten with 16
bytes that the codec cannot shorten. -/
def beforeGrowCalls : List Call :=
  [.newDataBuf Env.good 0, .store 0 (sparse 5), .release 0,
   .newDataBuf Env.good 0, .release 1,
   .newDataBuf Env.good 0,
   .resBufPage Env.good 0, .store 1 (fill 7)]

/-- After `beforeGrowCalls` page 3 is created: page 0 is flushed, and its 16
bytes do not fit its slot of 1 byte. -/
def growCalls : List Call :=
  beforeGrowCalls ++ [.newDataBuf Env.good 0]

/-- After `growCalls` page 3 gets a payload that the codec shortens to 1 byte
and is released; page 4 is created and page 3 flushed for the first time. -/
def reuseCalls : List Call :=
  growCalls ++ [.store 1 (sparse 9), .release 1, .newDataBuf Env.good 0]

/-- A stand-in codec whose decoder returns fewer bytes than a page has:
trailing zero bytes are cut off on compression and not restored. -/
def truncDeps : Deps :=
  { trimDeps with tsDecompressString := fun y _ => y }

/-- Budget three.  Page 0 gets a payload that the codec shortens to 1 byte, the
pages 1 and 2 payloads that it cannot shorten; all are released, page 3 is
created (page 0 is evicted) and page 0 is fetched (page 1 is evicted and page 0
reloaded into its slab). -/
def corruptDecodeCalls : List Call :=
  [.newDataBuf Env.good 0, .store 0 (sparse 161), .release 0,
   .newDataBuf Env.good 0, .store 1 (fill 162), .release 1,
   .newDataBuf Env.good 0, .store 2 (fill 163), .release 2,
   .newDataBuf Env.good 0, .resBufPage Env.good 0]

/-- Budget four.  Page 0 is released and evicted by the creation of page 4; the
pages 1 to 4 stay pinned, so the creation of page 5 raises the budget to six:
five pages are memory-resident, six were created. -/
def beforeEarlyEvictionCalls : List Call :=
  [.newDataBuf Env.good 0, .release 0, .newDataBuf Env.good 0, .newDataBuf Env.good 0,
   .newDataBuf Env.good 0, .newDataBuf Env.good 0, .newDataBuf Env.good 0]

/-- After `beforeEarlyEvictionCalls` page 5 is released and page 6 created. -/
def earlyEvictionCalls : List Call :=
  beforeEarlyEvictionCalls ++ [.release 4, .newDataBuf Env.good 0]

/-- After `beforeEarlyEvictionCalls` page 6 is created, all pages being pinned. -/
def earlyGrowthCalls : List Call :=
  beforeEarlyEvictionCalls ++ [.newDataBuf Env.good 0]

/-- A free list of three regions. -/
def threeRegions : List SFreeListItem :=
  [⟨0, 4⟩, ⟨10, 8⟩, ⟨30, 16⟩]

/-- Pages are created in the groups 7, 7, 9, 9, 9, 7. -/
def groupRequests : List (Env × Int) :=
  [(Env.good, 7), (Env.good, 7), (Env.good, 9), (Env.good, 9), (Env.good, 9), (Env.good, 7)]


/-! ## Basic facts about the tables -/

theorem taosHashGet_put_same {α : Type} (h : List (Int × α)) (k : Int) (v : α) :
    taosHashGet (taosHashPut h k v) k = some v := by
  induction h with
  | nil => simp [taosHashPut, taosHashGet]
  | cons x t ih =>
    obtain ⟨k', v'⟩ := x
    by_cases hk : k' = k
    · simp [taosHashPut, taosHashGet, hk]
    · simp [taosHashPut, taosHashGet, hk, ih]

theorem taosHashGet_put_other {α : Type} (h : List (Int × α)) (k k₂ : Int) (v : α)
    (hne : k ≠ k₂) : taosHashGet (taosHashPut h k v) k₂ = taosHashGet h k₂ := by
  induction h with
  | nil => simp [taosHashPut, taosHashGet, hne]
  | cons x t ih =>
    obtain ⟨k', v'⟩ := x
    by_cases hk : k' = k
    · subst hk
      simp [taosHashPut, taosHashGet, hne]
    · by_cases hk2 : k' = k₂
      · subst hk2
        have hk3 : ¬ k' = k := hk
        simp [taosHashPut, taosHashGet, hk3]
      · simp [taosHashPut, taosHashGet, hk, hk2, ih]

theorem modify_concat_length {α : Type} (f : α → α) (l : List α) (a : α) :
    List.modify f l.length (l ++ [a]) = l ++ [f a] := by
  induction l with
  | nil => rfl
  | cons x t ih => simpa [List.modify] using ih

theorem getElem?_modify_ne {α : Type} (f : α → α) (l : List α) (i j : Nat) (h : i ≠ j) :
    (List.modify f i l)[j]? = l[j]? := by
  rw [List.getElem?_modify]
  cases l[j]? <;> simp [h]

theorem getElem?_set_ne' {α : Type} (l : List α) (i j : Nat) (a : α) (h : i ≠ j) :
    (l.set i a)[j]? = l[j]? := by
  simp [List.getElem?_set, h]

theorem getElem?_set_at {α : Type} (l : List α) (i : Nat) (a : α) (h : i < l.length) :
    (l.set i a)[i]? = some a := by
  simp [List.getElem?_set, h]

/-! ## The frame of the functions: what a call leaves alone -/

theorem doFlushPageToDisk_ok {d : Deps} {b b' : SDiskbasedResultBuf} {pg s : Nat}
    (h : doFlushPageToDisk d b pg = .ok (b', s)) :
    ∃ p info, b.pages[pg]? = some p ∧ p.used = false ∧ p.pData = some s ∧
      b'.pages = b.pages.set pg { p with info := info, pData := none } ∧
      b'.lruList = b.lruList ∧ b'.inMemPages = b.inMemPages ∧ SameTables b b' ∧
      s < b.mem.length ∧ b'.mem.length = b.mem.length := by
  unfold doFlushPageToDisk at h
  split at h
  · simp at h
  · rename_i p hp
    split at h
    · simp at h
    · simp at h
    · rename_i s' hu hd
      split at h
      · simp at h
      · simp at h
      · rename_i slab f hm hf
        split at h
        · simp at h
        · rename_i size t hc
          simp only [Except.ok.injEq, Prod.mk.injEq] at h
          obtain ⟨hb, hs⟩ := h
          subst hb hs
          refine ⟨p, _, hp, hu, hd, rfl, rfl, rfl, ?_, ?_, ?_⟩
          · simp [SameTables]
          · have := List.getElem?_eq_some.1 hm
            exact this.1
          · simp


theorem flushPageToDisk_ok {d : Deps} {env : Env} {b b' : SDiskbasedResultBuf} {pg : Nat}
    {r : Option Nat} (h : flushPageToDisk d env b pg = .ok (b', r)) :
    b.inMemPages ≤ b.numOfPages ∧
    ((r = none ∧ b' = b ∧ env.fopenOk = false) ∨
     (∃ s p info, r = some s ∧ b.pages[pg]? = some p ∧ p.used = false ∧ p.pData = some s ∧
        b'.pages = b.pages.set pg { p with info := info, pData := none } ∧
        b'.lruList = b.lruList ∧ b'.inMemPages = b.inMemPages ∧ SameTables b b' ∧
        s < b.mem.length ∧ b'.mem.length = b.mem.length)) := by
  unfold flushPageToDisk at h
  split at h
  · simp at h
  · rename_i hbud
    simp only [not_not] at hbud
    refine ⟨hbud.2, ?_⟩
    split at h
    · split at h
      · split at h
        · simp at h
        · rename_i b2 s hfl
          simp only [Except.ok.injEq, Prod.mk.injEq] at h
          obtain ⟨hb, hr⟩ := h
          subst hb hr
          obtain ⟨p, info, h1, h2, h3, h4, h5, h6, h7, h8, h9⟩ := doFlushPageToDisk_ok hfl
          exact Or.inr ⟨s, p, info, rfl, h1, h2, h3, h4, h5, h6, h7, h8, h9⟩
      · rename_i hfo
        simp only [Except.ok.injEq, Prod.mk.injEq] at h
        obtain ⟨hb, hr⟩ := h
        subst hb hr
        exact Or.inl ⟨rfl, rfl, by simpa using hfo⟩
    · split at h
      · simp at h
      · rename_i b2 s hfl
        simp only [Except.ok.injEq, Prod.mk.injEq] at h
        obtain ⟨hb, hr⟩ := h
        subst hb hr
        obtain ⟨p, info, h1, h2, h3, h4, h5, h6, h7, h8, h9⟩ := doFlushPageToDisk_ok hfl
        exact Or.inr ⟨s, p, info, rfl, h1, h2, h3, h4, h5, h6, h7, h8, h9⟩

theorem eldestFrom_some {pages : List SPageInfo} {l : List SListNode} {n : SListNode}
    (h : eldestFrom pages l = .ok (some n)) :
    n ∈ l ∧ ∃ p, pages[n.data]? = some p ∧ p.used = false ∧ p.pn = some n.id ∧ 0 ≤ p.pageId := by
  induction l with
  | nil => simp [eldestFrom] at h
  | cons m rest ih =>
    unfold eldestFrom at h
    split at h
    · simp at h
    · rename_i p hp
      split at h
      · simp at h
      · rename_i hok
        simp only [not_not] at hok
        split at h
        · rename_i hu
          simp only [Except.ok.injEq, Option.some.injEq] at h
          subst h
          exact ⟨List.mem_cons_self _ _, p, hp, by simpa using hu, hok.2, hok.1⟩
        · obtain ⟨hm, hrest⟩ := ih h
          exact ⟨List.mem_cons_of_mem _ hm, hrest⟩

theorem eldestFrom_none {pages : List SPageInfo} {l : List SListNode}
    (h : eldestFrom pages l = .ok none) :
    ∀ n ∈ l, ∃ p, pages[n.data]? = some p ∧ p.used = true := by
  induction l with
  | nil => simp
  | cons m rest ih =>
    unfold eldestFrom at h
    split at h
    · simp at h
    · rename_i p hp
      split at h
      · simp at h
      · split at h
        · simp at h
        · rename_i hu
          intro n hn
          rcases List.mem_cons.1 hn with hn | hn
          · subst hn
            exact ⟨p, hp, by simpa using hu⟩
          · exact ih h n hn

theorem eldestFrom_none_of {pages : List SPageInfo} {l : List SListNode}
    (h : ∀ n ∈ l, ∃ p, pages[n.data]? = some p ∧ 0 ≤ p.pageId ∧ p.pn = some n.id ∧
      p.used = true) : eldestFrom pages l = .ok none := by
  induction l with
  | nil => rfl
  | cons m rest ih =>
    obtain ⟨p, hp, h1, h2, h3⟩ := h m (List.mem_cons_self _ _)
    unfold eldestFrom
    simp only [hp]
    simp [h1, h2, h3]
    exact ih (fun n hn => h n (List.mem_cons_of_mem _ hn))

theorem getEldestUnrefedPage_some {b : SDiskbasedResultBuf} {n : SListNode}
    (h : getEldestUnrefedPage b = .ok (some n)) :
    n ∈ b.lruList ∧ ∃ p, b.pages[n.data]? = some p ∧ p.used = false ∧ p.pn = some n.id ∧
      0 ≤ p.pageId := by
  obtain ⟨hm, hp⟩ := eldestFrom_some h
  exact ⟨List.mem_reverse.1 hm, hp⟩

theorem getEldestUnrefedPage_none {b : SDiskbasedResultBuf}
    (h : getEldestUnrefedPage b = .ok none) :
    ∀ n ∈ b.lruList, ∃ p, b.pages[n.data]? = some p ∧ p.used = true :=
  fun n hn => eldestFrom_none h n (List.mem_reverse.2 hn)

theorem evicOneDataPage_ok {d : Deps} {env : Env} {b b' : SDiskbasedResultBuf}
    {r : Option Nat} (h : evicOneDataPage d env b = .ok (b', r)) :
    (getEldestUnrefedPage b = .ok none ∧ r = none ∧
      b' = { b with inMemPages := b.inMemPages * 3 / 2 }) ∨
    (∃ n p q, getEldestUnrefedPage b = .ok (some n) ∧ b.pages[n.data]? = some p ∧
      p.pn = some n.id ∧ p.used = false ∧
      b'.lruList = tdListPopNode b.lruList n.id ∧ b'.pages = b.pages.set n.data q ∧
      q.pn = none ∧ q.used = false ∧ q.pageId = p.pageId ∧
      b'.inMemPages = b.inMemPages ∧ b.inMemPages ≤ b.numOfPages ∧ SameTables b b' ∧
      b'.mem.length = b.mem.length ∧
      ((r = none ∧ env.fopenOk = false ∧ q.pData = p.pData) ∨
       (∃ s, r = some s ∧ p.pData = some s ∧ q.pData = none ∧ s < b.mem.length))) := by
  unfold evicOneDataPage at h
  split at h
  · simp at h
  · simp only [Except.ok.injEq, Prod.mk.injEq] at h
    rename_i hel
    exact Or.inl ⟨hel, h.2.symm, h.1.symm⟩
  · rename_i n hel
    right
    obtain ⟨_, p0, hp0, hu0, _, _⟩ := getEldestUnrefedPage_some hel
    split at h
    · simp at h
    · rename_i p hp
      split at h
      · simp at h
      · rename_i hpn
        simp only [not_not] at hpn
        have hpp : p0 = p := by rw [hp0] at hp; exact Option.some.inj hp
        subst hpp
        have hlt : n.data < b.pages.length := (List.getElem?_eq_some.1 hp).1
        obtain ⟨hbud, hfl⟩ := flushPageToDisk_ok h
        rcases hfl with ⟨hr, hb, hfo⟩ | ⟨s, p2, info, hr, hp2, hu2, hd2, hpages, hlru, hmem, hsame, hs, hml⟩
        · subst hb
          refine ⟨n, p0, { p0 with pn := none }, hel, hp, hpn, hu0, rfl, rfl, rfl, hu0, rfl, rfl,
            hbud, ?_, rfl, Or.inl ⟨hr, hfo, rfl⟩⟩
          simp [SameTables]
        · simp only [List.getElem?_set, hlt, if_true] at hp2
          simp only [Option.some.injEq] at hp2
          subst hp2
          refine ⟨n, p0, { p0 with pn := none, info := info, pData := none }, hel, hp, hpn, hu0,
            ?_, ?_, rfl, hu0, rfl, ?_, hbud, ?_, ?_, Or.inr ⟨s, hr, hd2, rfl, ?_⟩⟩
          · simpa using hlru
          · simpa [List.set_set] using hpages
          · simpa using hmem
          · simpa [SameTables] using hsame
          · simpa using hml
          · simpa using hs


@[simp] theorem counted_pages (b : SDiskbasedResultBuf) : (counted b).pages = b.pages := rfl

@[simp] theorem counted_lruList (b : SDiskbasedResultBuf) : (counted b).lruList = b.lruList := rfl

@[simp] theorem counted_inMemPages (b : SDiskbasedResultBuf) :
    (counted b).inMemPages = b.inMemPages := rfl

@[simp] theorem counted_numOfPages (b : SDiskbasedResultBuf) :
    (counted b).numOfPages = b.numOfPages := rfl

@[simp] theorem counted_mem (b : SDiskbasedResultBuf) : (counted b).mem = b.mem := rfl

@[simp] theorem counted_allocateId (b : SDiskbasedResultBuf) :
    (counted b).allocateId = b.allocateId := rfl

@[simp] theorem counted_groupSet (b : SDiskbasedResultBuf) :
    (counted b).groupSet = b.groupSet := rfl

@[simp] theorem counted_all (b : SDiskbasedResultBuf) : (counted b).all = b.all := rfl

@[simp] theorem counted_nodeSeq (b : SDiskbasedResultBuf) : (counted b).nodeSeq = b.nodeSeq := rfl

@[simp] theorem counted_pageSize (b : SDiskbasedResultBuf) :
    (counted b).pageSize = b.pageSize := rfl

@[simp] theorem counted_totalBufSize (b : SDiskbasedResultBuf) :
    (counted b).totalBufSize = b.totalBufSize := rfl

@[simp] theorem getEldestUnrefedPage_counted (b : SDiskbasedResultBuf) :
    getEldestUnrefedPage (counted b) = getEldestUnrefedPage b := rfl

theorem acquired_of_eq {d : Deps} {env : Env} {b b1 : SDiskbasedResultBuf} {avail : Option Nat}
    (h : (if NO_AVAILABLE_PAGES (counted b) then evicOneDataPage d env (counted b)
          else .ok (counted b, none)) = .ok (b1, avail)) : Acquired d env b b1 avail := by
  by_cases hn : b.inMemPages ≤ b.numOfPages
  · have : NO_AVAILABLE_PAGES (counted b) = true := by
      simpa [NO_AVAILABLE_PAGES, counted] using hn
    rw [this] at h
    exact Or.inr ⟨hn, by simpa using h⟩
  · have : NO_AVAILABLE_PAGES (counted b) = false := by
      simpa [NO_AVAILABLE_PAGES, counted] using hn
    rw [this] at h
    simp only [Bool.false_eq_true, if_false, Except.ok.injEq, Prod.mk.injEq] at h
    exact Or.inl ⟨by omega, h.1.symm, h.2.symm⟩

theorem getNewDataBuf_ok {d : Deps} {env : Env} {b b' : SDiskbasedResultBuf}
    {groupId pageId : Int} {page : Nat}
    (h : getNewDataBuf d env b groupId = .ok (b', pageId, page)) :
    ∃ b1 avail, Acquired d env b b1 avail ∧
      pageId = wrapInt32 (b1.allocateId + 1) ∧
      b'.pages = b1.pages ++ [⟨some b1.nodeSeq, pageId, PAGE_INFO_INITIALIZER, some page, true⟩] ∧
      b'.lruList = ⟨b1.nodeSeq, b1.pages.length⟩ :: b1.lruList ∧
      b'.inMemPages = b1.inMemPages ∧
      b'.numOfPages = b1.numOfPages + 1 ∧
      b'.allocateId = pageId ∧
      b'.groupSet = taosHashPut b1.groupSet groupId
        (getDataBufPagesIdList b1 groupId ++ [b1.pages.length]) ∧
      b'.all = taosHashPut b1.all pageId b1.pages.length ∧
      b1.lruList.length < b1.inMemPages ∧
      (avail = none → page = b1.mem.length) ∧ (∀ s, avail = some s → page = s) ∧
      b'.nodeSeq = b1.nodeSeq + 1 := by
  unfold getNewDataBuf at h
  simp only at h
  split at h
  · simp at h
  · rename_i b1 avail hev
    split at h
    · simp at h
    · rename_i hroom
      simp only [not_not] at hroom
      simp only [Except.ok.injEq, Prod.mk.injEq] at h
      obtain ⟨hb, hid, hpage⟩ := h
      subst hb
      refine ⟨b1, avail, acquired_of_eq hev, hid.symm, ?_, ?_, ?_, ?_, ?_, ?_, ?_, ?_, ?_, ?_, ?_⟩
      · cases avail <;>
          simp [attachSlab, lruListPushFront, registerPage, modify_concat_length, hid] at hpage ⊢ <;>
          exact hpage
      · cases avail <;> simp [attachSlab, lruListPushFront, registerPage]
      · cases avail <;> simp [attachSlab, lruListPushFront, registerPage]
      · cases avail <;> simp [attachSlab, lruListPushFront, registerPage]
      · cases avail <;> simp [attachSlab, lruListPushFront, registerPage, hid]
      · cases avail <;>
          simp [attachSlab, lruListPushFront, registerPage, getDataBufPagesIdList]
      · cases avail <;> simp [attachSlab, lruListPushFront, registerPage, hid]
      · simpa [registerPage] using hroom.1
      · intro ha
        subst ha
        simpa [attachSlab, lruListPushFront, registerPage] using hpage.symm
      · intro s ha
        subst ha
        simpa [attachSlab, lruListPushFront, registerPage] using hpage.symm
      · cases avail <;> simp [attachSlab, lruListPushFront, registerPage]


theorem loadPageFromDisk_ok {d : Deps} {env : Env} {b b' : SDiskbasedResultBuf} {pg : Nat}
    {r : Bool} (h : loadPageFromDisk d env b pg = .ok (b', r)) :
    b'.pages = b.pages ∧ b'.lruList = b.lruList ∧ b'.inMemPages = b.inMemPages ∧
      SameTables b b' ∧ b'.mem.length = b.mem.length := by
  unfold loadPageFromDisk at h
  split at h
  · simp at h
  · split at h
    · simp at h
    · simp at h
    · split at h
      · simp at h
      · simp only at h
        split at h
        · simp only [Except.ok.injEq, Prod.mk.injEq] at h
          obtain ⟨hb, _⟩ := h
          subst hb
          simp [SameTables]
        · split at h
          · simp at h
          · simp only [Except.ok.injEq, Prod.mk.injEq] at h
            obtain ⟨hb, _⟩ := h
            subst hb
            simp [SameTables]

theorem acquired_page_kept {d : Deps} {env : Env} {b b1 : SDiskbasedResultBuf}
    {avail : Option Nat} (h : Acquired d env b b1 avail) {i : Nat} {p : SPageInfo}
    (hp : b.pages[i]? = some p) (hpn : p.pn = none) : b1.pages[i]? = some p := by
  rcases h with ⟨_, hb, _⟩ | ⟨_, hev⟩
  · subst hb
    exact hp
  · rcases evicOneDataPage_ok hev with ⟨_, _, hb⟩ | ⟨n, p0, q, _, hp0, hpn0, _, _, hpages, _⟩
    · subst hb
      exact hp
    · have hne : n.data ≠ i := by
        intro he
        subst he
        have : b.pages[n.data]? = some p0 := hp0
        rw [hp] at this
        simp only [Option.some.injEq] at this
        subst this
        rw [hpn] at hpn0
        simp at hpn0
      rw [hpages, getElem?_set_ne' _ _ _ _ hne]
      exact hp

/-- What a successful `getResBufPage` did. -/
theorem getResBufPage_ok {d : Deps} {env : Env} {b b' : SDiskbasedResultBuf} {id : Int}
    {page : Nat} (h : getResBufPage d env b id = .ok (b', page)) :
    ∃ pi p, 0 ≤ id ∧ taosHashGet b.all id = some pi ∧ b.pages[pi]? = some p ∧
      ((p.pData = some page ∧
          b'.pages = b.pages.set pi { p with used := true } ∧
          b'.inMemPages = b.inMemPages ∧ SameTables b b' ∧ b'.mem = b.mem ∧
          (b'.lruList = b.lruList ∨
            ∃ node, node ∈ b.lruList ∧ node.data = pi ∧ p.pn = some node.id ∧
              b'.lruList = lruListMoveToFront b.lruList node)) ∨
       (p.pData = none ∧ p.pn = none ∧
          ∃ b1 avail, Acquired d env b b1 avail ∧
            b'.pages = b1.pages.set pi { p with pData := some page, pn := some b1.nodeSeq } ∧
            b'.lruList = ⟨b1.nodeSeq, pi⟩ :: b1.lruList ∧
            b'.inMemPages = b1.inMemPages ∧
            b'.numOfPages = b1.numOfPages ∧ b'.allocateId = b1.allocateId ∧
            b'.groupSet = b1.groupSet ∧ b'.all = b1.all ∧
            (avail = none → page = b1.mem.length) ∧ (∀ s, avail = some s → page = s) ∧
            b'.nodeSeq = b1.nodeSeq + 1)) := by
  unfold getResBufPage at h
  split at h
  · simp at h
  · rename_i hid
    simp only [not_not] at hid
    simp only at h
    split at h
    · simp at h
    · rename_i pi hpi
      split at h
      · simp at h
      · rename_i p hp
        refine ⟨pi, p, hid, hpi, hp, ?_⟩
        split at h
        · rename_i s hs
          left
          split at h
          · simp only [Except.ok.injEq, Prod.mk.injEq] at h
            obtain ⟨hb, hpg⟩ := h
            subst hb hpg
            exact ⟨hs, rfl, rfl, by simp [SameTables], rfl, Or.inl rfl⟩
          · split at h
            · simp at h
            · rename_i n hn
              split at h
              · simp at h
              · rename_i node hnode
                split at h
                · simp at h
                · rename_i hback
                  simp only [not_not] at hback
                  simp only [Except.ok.injEq, Prod.mk.injEq] at h
                  obtain ⟨hb, hpg⟩ := h
                  subst hb hpg
                  have hmem := List.mem_of_find?_eq_some hnode
                  have hnid := List.find?_some hnode
                  simp only [beq_iff_eq] at hnid
                  refine ⟨hs, rfl, rfl, by simp [SameTables], rfl, Or.inr ⟨node, hmem, hback, ?_, rfl⟩⟩
                  rw [hn, hnid]
        · rename_i hs
          right
          split at h
          · simp at h
          · rename_i hdisk
            simp only [not_not] at hdisk
            split at h
            · simp at h
            · rename_i b1 avail hev
              split at h
              · simp at h
              · rename_i b2 r hload
                simp only [Except.ok.injEq, Prod.mk.injEq] at h
                obtain ⟨hb, hpg⟩ := h
                subst hb
                have hacq : Acquired d env b b1 avail := acquired_of_eq hev
                have hp1 : b1.pages[pi]? = some p := acquired_page_kept hacq hp hdisk.1
                have hlt : pi < b1.pages.length := (List.getElem?_eq_some.1 hp1).1
                obtain ⟨l1, l2, l3, l4, _⟩ := loadPageFromDisk_ok hload
                obtain ⟨t1, t2, t3, t4, t5, t6, t7, t8⟩ := l4
                refine ⟨hs, hdisk.1, b1, avail, hacq, ?_, ?_, ?_, ?_, ?_, ?_, ?_, ?_, ?_, ?_⟩
                · rw [l1]
                  cases avail <;>
                    simp [attachSlab, lruListPushFront, List.modify_eq_set_get?, hp1, hlt,
                      List.getElem?_set, List.set_set] at hpg ⊢ <;> simp [hpg]
                · rw [l2]
                  cases avail <;> simp [attachSlab, lruListPushFront]
                · rw [l3]
                  cases avail <;> simp [attachSlab, lruListPushFront]
                · rw [t1]
                  cases avail <;> simp [attachSlab, lruListPushFront]
                · rw [t3]
                  cases avail <;> simp [attachSlab, lruListPushFront]
                · rw [t5]
                  cases avail <;> simp [attachSlab, lruListPushFront]
                · rw [t6]
                  cases avail <;> simp [attachSlab, lruListPushFront]
                · intro ha
                  subst ha
                  simpa [attachSlab] using hpg.symm
                · intro s ha
                  subst ha
                  simpa [attachSlab] using hpg.symm
                · rw [t7]
                  cases avail <;> simp [attachSlab, lruListPushFront]


theorem releaseResBufPageInfo_ok {b b' : SDiskbasedResultBuf} {pi : Nat}
    (h : releaseResBufPageInfo b pi = .ok b') :
    ∃ p, b.pages[pi]? = some p ∧ p.pData ≠ none ∧ p.used = true ∧
      b' = { b with
             pages := b.pages.set pi { p with used := false }
             statis := { b.statis with releasePages := b.statis.releasePages + 1 } } := by
  unfold releaseResBufPageInfo at h
  split at h
  · simp at h
  · rename_i p hp
    split at h
    · simp at h
    · rename_i hc
      simp only [not_not] at hc
      simp only [Except.ok.injEq] at h
      exact ⟨p, hp, hc.1, hc.2, h.symm⟩

theorem releaseResBufPage_ok {b b' : SDiskbasedResultBuf} {page : Nat}
    (h : releaseResBufPage b page = .ok b') :
    ∃ slab pi p, b.mem[page]? = some slab ∧ slab.owner = some pi ∧
      b.pages[pi]? = some p ∧ p.pData ≠ none ∧ p.used = true ∧
      b' = { b with
             pages := b.pages.set pi { p with used := false }
             statis := { b.statis with releasePages := b.statis.releasePages + 1 } } := by
  unfold releaseResBufPage at h
  split at h
  · simp at h
  · rename_i slab hslab
    split at h
    · simp at h
    · rename_i pi hpi
      obtain ⟨p, h1, h2, h3, h4⟩ := releaseResBufPageInfo_ok h
      exact ⟨slab, pi, p, hslab, hpi, h1, h2, h3, h4⟩

theorem storePayload_ok {b b' : SDiskbasedResultBuf} {page : Nat} {bytes : List Nat}
    (h : storePayload b page bytes = .ok b') :
    ∃ slab, b.mem[page]? = some slab ∧
      b' = { b with mem := b.mem.set page ⟨slab.owner, bytes ++ slab.payload.drop bytes.length⟩ } := by
  unfold storePayload at h
  split at h
  · simp at h
  · rename_i slab hslab
    split at h
    · simp only [Except.ok.injEq] at h
      exact ⟨slab, hslab, h.symm⟩
    · simp at h

/-! ## The LRU list only holds memory-resident pages -/

theorem mem_tdListPopNode {l : List SListNode} {k : Nat} {n : SListNode}
    (h : n ∈ tdListPopNode l k) : n ∈ l ∧ n.id ≠ k := by
  simpa [tdListPopNode] using h

theorem acquired_lruSound {d : Deps} {env : Env} {b b1 : SDiskbasedResultBuf}
    {avail : Option Nat} (hI : LruSound b) (h : Acquired d env b b1 avail) : LruSound b1 := by
  rcases h with ⟨_, hb, _⟩ | ⟨_, hev⟩
  · subst hb
    exact hI
  · rcases evicOneDataPage_ok hev with ⟨_, _, hb⟩ |
      ⟨n, p0, q, _, hp0, hpn0, _, hlru, hpages, _⟩
    · subst hb
      exact hI
    · intro m hm
      rw [hlru] at hm
      obtain ⟨hm1, hm2⟩ := mem_tdListPopNode hm
      obtain ⟨p, hp, hpn, hpd⟩ := hI m hm1
      have hne : n.data ≠ m.data := by
        intro he
        have h0 : b.pages[n.data]? = some p0 := hp0
        rw [he, hp] at h0
        simp only [Option.some.injEq] at h0
        subst h0
        rw [hpn] at hpn0
        simp only [Option.some.injEq] at hpn0
        exact hm2 hpn0
      exact ⟨p, by rw [hpages, getElem?_set_ne' _ _ _ _ hne]; exact hp, hpn, hpd⟩

theorem getNewDataBuf_lruSound {d : Deps} {env : Env} {b b' : SDiskbasedResultBuf}
    {groupId pageId : Int} {page : Nat} (hI : LruSound b)
    (h : getNewDataBuf d env b groupId = .ok (b', pageId, page)) : LruSound b' := by
  obtain ⟨b1, avail, hacq, _, hpages, hlru, _⟩ := getNewDataBuf_ok h
  have hI1 := acquired_lruSound hI hacq
  intro m hm
  rw [hlru] at hm
  rcases List.mem_cons.1 hm with hm | hm
  · subst hm
    exact ⟨_, by rw [hpages]; exact List.getElem?_concat_length _ _, rfl, by simp⟩
  · obtain ⟨p, hp, hpn, hpd⟩ := hI1 m hm
    have hlt : m.data < b1.pages.length := (List.getElem?_eq_some.1 hp).1
    exact ⟨p, by rw [hpages, List.getElem?_append_left hlt]; exact hp, hpn, hpd⟩

theorem getResBufPage_lruSound {d : Deps} {env : Env} {b b' : SDiskbasedResultBuf}
    {id : Int} {page : Nat} (hI : LruSound b)
    (h : getResBufPage d env b id = .ok (b', page)) : LruSound b' := by
  obtain ⟨pi, p, _, _, hp, hcase⟩ := getResBufPage_ok h
  have hlt : pi < b.pages.length := (List.getElem?_eq_some.1 hp).1
  rcases hcase with ⟨hpd, hpages, _, _, _, hlru⟩ | ⟨hpd, hpn, b1, avail, hacq, hpages, hlru, _⟩
  · have hsub : ∀ m ∈ b'.lruList, m ∈ b.lruList := by
      intro m hm
      rcases hlru with hl | ⟨node, hnode, _, _, hl⟩
      · rw [hl] at hm
        exact hm
      · rw [hl] at hm
        rcases List.mem_cons.1 hm with hm | hm
        · subst hm
          exact hnode
        · exact (mem_tdListPopNode hm).1
    intro m hm
    obtain ⟨q, hq, hqn, hqd⟩ := hI m (hsub m hm)
    by_cases he : pi = m.data
    · subst he
      have hq2 : p = q := by rw [hp] at hq; exact Option.some.inj hq
      subst hq2
      exact ⟨{ p with used := true }, by rw [hpages]; exact getElem?_set_at _ _ _ hlt, hqn, hqd⟩
    · exact ⟨q, by rw [hpages, getElem?_set_ne' _ _ _ _ he]; exact hq, hqn, hqd⟩
  · have hI1 := acquired_lruSound hI hacq
    have hp1 : b1.pages[pi]? = some p := acquired_page_kept hacq hp hpn
    have hlt1 : pi < b1.pages.length := (List.getElem?_eq_some.1 hp1).1
    intro m hm
    rw [hlru] at hm
    rcases List.mem_cons.1 hm with hm | hm
    · subst hm
      exact ⟨_, by rw [hpages]; exact getElem?_set_at _ _ _ hlt1, rfl, by simp⟩
    · obtain ⟨q, hq, hqn, hqd⟩ := hI1 m hm
      have he : pi ≠ m.data := by
        intro he
        subst he
        rw [hp1] at hq
        simp only [Option.some.injEq] at hq
        subst hq
        exact hqd hpd
      exact ⟨q, by rw [hpages, getElem?_set_ne' _ _ _ _ he]; exact hq, hqn, hqd⟩

theorem releaseResBufPage_lruSound {b b' : SDiskbasedResultBuf} {page : Nat}
    (hI : LruSound b) (h : releaseResBufPage b page = .ok b') : LruSound b' := by
  obtain ⟨slab, pi, p, _, _, hp, _, _, hb⟩ := releaseResBufPage_ok h
  subst hb
  have hlt : pi < b.pages.length := (List.getElem?_eq_some.1 hp).1
  intro m hm
  obtain ⟨q, hq, hqn, hqd⟩ := hI m hm
  by_cases he : pi = m.data
  · subst he
    have hq2 : p = q := by rw [hp] at hq; exact Option.some.inj hq
    subst hq2
    exact ⟨{ p with used := false }, getElem?_set_at _ _ _ hlt, hqn, hqd⟩
  · exact ⟨q, by simpa [List.getElem?_set, he] using hq, hqn, hqd⟩

theorem exec_lruSound {d : Deps} {b b' : SDiskbasedResultBuf} {c : Call} {r : Ret}
    (hI : LruSound b) (h : exec d b c = .ok (b', r)) : LruSound b' := by
  cases c with
  | newDataBuf env groupId =>
    simp only [exec] at h
    split at h
    · simp at h
    · rename_i b1 pageId page hn
      simp only [Except.ok.injEq, Prod.mk.injEq] at h
      rw [← h.1]
      exact getNewDataBuf_lruSound hI hn
  | resBufPage env id =>
    simp only [exec] at h
    split at h
    · simp at h
    · rename_i b1 page hn
      simp only [Except.ok.injEq, Prod.mk.injEq] at h
      rw [← h.1]
      exact getResBufPage_lruSound hI hn
  | release page =>
    simp only [exec] at h
    split at h
    · simp at h
    · rename_i b1 hn
      simp only [Except.ok.injEq, Prod.mk.injEq] at h
      rw [← h.1]
      exact releaseResBufPage_lruSound hI hn
  | store page bytes =>
    simp only [exec] at h
    split at h
    · simp at h
    · rename_i b1 hn
      simp only [Except.ok.injEq, Prod.mk.injEq] at h
      rw [← h.1]
      obtain ⟨slab, _, hb⟩ := storePayload_ok hn
      subst hb
      exact hI

theorem createDiskbasedResultBuffer_ok {d : Deps} {rowSize pagesize inMemBufSize : Nat}
    {b : SDiskbasedResultBuf}
    (h : createDiskbasedResultBuffer d rowSize pagesize inMemBufSize = .ok b) :
    0 < pagesize ∧ pagesize * 2 ≤ inMemBufSize ∧ b.pages = [] ∧ b.lruList = [] ∧
      b.inMemPages = inMemBufSize / pagesize ∧ b.numOfPages = 0 ∧ b.allocateId = -1 ∧
      b.groupSet = [] ∧ b.all = [] ∧ b.nodeSeq = 0 ∧ b.pageSize = pagesize ∧
      b.totalBufSize = 0 ∧ b.file = none := by
  unfold createDiskbasedResultBuffer at h
  split at h
  · simp at h
  · split at h
    · simp at h
    · split at h
      · simp at h
      · rename_i h1 h2 _
        simp only [not_not] at h2
        simp only [Except.ok.injEq] at h
        subst h
        exact ⟨Nat.pos_of_ne_zero h1, h2, rfl, rfl, rfl, rfl, rfl, rfl, rfl, rfl, rfl, rfl, rfl⟩

/-- A property that holds before a run and that every call of the run keeps
holds after the run. -/
theorem runCalls_induct {d : Deps} (P : SDiskbasedResultBuf → Prop) (Q : Call → Prop)
    (hstep : ∀ b b' c r, Q c → P b → exec d b c = .ok (b', r) → P b')
    {cs : List Call} {b b' : SDiskbasedResultBuf} {rs : List Ret}
    (hQ : ∀ c ∈ cs, Q c) (h0 : P b) (h : runCalls d b cs = .ok (b', rs)) : P b' := by
  induction cs generalizing b rs with
  | nil =>
    simp only [runCalls, Except.ok.injEq, Prod.mk.injEq] at h
    rw [← h.1]
    exact h0
  | cons c cs ih =>
    simp only [runCalls] at h
    split at h
    · simp at h
    · rename_i b1 r hc
      split at h
      · simp at h
      · rename_i b2 rs2 hr
        simp only [Except.ok.injEq, Prod.mk.injEq] at h
        obtain ⟨hb, _⟩ := h
        subst hb
        exact ih (fun c' hc' => hQ c' (List.mem_cons_of_mem _ hc'))
          (hstep _ _ _ _ (hQ c (List.mem_cons_self _ _)) h0 hc) hr

theorem session_lruSound {d : Deps} {rowSize pagesize inMemBufSize : Nat} {cs : List Call}
    {b : SDiskbasedResultBuf} {rs : List Ret}
    (h : session d rowSize pagesize inMemBufSize cs = .ok (b, rs)) : LruSound b := by
  unfold session at h
  split at h
  · simp at h
  · rename_i b0 hb0
    obtain ⟨_, _, _, hl, _⟩ := createDiskbasedResultBuffer_ok hb0
    refine runCalls_induct LruSound (fun _ => True) (fun _ _ _ _ _ hI hs => exec_lruSound hI hs)
      (fun _ _ => trivial) ?_ h
    intro n hn
    rw [hl] at hn
    simp at hn


/-! ## The assertion of `doFlushPageToDisk` -/

theorem doCompressData_fault {d : Deps} {comp : Bool} {data : List Nat} {n : Nat} {e : Fault}
    (h : doCompressData d comp data n = .error e) : e = .bufferOverrun := by
  unfold doCompressData at h
  split at h
  · simp at h
  · simp only at h
    split at h
    · simp at h
    · simp only [Except.error.injEq] at h
      exact h.symm

theorem doDecompressData_fault {d : Deps} {comp : Bool} {data : List Nat} {k n : Nat}
    {e : Fault} (h : doDecompressData d comp k data n = .error e) : e = .bufferOverrun := by
  unfold doDecompressData at h
  split at h
  · simp at h
  · simp only at h
    split at h
    · simp at h
    · simp only [Except.error.injEq] at h
      exact h.symm

theorem doFlushPageToDisk_fault {d : Deps} {b : SDiskbasedResultBuf} {pg : Nat}
    (h : doFlushPageToDisk d b pg = .error .assertFlushPage) :
    ∃ p, b.pages[pg]? = some p ∧ (p.used = true ∨ p.pData = none) := by
  unfold doFlushPageToDisk at h
  split at h
  · simp at h
  · rename_i p hp
    refine ⟨p, hp, ?_⟩
    split at h
    · rename_i hu
      exact Or.inl hu
    · rename_i hd
      exact Or.inr hd
    · split at h
      · simp at h
      · simp at h
      · split at h
        · rename_i e hc
          have := doCompressData_fault hc
          subst this
          simp at h
        · simp at h

theorem flushPageToDisk_fault {d : Deps} {env : Env} {b : SDiskbasedResultBuf} {pg : Nat}
    (h : flushPageToDisk d env b pg = .error .assertFlushPage) :
    ∃ p, b.pages[pg]? = some p ∧ (p.used = true ∨ p.pData = none) := by
  unfold flushPageToDisk at h
  split at h
  · simp at h
  · split at h
    · split at h
      · split at h
        · rename_i e hfl
          simp only [Except.error.injEq] at h
          subst h
          exact @doFlushPageToDisk_fault d { b with file := some [] } pg hfl
        · simp at h
      · simp at h
    · split at h
      · rename_i e hfl
        simp only [Except.error.injEq] at h
        subst h
        exact doFlushPageToDisk_fault hfl
      · simp at h

theorem eldestFrom_fault {pages : List SPageInfo} {l : List SListNode} {e : Fault}
    (h : eldestFrom pages l = .error e) : e = .badPointer ∨ e = .assertEldest := by
  induction l with
  | nil => simp [eldestFrom] at h
  | cons m rest ih =>
    unfold eldestFrom at h
    split at h
    · simp only [Except.error.injEq] at h
      exact Or.inl h.symm
    · split at h
      · simp only [Except.error.injEq] at h
        exact Or.inr h.symm
      · split at h
        · simp at h
        · exact ih h

theorem evicOneDataPage_no_flush_fault {d : Deps} {env : Env} {b : SDiskbasedResultBuf}
    (hI : LruSound b) : evicOneDataPage d env b ≠ .error .assertFlushPage := by
  intro h
  unfold evicOneDataPage at h
  split at h
  · rename_i e hel
    simp only [Except.error.injEq] at h
    subst h
    rcases eldestFrom_fault hel with h1 | h1 <;> simp at h1
  · simp at h
  · rename_i n hel
    obtain ⟨hn, p0, hp0, hu0, _, _⟩ := getEldestUnrefedPage_some hel
    obtain ⟨p1, hp1, _, hd1⟩ := hI n hn
    split at h
    · simp at h
    · rename_i p hp
      have e0 : p = p0 := by rw [hp] at hp0; exact Option.some.inj hp0
      have e1 : p = p1 := by rw [hp] at hp1; exact Option.some.inj hp1
      subst e0
      subst e1
      have hlt : n.data < b.pages.length := (List.getElem?_eq_some.1 hp).1
      split at h
      · simp at h
      · obtain ⟨q, hq, hbad⟩ := flushPageToDisk_fault h
        simp only [getElem?_set_at _ _ _ hlt, Option.some.injEq] at hq
        subst hq
        rcases hbad with hb | hb
        · simp [hu0] at hb
        · exact hd1 hb

theorem loadPageFromDisk_fault {d : Deps} {env : Env} {b : SDiskbasedResultBuf} {pg : Nat}
    {e : Fault} (h : loadPageFromDisk d env b pg = .error e) :
    e = .badPointer ∨ e = .bufferOverrun := by
  unfold loadPageFromDisk at h
  split at h
  · simp only [Except.error.injEq] at h
    exact Or.inl h.symm
  · split at h
    · simp only [Except.error.injEq] at h
      exact Or.inl h.symm
    · simp only [Except.error.injEq] at h
      exact Or.inl h.symm
    · split at h
      · simp only [Except.error.injEq] at h
        exact Or.inl h.symm
      · simp only at h
        split at h
        · simp at h
        · split at h
          · rename_i e2 hdd
            simp only [Except.error.injEq] at h
            subst h
            exact Or.inr (doDecompressData_fault hdd)
          · simp at h

theorem getNewDataBuf_fault {d : Deps} {env : Env} {b : SDiskbasedResultBuf} {groupId : Int}
    {e : Fault} (h : getNewDataBuf d env b groupId = .error e) :
    e = .assertLruRoom ∨ evicOneDataPage d env (counted b) = .error e := by
  unfold getNewDataBuf at h
  simp only at h
  split at h
  · rename_i e2 hev
    simp only [Except.error.injEq] at h
    subst h
    split at hev
    · exact Or.inr hev
    · simp at hev
  · split at h
    · simp only [Except.error.injEq] at h
      exact Or.inl h.symm
    · simp at h

theorem getResBufPage_fault {d : Deps} {env : Env} {b : SDiskbasedResultBuf} {id : Int}
    {e : Fault} (h : getResBufPage d env b id = .error e) :
    e = .assertGetId ∨ e = .assertKnownPage ∨ e = .badPointer ∨ e = .assertNodeBack ∨
      e = .assertOnDisk ∨ e = .bufferOverrun ∨ evicOneDataPage d env (counted b) = .error e := by
  unfold getResBufPage at h
  split at h
  · simp only [Except.error.injEq] at h
    exact Or.inl h.symm
  · simp only at h
    split at h
    · simp only [Except.error.injEq] at h
      exact Or.inr (Or.inl h.symm)
    · split at h
      · simp only [Except.error.injEq] at h
        exact Or.inr (Or.inr (Or.inl h.symm))
      · split at h
        · split at h
          · simp at h
          · split at h
            · simp only [Except.error.injEq] at h
              exact Or.inr (Or.inr (Or.inl h.symm))
            · split at h
              · simp only [Except.error.injEq] at h
                exact Or.inr (Or.inr (Or.inl h.symm))
              · split at h
                · simp only [Except.error.injEq] at h
                  exact Or.inr (Or.inr (Or.inr (Or.inl h.symm)))
                · simp at h
        · split at h
          · simp only [Except.error.injEq] at h
            exact Or.inr (Or.inr (Or.inr (Or.inr (Or.inl h.symm))))
          · split at h
            · rename_i e2 hev
              simp only [Except.error.injEq] at h
              subst h
              split at hev
              · exact Or.inr (Or.inr (Or.inr (Or.inr (Or.inr (Or.inr hev)))))
              · simp at hev
            · split at h
              · rename_i e2 hl
                simp only [Except.error.injEq] at h
                subst h
                rcases loadPageFromDisk_fault hl with h1 | h1
                · exact Or.inr (Or.inr (Or.inl h1))
                · exact Or.inr (Or.inr (Or.inr (Or.inr (Or.inr (Or.inl h1)))))
              · simp at h

/-- **C2.**  After every session the page that `evicOneDataPage` would hand to
`flushPageToDisk` is unused and has a slab, and no call faults at the assertion
`!pg->used && pg->pData != NULL` of `doFlushPageToDisk`: a page whose `used`
flag is set is never evicted. -/
theorem evicted_page_is_unused_and_resident (d : Deps) (rowSize pagesize inMemBufSize : Nat)
    (cs : List Call) (b : SDiskbasedResultBuf) (rs : List Ret)
    (h : session d rowSize pagesize inMemBufSize cs = .ok (b, rs)) :
    (∀ pn, getEldestUnrefedPage b = .ok (some pn) →
      ∃ p, b.pages[pn.data]? = some p ∧ p.used = false ∧ p.pData ≠ none) ∧
    (∀ env, evicOneDataPage d env b ≠ .error .assertFlushPage) ∧
    (∀ env groupId, getNewDataBuf d env b groupId ≠ .error .assertFlushPage) ∧
    (∀ env id, getResBufPage d env b id ≠ .error .assertFlushPage) := by
  have hI : LruSound b := session_lruSound h
  have hI' : LruSound (counted b) := hI
  refine ⟨?_, ?_, ?_, ?_⟩
  · intro pn hpn
    obtain ⟨hm, p, hp, hu, _, _⟩ := getEldestUnrefedPage_some hpn
    obtain ⟨q, hq, _, hqd⟩ := hI pn hm
    have hq2 : p = q := by rw [hp] at hq; exact Option.some.inj hq
    subst hq2
    exact ⟨p, hp, hu, hqd⟩
  · intro env
    exact evicOneDataPage_no_flush_fault hI
  · intro env groupId hf
    rcases getNewDataBuf_fault hf with h1 | h1
    · exact absurd h1 (by decide)
    · exact evicOneDataPage_no_flush_fault hI' h1
  · intro env id hf
    rcases getResBufPage_fault hf with h1 | h1 | h1 | h1 | h1 | h1 | h1
    all_goals first
      | exact absurd h1 (by decide)
      | exact evicOneDataPage_no_flush_fault hI' h1


/-! ## The memory budget -/

theorem countP_set_add {α : Type} (f : α → Bool) (l : List α) (i : Nat) (p q : α)
    (h : l[i]? = some p) :
    (l.set i q).countP f + (if f p then 1 else 0) = l.countP f + (if f q then 1 else 0) := by
  induction l generalizing i with
  | nil => simp at h
  | cons x t ih =>
    cases i with
    | zero =>
      simp only [List.getElem?_cons_zero, Option.some.injEq] at h
      subst h
      simp only [List.set_cons_zero, List.countP_cons]
      omega
    | succ j =>
      simp only [List.getElem?_cons_succ] at h
      have := ih j h
      simp only [List.set_cons_succ, List.countP_cons]
      omega

theorem countP_lt_length {α : Type} (f : α → Bool) (l : List α) (i : Nat) (p : α)
    (h : l[i]? = some p) (hf : f p = false) : l.countP f < l.length := by
  induction l generalizing i with
  | nil => simp at h
  | cons x t ih =>
    cases i with
    | zero =>
      simp only [List.getElem?_cons_zero, Option.some.injEq] at h
      subst h
      have := List.countP_le_length f (l := t)
      simp only [List.countP_cons, hf, List.length_cons]
      simp
      omega
    | succ j =>
      simp only [List.getElem?_cons_succ] at h
      have := ih j h
      simp only [List.countP_cons, List.length_cons]
      split <;> omega

theorem acquired_budget {d : Deps} {env : Env} {b b1 : SDiskbasedResultBuf}
    {avail : Option Nat} (hB : BudgetInv b) (hio : env.fopenOk = true)
    (h : Acquired d env b b1 avail) :
    residentPages b1 + 1 ≤ b1.inMemPages ∧ b1.pages.length = b1.numOfPages ∧
      2 ≤ b1.inMemPages := by
  obtain ⟨hres, hlen, htwo⟩ := hB
  have hle : residentPages b ≤ b.pages.length := List.countP_le_length _
  rcases h with ⟨hlt, hb, _⟩ | ⟨_, hev⟩
  · subst hb
    refine ⟨?_, hlen, htwo⟩
    show residentPages b + 1 ≤ b.inMemPages
    omega
  · rcases evicOneDataPage_ok hev with ⟨_, _, hb⟩ |
      ⟨n, p0, q, _, hp0, _, _, _, hpages, _, _, _, hM, _, hsame, _, hcase⟩
    · subst hb
      refine ⟨?_, hlen, ?_⟩
      · show residentPages b + 1 ≤ b.inMemPages * 3 / 2
        omega
      · show 2 ≤ b.inMemPages * 3 / 2
        omega
    · obtain ⟨t1, _, _, _, _, _, _, t8⟩ := hsame
      simp only [counted_pages, counted_inMemPages, counted_numOfPages] at hp0 hpages hM t1 t8
      rcases hcase with ⟨_, hfo, _⟩ | ⟨s, _, hpd, hqd, _⟩
      · rw [hio] at hfo
        simp at hfo
      · have hc := countP_set_add (fun p : SPageInfo => p.pData.isSome) b.pages n.data p0 q hp0
        simp only [hpd, hqd, Option.isSome_some, Option.isSome_none, if_true,
          Bool.false_eq_true, if_false] at hc
        refine ⟨?_, by omega, by omega⟩
        unfold residentPages at hres ⊢
        rw [hpages]
        omega

theorem exec_budget {d : Deps} {b b' : SDiskbasedResultBuf} {c : Call} {r : Ret}
    (hio : c.fopenOk = true) (hB : BudgetInv b) (h : exec d b c = .ok (b', r)) :
    BudgetInv b' := by
  cases c with
  | newDataBuf env groupId =>
    simp only [exec] at h
    split at h
    · simp at h
    · rename_i b2 pageId page hn
      simp only [Except.ok.injEq, Prod.mk.injEq] at h
      obtain ⟨hb, _⟩ := h
      subst hb
      obtain ⟨b1, avail, hacq, _, hpages, _, hM, hN, _⟩ := getNewDataBuf_ok hn
      obtain ⟨h1, h2, h3⟩ := acquired_budget hB hio hacq
      refine ⟨?_, ?_, by omega⟩
      · unfold residentPages at h1 ⊢
        rw [hpages, List.countP_append, hM]
        simp
        omega
      · rw [hpages, hN]
        simp
        omega
  | resBufPage env id =>
    simp only [exec] at h
    split at h
    · simp at h
    · rename_i b2 page hn
      simp only [Except.ok.injEq, Prod.mk.injEq] at h
      obtain ⟨hb, _⟩ := h
      subst hb
      obtain ⟨pi, p, _, _, hp, hcase⟩ := getResBufPage_ok hn
      rcases hcase with ⟨hpd, hpages, hM, hsame, _⟩ |
        ⟨hpd, hpn, b1, avail, hacq, hpages, _, hM, hN, _⟩
      · obtain ⟨hres, hlen, htwo⟩ := hB
        obtain ⟨t1, _, _, _, _, _, _, t8⟩ := hsame
        have hc := countP_set_add (fun p : SPageInfo => p.pData.isSome) b.pages pi p
          { p with used := true } hp
        simp only at hc
        refine ⟨?_, by omega, by omega⟩
        unfold residentPages at hres ⊢
        rw [hpages]
        omega
      · obtain ⟨h1, h2, h3⟩ := acquired_budget hB hio hacq
        have hp1 : b1.pages[pi]? = some p := acquired_page_kept hacq hp hpn
        have hc := countP_set_add (fun p : SPageInfo => p.pData.isSome) b1.pages pi p
          { p with pData := some page, pn := some b1.nodeSeq } hp1
        simp only [hpd, Option.isSome_some, Option.isSome_none, if_true,
          Bool.false_eq_true, if_false] at hc
        refine ⟨?_, ?_, by omega⟩
        · unfold residentPages at h1 ⊢
          rw [hpages]
          omega
        · rw [hpages, hN]
          simpa using h2
  | release page =>
    simp only [exec] at h
    split at h
    · simp at h
    · rename_i b2 hn
      simp only [Except.ok.injEq, Prod.mk.injEq] at h
      obtain ⟨hb, _⟩ := h
      subst hb
      obtain ⟨slab, pi, p, _, _, hp, hpd, _, hb⟩ := releaseResBufPage_ok hn
      subst hb
      obtain ⟨hres, hlen, htwo⟩ := hB
      have hc := countP_set_add (fun p : SPageInfo => p.pData.isSome) b.pages pi p
        { p with used := false } hp
      simp only at hc
      refine ⟨?_, ?_, htwo⟩
      · unfold residentPages at hres ⊢
        show (b.pages.set pi _).countP _ ≤ b.inMemPages
        omega
      · show (b.pages.set pi _).length = b.numOfPages
        simpa using hlen
  | store page bytes =>
    simp only [exec] at h
    split at h
    · simp at h
    · rename_i b2 hn
      simp only [Except.ok.injEq, Prod.mk.injEq] at h
      obtain ⟨hb, _⟩ := h
      subst hb
      obtain ⟨slab, _, hb⟩ := storePayload_ok hn
      subst hb
      exact hB

theorem create_budget {d : Deps} {rowSize pagesize inMemBufSize : Nat}
    {b : SDiskbasedResultBuf}
    (h : createDiskbasedResultBuffer d rowSize pagesize inMemBufSize = .ok b) :
    BudgetInv b := by
  obtain ⟨hpos, hsz, hp, _, hM, hN, _⟩ := createDiskbasedResultBuffer_ok h
  refine ⟨?_, ?_, ?_⟩
  · simp [residentPages, hp]
  · simp [hp, hN]
  · rw [hM]
    exact (Nat.le_div_iff_mul_le hpos).2 (by omega)

/-- **C3, as stated, fails.**  When `fopen` fails inside the eviction attempt of
the third `getNewDataBuf`, the victim keeps its slab and a new slab is
allocated: three pages have `pData != NULL` under a budget of two. -/
theorem resident_pages_exceed_budget_on_fopen_failure :
    observe (session trimDeps 4 16 32 fopenFailureCalls)
      (fun b => (residentPages b, b.inMemPages)) = some (3, 2) := by
  decide

/-- **C3, amended.**  In every state reached from `createDiskbasedResultBuffer`
by `getNewDataBuf` / `getResBufPage` / `releaseResBufPage` calls (and stores of
the caller) during which the creation of the scratch file does not fail, the
number of pages with `pData != NULL` is at most the current `inMemPages`. -/
theorem resident_pages_within_budget (d : Deps) (rowSize pagesize inMemBufSize : Nat)
    (cs : List Call) (b : SDiskbasedResultBuf) (rs : List Ret)
    (h : session d rowSize pagesize inMemBufSize cs = .ok (b, rs))
    (hio : ∀ c ∈ cs, c.fopenOk = true) : residentPages b ≤ b.inMemPages := by
  unfold session at h
  split at h
  · simp at h
  · rename_i b0 hb0
    exact (runCalls_induct BudgetInv (fun c => c.fopenOk = true)
      (fun _ _ _ _ hc hB hs => exec_budget hc hB hs) hio (create_budget hb0) h).1


/-! ## The LRU list holds every memory-resident page -/

theorem nodup_popNode {l : List SListNode} (k : Nat) (h : (l.map SListNode.id).Nodup) :
    ((tdListPopNode l k).map SListNode.id).Nodup :=
  h.sublist ((List.filter_sublist l).map _)

theorem acquired_lruFresh {d : Deps} {env : Env} {b b1 : SDiskbasedResultBuf}
    {avail : Option Nat} (hF : LruFresh b) (h : Acquired d env b b1 avail) : LruFresh b1 := by
  rcases h with ⟨_, hb, _⟩ | ⟨_, hev⟩
  · subst hb
    exact hF
  · rcases evicOneDataPage_ok hev with ⟨_, _, hb⟩ |
      ⟨n, p0, q, _, _, _, _, hlru, _, _, _, _, _, _, hsame, _⟩
    · subst hb
      exact hF
    · obtain ⟨_, _, _, _, _, _, t7, _⟩ := hsame
      simp only [counted_lruList, counted_nodeSeq] at hlru t7
      refine ⟨by rw [hlru]; exact nodup_popNode _ hF.1, ?_⟩
      intro m hm
      rw [hlru] at hm
      rw [t7]
      exact hF.2 m (mem_tdListPopNode hm).1

theorem acquired_lruCovers {d : Deps} {env : Env} {b b1 : SDiskbasedResultBuf}
    {avail : Option Nat} (hio : env.fopenOk = true) (hC : LruCovers b)
    (hF : LruFresh b) (h : Acquired d env b b1 avail) : LruCovers b1 := by
  rcases h with ⟨_, hb, _⟩ | ⟨_, hev⟩
  · subst hb
    exact hC
  · rcases evicOneDataPage_ok hev with ⟨_, _, hb⟩ |
      ⟨n, p0, q, hel, hp0, _, _, hlru, hpages, _, _, _, _, _, _, _, hcase⟩
    · subst hb
      exact hC
    · simp only [counted_lruList, counted_pages, getEldestUnrefedPage_counted] at hlru hpages hp0 hel
      have hn : n ∈ b.lruList := (getEldestUnrefedPage_some hel).1
      have hlt : n.data < b.pages.length := (List.getElem?_eq_some.1 hp0).1
      rcases hcase with ⟨_, hfo, _⟩ | ⟨s, _, _, hqd, _⟩
      · rw [hio] at hfo
        simp at hfo
      · intro i p hp hpd
        rw [hpages] at hp
        by_cases he : n.data = i
        · subst he
          rw [getElem?_set_at _ _ _ hlt] at hp
          simp only [Option.some.injEq] at hp
          subst hp
          exact absurd hqd hpd
        · rw [getElem?_set_ne' _ _ _ _ he] at hp
          obtain ⟨m, hm, hmd⟩ := hC i p hp hpd
          refine ⟨m, ?_, hmd⟩
          rw [hlru]
          have hne : m.id ≠ n.id := by
            intro hid
            have := List.inj_on_of_nodup_map hF.1 hm hn hid
            subst this
            exact he hmd
          simpa [tdListPopNode] using ⟨hm, hne⟩

theorem exec_lruFresh {d : Deps} {b b' : SDiskbasedResultBuf} {c : Call} {r : Ret}
    (hF : LruFresh b) (h : exec d b c = .ok (b', r)) : LruFresh b' := by
  cases c with
  | newDataBuf env groupId =>
    simp only [exec] at h
    split at h
    · simp at h
    · rename_i b2 pageId page hn
      simp only [Except.ok.injEq, Prod.mk.injEq] at h
      obtain ⟨hb, _⟩ := h
      subst hb
      obtain ⟨b1, avail, hacq, _, _, hlru, _, _, _, _, _, _, _, _, hseq⟩ := getNewDataBuf_ok hn
      obtain ⟨h1, h2⟩ := acquired_lruFresh hF hacq
      refine ⟨?_, ?_⟩
      · rw [hlru, List.map_cons, List.nodup_cons]
        refine ⟨?_, h1⟩
        intro hm
        obtain ⟨m, hm1, hm2⟩ := List.mem_map.1 hm
        have := h2 m hm1
        simp only at hm2
        omega
      · intro m hm
        rw [hlru] at hm
        rw [hseq]
        rcases List.mem_cons.1 hm with hm | hm
        · subst hm
          simp
        · have := h2 m hm
          omega
  | resBufPage env id =>
    simp only [exec] at h
    split at h
    · simp at h
    · rename_i b2 page hn
      simp only [Except.ok.injEq, Prod.mk.injEq] at h
      obtain ⟨hb, _⟩ := h
      subst hb
      obtain ⟨pi, p, _, _, hp, hcase⟩ := getResBufPage_ok hn
      rcases hcase with ⟨_, _, _, hsame, _, hlru⟩ |
        ⟨_, _, b1, avail, hacq, _, hlru, _, _, _, _, _, _, _, hseq⟩
      · obtain ⟨_, _, _, _, _, _, t7, _⟩ := hsame
        rcases hlru with hl | ⟨node, hnode, _, _, hl⟩
        · exact ⟨by rw [hl]; exact hF.1, fun m hm => by rw [t7]; exact hF.2 m (by rw [← hl]; exact hm)⟩
        · refine ⟨?_, ?_⟩
          · rw [hl, lruListMoveToFront, List.map_cons, List.nodup_cons]
            refine ⟨?_, nodup_popNode _ hF.1⟩
            intro hm
            obtain ⟨m, hm1, hm2⟩ := List.mem_map.1 hm
            exact (mem_tdListPopNode hm1).2 hm2
          · intro m hm
            rw [hl, lruListMoveToFront] at hm
            rw [t7]
            rcases List.mem_cons.1 hm with hm | hm
            · subst hm
              exact hF.2 _ hnode
            · exact hF.2 m (mem_tdListPopNode hm).1
      · obtain ⟨h1, h2⟩ := acquired_lruFresh hF hacq
        refine ⟨?_, ?_⟩
        · rw [hlru, List.map_cons, List.nodup_cons]
          refine ⟨?_, h1⟩
          intro hm
          obtain ⟨m, hm1, hm2⟩ := List.mem_map.1 hm
          have := h2 m hm1
          simp only at hm2
          omega
        · intro m hm
          rw [hlru] at hm
          rw [hseq]
          rcases List.mem_cons.1 hm with hm | hm
          · subst hm
            simp
          · have := h2 m hm
            omega
  | release page =>
    simp only [exec] at h
    split at h
    · simp at h
    · rename_i b2 hn
      simp only [Except.ok.injEq, Prod.mk.injEq] at h
      obtain ⟨hb, _⟩ := h
      subst hb
      obtain ⟨slab, pi, p, _, _, _, _, _, hb⟩ := releaseResBufPage_ok hn
      subst hb
      exact hF
  | store page bytes =>
    simp only [exec] at h
    split at h
    · simp at h
    · rename_i b2 hn
      simp only [Except.ok.injEq, Prod.mk.injEq] at h
      obtain ⟨hb, _⟩ := h
      subst hb
      obtain ⟨slab, _, hb⟩ := storePayload_ok hn
      subst hb
      exact hF

theorem exec_lruCovers {d : Deps} {b b' : SDiskbasedResultBuf} {c : Call} {r : Ret}
    (hio : c.fopenOk = true) (hC : LruCovers b) (hF : LruFresh b)
    (h : exec d b c = .ok (b', r)) : LruCovers b' := by
  cases c with
  | newDataBuf env groupId =>
    simp only [exec] at h
    split at h
    · simp at h
    · rename_i b2 pageId page hn
      simp only [Except.ok.injEq, Prod.mk.injEq] at h
      obtain ⟨hb, _⟩ := h
      subst hb
      obtain ⟨b1, avail, hacq, _, hpages, hlru, _⟩ := getNewDataBuf_ok hn
      have hC1 := acquired_lruCovers hio hC hF hacq
      intro i p hp hpd
      rw [hpages] at hp
      rw [hlru]
      by_cases hi : i < b1.pages.length
      · rw [List.getElem?_append_left hi] at hp
        obtain ⟨m, hm, hmd⟩ := hC1 i p hp hpd
        exact ⟨m, List.mem_cons_of_mem _ hm, hmd⟩
      · have hlt := (List.getElem?_eq_some.1 hp).1
        simp only [List.length_append, List.length_singleton] at hlt
        exact ⟨_, List.mem_cons_self _ _, by simp only; omega⟩
  | resBufPage env id =>
    simp only [exec] at h
    split at h
    · simp at h
    · rename_i b2 page hn
      simp only [Except.ok.injEq, Prod.mk.injEq] at h
      obtain ⟨hb, _⟩ := h
      subst hb
      obtain ⟨pi, p, _, _, hp, hcase⟩ := getResBufPage_ok hn
      have hlt : pi < b.pages.length := (List.getElem?_eq_some.1 hp).1
      rcases hcase with ⟨hpd, hpages, _, _, _, hlru⟩ |
        ⟨_, _, b1, avail, hacq, hpages, hlru, _⟩
      · intro i q hq hqd
        have hold : ∃ q0, b.pages[i]? = some q0 ∧ q0.pData ≠ none := by
          rw [hpages] at hq
          by_cases he : pi = i
          · subst he
            rw [getElem?_set_at _ _ _ hlt] at hq
            simp only [Option.some.injEq] at hq
            subst hq
            exact ⟨p, hp, hqd⟩
          · rw [getElem?_set_ne' _ _ _ _ he] at hq
            exact ⟨q, hq, hqd⟩
        obtain ⟨q0, hq0, hq0d⟩ := hold
        obtain ⟨m, hm, hmd⟩ := hC i q0 hq0 hq0d
        rcases hlru with hl | ⟨node, hnode, _, _, hl⟩
        · exact ⟨m, by rw [hl]; exact hm, hmd⟩
        · rw [hl, lruListMoveToFront]
          by_cases hid : m.id = node.id
          · have := List.inj_on_of_nodup_map hF.1 hm hnode hid
            subst this
            exact ⟨m, List.mem_cons_self _ _, hmd⟩
          · exact ⟨m, List.mem_cons_of_mem _ (by simpa [tdListPopNode] using ⟨hm, hid⟩), hmd⟩
      · have hC1 := acquired_lruCovers hio hC hF hacq
        intro i q hq hqd
        rw [hlru]
        by_cases he : pi = i
        · exact ⟨_, List.mem_cons_self _ _, he⟩
        · rw [hpages, getElem?_set_ne' _ _ _ _ he] at hq
          obtain ⟨m, hm, hmd⟩ := hC1 i q hq hqd
          exact ⟨m, List.mem_cons_of_mem _ hm, hmd⟩
  | release page =>
    simp only [exec] at h
    split at h
    · simp at h
    · rename_i b2 hn
      simp only [Except.ok.injEq, Prod.mk.injEq] at h
      obtain ⟨hb, _⟩ := h
      subst hb
      obtain ⟨slab, pi, p, _, _, hp, hpd, _, hb⟩ := releaseResBufPage_ok hn
      subst hb
      have hlt : pi < b.pages.length := (List.getElem?_eq_some.1 hp).1
      intro i q hq hqd
      simp only at hq
      by_cases he : pi = i
      · subst he
        exact hC pi p hp hpd
      · rw [getElem?_set_ne' _ _ _ _ he] at hq
        exact hC i q hq hqd
  | store page bytes =>
    simp only [exec] at h
    split at h
    · simp at h
    · rename_i b2 hn
      simp only [Except.ok.injEq, Prod.mk.injEq] at h
      obtain ⟨hb, _⟩ := h
      subst hb
      obtain ⟨slab, _, hb⟩ := storePayload_ok hn
      subst hb
      exact hC

theorem exec_lruExact {d : Deps} {b b' : SDiskbasedResultBuf} {c : Call} {r : Ret}
    (hio : c.fopenOk = true) (hE : LruExact b) (h : exec d b c = .ok (b', r)) :
    LruExact b' :=
  ⟨exec_lruSound hE.1 h, exec_lruCovers hio hE.2.1 hE.2.2 h, exec_lruFresh hE.2.2 h⟩

theorem session_lruExact {d : Deps} {rowSize pagesize inMemBufSize : Nat} {cs : List Call}
    {b : SDiskbasedResultBuf} {rs : List Ret}
    (h : session d rowSize pagesize inMemBufSize cs = .ok (b, rs))
    (hio : ∀ c ∈ cs, c.fopenOk = true) : LruExact b := by
  unfold session at h
  split at h
  · simp at h
  · rename_i b0 hb0
    obtain ⟨_, _, hp, hl, _, _, _, _, _, hseq, _⟩ := createDiskbasedResultBuffer_ok hb0
    refine runCalls_induct LruExact (fun c => c.fopenOk = true)
      (fun _ _ _ _ hc hE hs => exec_lruExact hc hE hs) hio ?_ h
    refine ⟨?_, ?_, ?_, ?_⟩
    · intro n hn
      rw [hl] at hn
      simp at hn
    · intro i p hpi
      rw [hp] at hpi
      simp at hpi
    · rw [hl]
      simp
    · intro n hn
      rw [hl] at hn
      simp at hn


/-! ## The budget `inMemPages` -/

theorem acquired_sameTables {d : Deps} {env : Env} {b b1 : SDiskbasedResultBuf}
    {avail : Option Nat} (h : Acquired d env b b1 avail) : SameTables b b1 := by
  rcases h with ⟨_, hb, _⟩ | ⟨_, hev⟩
  · subst hb
    simp [SameTables]
  · rcases evicOneDataPage_ok hev with ⟨_, _, hb⟩ |
      ⟨n, p0, q, _, _, _, _, _, _, _, _, _, _, _, hsame, _⟩
    · subst hb
      simp [SameTables]
    · simpa [SameTables] using hsame

theorem acquired_inMemPages {d : Deps} {env : Env} {b b1 : SDiskbasedResultBuf}
    {avail : Option Nat} (h : Acquired d env b b1 avail) :
    b.inMemPages ≤ b1.inMemPages ∧
    (b1.inMemPages ≠ b.inMemPages →
      NO_AVAILABLE_PAGES b = true ∧ getEldestUnrefedPage b = .ok none ∧
      b1.inMemPages = b.inMemPages * 3 / 2) := by
  rcases h with ⟨_, hb, _⟩ | ⟨hfull, hev⟩
  · subst hb
    simp
  · rcases evicOneDataPage_ok hev with ⟨hel, _, hb⟩ |
      ⟨n, p0, q, _, _, _, _, _, _, _, _, _, hM, _⟩
    · subst hb
      refine ⟨?_, fun _ => ⟨?_, hel, rfl⟩⟩
      · show b.inMemPages ≤ b.inMemPages * 3 / 2
        omega
      · simpa [NO_AVAILABLE_PAGES] using hfull
    · simp only [counted_inMemPages] at hM
      rw [hM]
      simp

theorem exec_inMemPages {d : Deps} {b b' : SDiskbasedResultBuf} {c : Call} {r : Ret}
    (h : exec d b c = .ok (b', r)) :
    b.inMemPages ≤ b'.inMemPages ∧
    (b'.inMemPages ≠ b.inMemPages →
      NO_AVAILABLE_PAGES b = true ∧ getEldestUnrefedPage b = .ok none ∧
      b'.inMemPages = b.inMemPages * 3 / 2) := by
  cases c with
  | newDataBuf env groupId =>
    simp only [exec] at h
    split at h
    · simp at h
    · rename_i b2 pageId page hn
      simp only [Except.ok.injEq, Prod.mk.injEq] at h
      obtain ⟨hb, _⟩ := h
      subst hb
      obtain ⟨b1, avail, hacq, _, _, _, hM, _⟩ := getNewDataBuf_ok hn
      rw [hM]
      exact acquired_inMemPages hacq
  | resBufPage env id =>
    simp only [exec] at h
    split at h
    · simp at h
    · rename_i b2 page hn
      simp only [Except.ok.injEq, Prod.mk.injEq] at h
      obtain ⟨hb, _⟩ := h
      subst hb
      obtain ⟨pi, p, _, _, _, hcase⟩ := getResBufPage_ok hn
      rcases hcase with ⟨_, _, hM, _⟩ | ⟨_, _, b1, avail, hacq, _, _, hM, _⟩
      · rw [hM]
        simp
      · rw [hM]
        exact acquired_inMemPages hacq
  | release page =>
    simp only [exec] at h
    split at h
    · simp at h
    · rename_i b2 hn
      simp only [Except.ok.injEq, Prod.mk.injEq] at h
      obtain ⟨hb, _⟩ := h
      subst hb
      obtain ⟨slab, pi, p, _, _, _, _, _, hb⟩ := releaseResBufPage_ok hn
      subst hb
      simp
  | store page bytes =>
    simp only [exec] at h
    split at h
    · simp at h
    · rename_i b2 hn
      simp only [Except.ok.injEq, Prod.mk.injEq] at h
      obtain ⟨hb, _⟩ := h
      subst hb
      obtain ⟨slab, _, hb⟩ := storePayload_ok hn
      subst hb
      simp

theorem wrapInt32_succ (a : Int) : wrapInt32 (wrapInt32 a + 1) = wrapInt32 (a + 1) := by
  unfold wrapInt32
  omega

theorem wrapInt32_of_lt (k : Nat) (h : k < 2147483648) : wrapInt32 (k : Int) = (k : Int) := by
  unfold wrapInt32
  omega

theorem exec_idStep {d : Deps} {b b' : SDiskbasedResultBuf} {c : Call} {r : Ret}
    (h : exec d b c = .ok (b', r)) : IdStep b b' r ∧ RetMatches c r := by
  cases c with
  | newDataBuf env groupId =>
    simp only [exec] at h
    split at h
    · simp at h
    · rename_i b2 pageId page hn
      simp only [Except.ok.injEq, Prod.mk.injEq] at h
      obtain ⟨hb, hr⟩ := h
      subst hb hr
      obtain ⟨b1, avail, hacq, hid, _, _, _, _, hal, _⟩ := getNewDataBuf_ok hn
      obtain ⟨_, _, t3, _⟩ := acquired_sameTables hacq
      rw [t3] at hid
      exact ⟨⟨hid, hal⟩, trivial⟩
  | resBufPage env id =>
    simp only [exec] at h
    split at h
    · simp at h
    · rename_i b2 page hn
      simp only [Except.ok.injEq, Prod.mk.injEq] at h
      obtain ⟨hb, hr⟩ := h
      subst hb hr
      obtain ⟨pi, p, _, _, _, hcase⟩ := getResBufPage_ok hn
      rcases hcase with ⟨_, _, _, hsame, _⟩ | ⟨_, _, b1, avail, hacq, _, _, _, _, hal, _⟩
      · exact ⟨hsame.2.2.1, trivial⟩
      · obtain ⟨_, _, t3, _⟩ := acquired_sameTables hacq
        exact ⟨by show b2.allocateId = b.allocateId; rw [hal, t3], trivial⟩
  | release page =>
    simp only [exec] at h
    split at h
    · simp at h
    · rename_i b2 hn
      simp only [Except.ok.injEq, Prod.mk.injEq] at h
      obtain ⟨hb, hr⟩ := h
      subst hb hr
      obtain ⟨slab, pi, p, _, _, _, _, _, hb⟩ := releaseResBufPage_ok hn
      subst hb
      exact ⟨rfl, trivial⟩
  | store page bytes =>
    simp only [exec] at h
    split at h
    · simp at h
    · rename_i b2 hn
      simp only [Except.ok.injEq, Prod.mk.injEq] at h
      obtain ⟨hb, hr⟩ := h
      subst hb hr
      obtain ⟨slab, _, hb⟩ := storePayload_ok hn
      subst hb
      exact ⟨rfl, trivial⟩

theorem range_succ_map_shift (f : Int → Int) (a : Int) (n : Nat) :
    (List.range (n + 1)).map (fun k : Nat => f (a + k)) =
      f a :: (List.range n).map (fun k : Nat => f (a + 1 + k)) := by
  rw [List.range_succ_eq_map, List.map_cons, List.map_map]
  simp only [Nat.cast_zero, add_zero, List.cons.injEq, true_and]
  apply List.map_congr_left
  intro k _
  simp only [Function.comp, Nat.cast_succ]
  congr 1
  ring

theorem runCalls_ids {d : Deps} {cs : List Call} {b b' : SDiskbasedResultBuf} {rs : List Ret}
    (h : runCalls d b cs = .ok (b', rs)) (a : Int) (ha : b.allocateId = wrapInt32 a) :
    newPageIds rs =
      (List.range (cs.filter Call.isNew).length).map (fun k : Nat => wrapInt32 (a + 1 + k)) ∧
    b'.allocateId = wrapInt32 (a + (cs.filter Call.isNew).length) := by
  induction cs generalizing b rs a with
  | nil =>
    simp only [runCalls, Except.ok.injEq, Prod.mk.injEq] at h
    obtain ⟨hb, hr⟩ := h
    subst hb hr
    simpa [newPageIds] using ha
  | cons c cs ih =>
    simp only [runCalls] at h
    split at h
    · simp at h
    · rename_i b1 r hc
      split at h
      · simp at h
      · rename_i b2 rs2 hr
        simp only [Except.ok.injEq, Prod.mk.injEq] at h
        obtain ⟨hb, hrs⟩ := h
        subst hb hrs
        obtain ⟨hstep, hmatch⟩ := exec_idStep hc
        cases c <;> cases r <;> simp only [RetMatches] at hmatch
        · obtain ⟨hid, hal⟩ := hstep
          have ha1 : b1.allocateId = wrapInt32 (a + 1) := by
            rw [hal, hid, ha, wrapInt32_succ]
          obtain ⟨ih1, ih2⟩ := ih hr (a + 1) ha1
          simp only [List.filter_cons, Call.isNew, if_true, List.length_cons, newPageIds]
          refine ⟨?_, ?_⟩
          · rw [range_succ_map_shift wrapInt32 (a + 1), ih1, hid, ha, wrapInt32_succ]
          · rw [ih2]
            congr 1
            push_cast
            ring
        · have ha1 : b1.allocateId = wrapInt32 a := by
            rw [← ha]
            exact hstep
          simpa [List.filter_cons, Call.isNew, newPageIds] using ih hr a ha1
        · have ha1 : b1.allocateId = wrapInt32 a := by
            rw [← ha]
            exact hstep
          simpa [List.filter_cons, Call.isNew, newPageIds] using ih hr a ha1
        · have ha1 : b1.allocateId = wrapInt32 a := by
            rw [← ha]
            exact hstep
          simpa [List.filter_cons, Call.isNew, newPageIds] using ih hr a ha1

/-- **C6.**  In a session the `getNewDataBuf` calls return the page ids
0, 1, 2, ... in this order, the k-th call the id k-1, and no two of them the
same id, as long as there are at most 2^31 such calls (the ids fit `int32_t`). -/
theorem new_page_ids_count_from_zero (d : Deps) (rowSize pagesize inMemBufSize : Nat)
    (cs : List Call) (b : SDiskbasedResultBuf) (rs : List Ret)
    (h : session d rowSize pagesize inMemBufSize cs = .ok (b, rs))
    (hk : (cs.filter Call.isNew).length ≤ 2147483648) :
    newPageIds rs = (List.range (cs.filter Call.isNew).length).map (fun k : Nat => (k : Int)) ∧
    (newPageIds rs).Nodup := by
  unfold session at h
  split at h
  · simp at h
  · rename_i b0 hb0
    obtain ⟨_, _, _, _, _, _, hal, _⟩ := createDiskbasedResultBuffer_ok hb0
    obtain ⟨hids, _⟩ := runCalls_ids h (-1) (by rw [hal]; rfl)
    have heq : newPageIds rs =
        (List.range (cs.filter Call.isNew).length).map (fun k : Nat => (k : Int)) := by
      rw [hids]
      apply List.map_congr_left
      intro k hkm
      have hlt : k < 2147483648 := by
        have := List.mem_range.1 hkm
        omega
      have : (-1 : Int) + 1 + (k : Int) = (k : Int) := by ring
      rw [this]
      exact wrapInt32_of_lt k hlt
    refine ⟨heq, ?_⟩
    rw [heq]
    exact (List.nodup_range _).map Nat.cast_injective


/-! ## Group lists -/

theorem idsOfGroup_concat (gs : List Int) (g₁ g : Int) :
    idsOfGroup (gs ++ [g₁]) g = idsOfGroup gs g ++ (if g₁ = g then [gs.length] else []) := by
  unfold idsOfGroup
  rw [List.length_append, List.length_singleton, List.range_succ, List.filter_append]
  congr 1
  · apply List.filter_congr
    intro i hi
    have hlt : i < gs.length := List.mem_range.1 hi
    rw [List.getElem?_append_left hlt]
  · by_cases hg : g₁ = g
    · simp [hg]
    · simp [hg]

theorem mem_idsOfGroup_lt {gs : List Int} {g : Int} {i : Nat} (h : i ∈ idsOfGroup gs g) :
    i < gs.length := by
  unfold idsOfGroup at h
  exact List.mem_range.1 (List.mem_filter.1 h).1

theorem getDataBufPagesIdList_put (b1 b' : SDiskbasedResultBuf) (g₁ g : Int) (l : List Nat)
    (h : b'.groupSet = taosHashPut b1.groupSet g₁ l) :
    getDataBufPagesIdList b' g = if g₁ = g then l else getDataBufPagesIdList b1 g := by
  unfold getDataBufPagesIdList
  rw [h]
  by_cases hg : g₁ = g
  · subst hg
    simp [taosHashGet_put_same]
  · simp [taosHashGet_put_other _ _ _ _ hg, hg]

theorem getDataBufPagesIdList_congr (b b' : SDiskbasedResultBuf) (g : Int)
    (h : b'.groupSet = b.groupSet) : getDataBufPagesIdList b' g = getDataBufPagesIdList b g := by
  unfold getDataBufPagesIdList
  rw [h]

theorem acquired_pageId {d : Deps} {env : Env} {b b1 : SDiskbasedResultBuf}
    {avail : Option Nat} (h : Acquired d env b b1 avail) {i : Nat} {p1 : SPageInfo}
    (hp : b1.pages[i]? = some p1) : ∃ p, b.pages[i]? = some p ∧ p1.pageId = p.pageId := by
  rcases h with ⟨_, hb, _⟩ | ⟨_, hev⟩
  · subst hb
    exact ⟨p1, hp, rfl⟩
  · rcases evicOneDataPage_ok hev with ⟨_, _, hb⟩ |
      ⟨n, p0, q, _, hp0, _, _, _, hpages, _, _, hq, _⟩
    · subst hb
      exact ⟨p1, hp, rfl⟩
    · simp only [counted_pages] at hp0 hpages
      have hlt : n.data < b.pages.length := (List.getElem?_eq_some.1 hp0).1
      rw [hpages] at hp
      by_cases he : n.data = i
      · subst he
        rw [getElem?_set_at _ _ _ hlt] at hp
        simp only [Option.some.injEq] at hp
        subst hp
        exact ⟨p0, hp0, hq⟩
      · rw [getElem?_set_ne' _ _ _ _ he] at hp
        exact ⟨p1, hp, rfl⟩

theorem exec_tableInv {d : Deps} {b b' : SDiskbasedResultBuf} {c : Call} {r : Ret}
    {gs : List Int} (hT : TableInv b gs) (h : exec d b c = .ok (b', r)) :
    TableInv b' (match c.group? with
      | some g => gs ++ [g]
      | none => gs) := by
  obtain ⟨hlen, hal, hid, hgrp⟩ := hT
  cases c with
  | newDataBuf env groupId =>
    simp only [exec] at h
    split at h
    · simp at h
    · rename_i b2 pageId page hn
      simp only [Except.ok.injEq, Prod.mk.injEq] at h
      obtain ⟨hb, _⟩ := h
      subst hb
      obtain ⟨b1, avail, hacq, hpid, hpages, _, _, _, hal', hgs, _⟩ := getNewDataBuf_ok hn
      obtain ⟨_, _, t3, _, t5, _, _, t8⟩ := acquired_sameTables hacq
      have hnew : pageId = wrapInt32 (gs.length : Int) := by
        rw [hpid, t3, hal, wrapInt32_succ]
        congr 1
        ring
      simp only [Call.group?]
      refine ⟨?_, ?_, ?_, ?_⟩
      · rw [hpages]
        simp only [List.length_append, List.length_singleton]
        omega
      · rw [hal', hnew]
        congr 1
        simp
      · intro i p hp
        rw [hpages] at hp
        by_cases hi : i < b1.pages.length
        · rw [List.getElem?_append_left hi] at hp
          obtain ⟨p0, hp0, he⟩ := acquired_pageId hacq hp
          rw [he]
          exact hid i p0 hp0
        · have hlt := (List.getElem?_eq_some.1 hp).1
          simp only [List.length_append, List.length_singleton] at hlt
          have hi2 : i = b1.pages.length := by omega
          subst hi2
          rw [List.getElem?_concat_length] at hp
          simp only [Option.some.injEq] at hp
          subst hp
          simp only
          rw [hnew, t8, hlen]
      · intro g
        rw [getDataBufPagesIdList_put b1 b2 groupId g _ hgs, idsOfGroup_concat]
        have h1 : ∀ g', getDataBufPagesIdList b1 g' = idsOfGroup gs g' := by
          intro g'
          rw [getDataBufPagesIdList_congr b b1 g' t5]
          exact hgrp g'
        by_cases hg : groupId = g
        · subst hg
          simp [h1, t8, hlen]
        · simp [hg, h1]
  | resBufPage env id =>
    simp only [exec] at h
    split at h
    · simp at h
    · rename_i b2 page hn
      simp only [Except.ok.injEq, Prod.mk.injEq] at h
      obtain ⟨hb, _⟩ := h
      subst hb
      simp only [Call.group?]
      obtain ⟨pi, p, _, _, hp, hcase⟩ := getResBufPage_ok hn
      have hlt : pi < b.pages.length := (List.getElem?_eq_some.1 hp).1
      rcases hcase with ⟨_, hpages, _, hsame, _⟩ |
        ⟨_, hpn, b1, avail, hacq, hpages, _, _, _, hal', hgs, _⟩
      · obtain ⟨_, _, t3, _, t5, _, _, t8⟩ := hsame
        refine ⟨by omega, by rw [t3]; exact hal, ?_, ?_⟩
        · intro i q hq
          rw [hpages] at hq
          by_cases he : pi = i
          · subst he
            rw [getElem?_set_at _ _ _ hlt] at hq
            simp only [Option.some.injEq] at hq
            subst hq
            exact hid pi p hp
          · rw [getElem?_set_ne' _ _ _ _ he] at hq
            exact hid i q hq
        · intro g
          rw [getDataBufPagesIdList_congr b b2 g t5]
          exact hgrp g
      · obtain ⟨_, _, t3, _, t5, _, _, t8⟩ := acquired_sameTables hacq
        have hp1 : b1.pages[pi]? = some p := acquired_page_kept hacq hp hpn
        have hlt1 : pi < b1.pages.length := (List.getElem?_eq_some.1 hp1).1
        refine ⟨?_, by rw [hal', t3]; exact hal, ?_, ?_⟩
        · rw [hpages, List.length_set]
          omega
        · intro i q hq
          rw [hpages] at hq
          by_cases he : pi = i
          · subst he
            rw [getElem?_set_at _ _ _ hlt1] at hq
            simp only [Option.some.injEq] at hq
            subst hq
            exact hid pi p hp
          · rw [getElem?_set_ne' _ _ _ _ he] at hq
            obtain ⟨p0, hp0, he0⟩ := acquired_pageId hacq hq
            rw [he0]
            exact hid i p0 hp0
        · intro g
          rw [getDataBufPagesIdList_congr b b2 g (by rw [hgs, t5])]
          exact hgrp g
  | release page =>
    simp only [exec] at h
    split at h
    · simp at h
    · rename_i b2 hn
      simp only [Except.ok.injEq, Prod.mk.injEq] at h
      obtain ⟨hb, _⟩ := h
      subst hb
      simp only [Call.group?]
      obtain ⟨slab, pi, p, _, _, hp, _, _, hb⟩ := releaseResBufPage_ok hn
      subst hb
      have hlt : pi < b.pages.length := (List.getElem?_eq_some.1 hp).1
      refine ⟨by simpa using hlen, hal, ?_, fun g => hgrp g⟩
      intro i q hq
      simp only at hq
      by_cases he : pi = i
      · subst he
        rw [getElem?_set_at _ _ _ hlt] at hq
        simp only [Option.some.injEq] at hq
        subst hq
        exact hid pi p hp
      · rw [getElem?_set_ne' _ _ _ _ he] at hq
        exact hid i q hq
  | store page bytes =>
    simp only [exec] at h
    split at h
    · simp at h
    · rename_i b2 hn
      simp only [Except.ok.injEq, Prod.mk.injEq] at h
      obtain ⟨hb, _⟩ := h
      subst hb
      obtain ⟨slab, _, hb⟩ := storePayload_ok hn
      subst hb
      exact ⟨hlen, hal, hid, hgrp⟩

theorem runCalls_tableInv {d : Deps} {cs : List Call} {b b' : SDiskbasedResultBuf}
    {rs : List Ret} {gs : List Int} (hT : TableInv b gs)
    (h : runCalls d b cs = .ok (b', rs)) : TableInv b' (gs ++ groupsOf cs) := by
  induction cs generalizing b rs gs with
  | nil =>
    simp only [runCalls, Except.ok.injEq, Prod.mk.injEq] at h
    obtain ⟨hb, _⟩ := h
    subst hb
    simpa [groupsOf] using hT
  | cons c cs ih =>
    simp only [runCalls] at h
    split at h
    · simp at h
    · rename_i b1 r hc
      split at h
      · simp at h
      · rename_i b2 rs2 hr
        simp only [Except.ok.injEq, Prod.mk.injEq] at h
        obtain ⟨hb, _⟩ := h
        subst hb
        have h1 := exec_tableInv hT hc
        have h2 := ih h1 hr
        cases hg : c.group? with
        | none =>
          simp only [hg] at h2
          simpa [groupsOf, hg] using h2
        | some g =>
          simp only [hg] at h2
          simpa [groupsOf, hg] using h2

theorem create_tableInv {d : Deps} {rowSize pagesize inMemBufSize : Nat}
    {b : SDiskbasedResultBuf}
    (h : createDiskbasedResultBuffer d rowSize pagesize inMemBufSize = .ok b) :
    TableInv b [] := by
  obtain ⟨_, _, hp, _, _, _, hal, hgs, _⟩ := createDiskbasedResultBuffer_ok h
  refine ⟨by simp [hp], by rw [hal]; rfl, ?_, ?_⟩
  · intro i p hpi
    rw [hp] at hpi
    simp at hpi
  · intro g
    simp [getDataBufPagesIdList, hgs, taosHashGet, idsOfGroup]

theorem groupsOf_newCalls (reqs : List (Env × Int)) :
    groupsOf (newCalls reqs) = reqs.map Prod.snd := by
  induction reqs with
  | nil => rfl
  | cons q t ih => simpa [newCalls, groupsOf, Call.group?] using ih


/-! ## Sessions of `getNewDataBuf` calls run to completion -/

theorem getNewDataBuf_of_acquired {d : Deps} {env : Env} {b b1 : SDiskbasedResultBuf}
    {avail : Option Nat} (groupId : Int)
    (h : (if NO_AVAILABLE_PAGES (counted b) then evicOneDataPage d env (counted b)
          else .ok (counted b, none)) = .ok (b1, avail))
    (hroom : b1.lruList.length < b1.inMemPages) :
    ∃ b' pageId page, getNewDataBuf d env b groupId = .ok (b', pageId, page) := by
  unfold getNewDataBuf
  simp only
  split
  · rename_i e he
    have := h.symm.trans he
    simp at this
  · rename_i b2 avail2 he
    have heq := h.symm.trans he
    simp only [Except.ok.injEq, Prod.mk.injEq] at heq
    obtain ⟨hb, _⟩ := heq
    subst hb
    have hc : (registerPage { b1 with allocateId := wrapInt32 (b1.allocateId + 1) } groupId
        (wrapInt32 (b1.allocateId + 1))).1.lruList.length <
        (registerPage { b1 with allocateId := wrapInt32 (b1.allocateId + 1) } groupId
          (wrapInt32 (b1.allocateId + 1))).1.inMemPages ∧
        (registerPage { b1 with allocateId := wrapInt32 (b1.allocateId + 1) } groupId
          (wrapInt32 (b1.allocateId + 1))).1.inMemPages > 0 := by
      simp only [registerPage]
      omega
    rw [if_neg (not_not.2 hc)]
    exact ⟨_, _, _, rfl⟩

theorem allPinned_eldest {b : SDiskbasedResultBuf} (hP : AllPinned b) :
    getEldestUnrefedPage b = .ok none := by
  unfold getEldestUnrefedPage
  exact eldestFrom_none_of (fun n hn => hP.1 n (List.mem_reverse.1 hn))

theorem allPinned_acquire {d : Deps} {env : Env} {b : SDiskbasedResultBuf}
    (hP : AllPinned b) :
    ∃ b1 avail, (if NO_AVAILABLE_PAGES (counted b) then evicOneDataPage d env (counted b)
          else .ok (counted b, none)) = .ok (b1, avail) := by
  by_cases hn : NO_AVAILABLE_PAGES (counted b) = true
  · rw [if_pos hn]
    have hel : getEldestUnrefedPage (counted b) = .ok none := allPinned_eldest hP
    unfold evicOneDataPage
    rw [hel]
    exact ⟨_, _, rfl⟩
  · rw [if_neg hn]
    exact ⟨_, _, rfl⟩

theorem allPinned_acquired {d : Deps} {env : Env} {b b1 : SDiskbasedResultBuf}
    {avail : Option Nat} (hP : AllPinned b) (h : Acquired d env b b1 avail) :
    b1.pages = b.pages ∧ b1.lruList = b.lruList ∧ b1.numOfPages = b.numOfPages ∧
      b.numOfPages + 1 ≤ b1.inMemPages ∧ 2 ≤ b1.inMemPages := by
  obtain ⟨_, hlen, hle, htwo⟩ := hP
  rcases h with ⟨hlt, hb, _⟩ | ⟨hfull, hev⟩
  · subst hb
    exact ⟨rfl, rfl, rfl, hlt, htwo⟩
  · rcases evicOneDataPage_ok hev with ⟨_, _, hb⟩ | ⟨n, p0, q, hel, _⟩
    · subst hb
      refine ⟨rfl, rfl, rfl, ?_, ?_⟩
      · show b.numOfPages + 1 ≤ b.inMemPages * 3 / 2
        omega
      · show 2 ≤ b.inMemPages * 3 / 2
        omega
    · have hnone : getEldestUnrefedPage (counted b) = .ok none :=
        allPinned_eldest ⟨‹_›, hlen, hle, htwo⟩
      rw [hnone] at hel
      simp at hel

theorem allPinned_step {d : Deps} {b : SDiskbasedResultBuf} {gs : List Int}
    (env : Env) (groupId : Int) (hP : AllPinned b) (hT : TableInv b gs)
    (hk : gs.length < 2147483648) :
    ∃ b' pageId page, getNewDataBuf d env b groupId = .ok (b', pageId, page) ∧
      AllPinned b' := by
  obtain ⟨b1, avail, hexpr⟩ := @allPinned_acquire d env b hP
  obtain ⟨a1, a2, a3, a4, a5⟩ := allPinned_acquired hP (acquired_of_eq hexpr)
  have hroom : b1.lruList.length < b1.inMemPages := by
    rw [a2, hP.2.1]
    omega
  obtain ⟨b', pageId, page, hn⟩ := getNewDataBuf_of_acquired groupId hexpr hroom
  refine ⟨b', pageId, page, hn, ?_⟩
  obtain ⟨b2, avail2, hacq, hpid, hpages, hlru, hM, hN, _⟩ := getNewDataBuf_ok hn
  obtain ⟨c1, c2, c3, c4, c5⟩ := allPinned_acquired hP hacq
  obtain ⟨_, _, t3, _⟩ := acquired_sameTables hacq
  have hidv : pageId = (gs.length : Int) := by
    rw [hpid, t3, hT.2.1, wrapInt32_succ]
    have : (gs.length : Int) - 1 + 1 = (gs.length : Int) := by ring
    rw [this]
    exact wrapInt32_of_lt _ hk
  refine ⟨?_, ?_, ?_, ?_⟩
  · intro m hm
    rw [hlru] at hm
    rcases List.mem_cons.1 hm with hm | hm
    · subst hm
      refine ⟨_, by rw [hpages]; exact List.getElem?_concat_length _ _, ?_, rfl, rfl⟩
      simp only
      rw [hidv]
      exact Int.natCast_nonneg _
    · rw [c2] at hm
      obtain ⟨p, hp, h1, h2, h3⟩ := hP.1 m hm
      have hlt : m.data < b2.pages.length := by
        rw [c1]
        exact (List.getElem?_eq_some.1 hp).1
      exact ⟨p, by rw [hpages, List.getElem?_append_left hlt, c1]; exact hp, h1, h2, h3⟩
  · rw [hlru, hN, List.length_cons, c2, c3, hP.2.1]
  · rw [hN, hM, c3]
    exact c4
  · rw [hM]
    exact c5

theorem exec_newDataBuf_of {d : Deps} {env : Env} {b b' : SDiskbasedResultBuf}
    {groupId pageId : Int} {page : Nat}
    (h : getNewDataBuf d env b groupId = .ok (b', pageId, page)) :
    exec d b (.newDataBuf env groupId) = .ok (b', .newPage pageId page) := by
  simp only [exec, h]

theorem runCalls_newCalls_total {d : Deps} (reqs : List (Env × Int))
    {b : SDiskbasedResultBuf} {gs : List Int} (hP : AllPinned b) (hT : TableInv b gs)
    (hk : gs.length + reqs.length ≤ 2147483648) :
    ∃ b' rs, runCalls d b (newCalls reqs) = .ok (b', rs) := by
  induction reqs generalizing b gs with
  | nil => exact ⟨b, [], rfl⟩
  | cons q t ih =>
    simp only [List.length_cons] at hk
    obtain ⟨b1, pageId, page, hn, hP1⟩ := @allPinned_step d b gs q.1 q.2 hP hT (by omega)
    have hx := exec_newDataBuf_of hn
    have hT1 : TableInv b1 (gs ++ [q.2]) := by
      simpa [Call.group?] using exec_tableInv hT hx
    obtain ⟨b2, rs, hr⟩ := ih hP1 hT1 (by simp only [List.length_append, List.length_singleton]; omega)
    refine ⟨b2, .newPage pageId page :: rs, ?_⟩
    simp only [newCalls, List.map_cons, runCalls, hx]
    simp only [newCalls] at hr
    rw [hr]

theorem create_allPinned {d : Deps} {rowSize pagesize inMemBufSize : Nat}
    {b : SDiskbasedResultBuf}
    (h : createDiskbasedResultBuffer d rowSize pagesize inMemBufSize = .ok b) :
    AllPinned b := by
  obtain ⟨_, _, htwo⟩ := create_budget h
  obtain ⟨_, _, _, hl, _, hN, _⟩ := createDiskbasedResultBuffer_ok h
  refine ⟨?_, by rw [hl, hN]; rfl, by rw [hN]; omega, htwo⟩
  intro m hm
  rw [hl] at hm
  simp at hm

theorem createDiskbasedResultBuffer_total (d : Deps) {rowSize pagesize inMemBufSize : Nat}
    (h1 : rowSize ≠ 0) (h2 : pagesize ≠ 0) (h3 : pagesize * 2 ≤ inMemBufSize) :
    ∃ b, createDiskbasedResultBuffer d rowSize pagesize inMemBufSize = .ok b := by
  unfold createDiskbasedResultBuffer
  rw [if_neg h2, if_neg (not_not.2 h3), if_neg h1]
  exact ⟨_, rfl⟩

/-- **C5.**  After a session of `getNewDataBuf` calls, `getDataBufPagesIdList`
gives for every group id `g` exactly the pages created with group `g`, in the
order of their creation, the page created by the k-th call being page object
k-1 with page id k-1 (as an `int32_t`); a group id that was never used gives the
empty list.  A session of at most 2^31 such calls on a buffer that can be
created runs to completion, and the page ids of the list of `g` are then the
positions of `g` in the sequence of group ids, counted from 0. -/
theorem group_lists_in_creation_order (d : Deps) (rowSize pagesize inMemBufSize : Nat)
    (reqs : List (Env × Int)) :
    (∀ b rs, session d rowSize pagesize inMemBufSize (newCalls reqs) = .ok (b, rs) →
      (∀ g, getDataBufPagesIdList b g = idsOfGroup (reqs.map Prod.snd) g) ∧
      (∀ g, g ∉ reqs.map Prod.snd → getDataBufPagesIdList b g = []) ∧
      ∀ i, i < reqs.length → (b.pages[i]?).map SPageInfo.pageId = some (wrapInt32 i)) ∧
    (rowSize ≠ 0 → pagesize ≠ 0 → pagesize * 2 ≤ inMemBufSize →
      reqs.length ≤ 2147483648 →
      ∃ b rs, session d rowSize pagesize inMemBufSize (newCalls reqs) = .ok (b, rs) ∧
        ∀ g, pageIdsOf b (getDataBufPagesIdList b g) =
          (idsOfGroup (reqs.map Prod.snd) g).map (fun (i : Nat) => some (i : Int))) := by
  have key : ∀ b rs, session d rowSize pagesize inMemBufSize (newCalls reqs) = .ok (b, rs) →
      TableInv b (reqs.map Prod.snd) := by
    intro b rs h
    unfold session at h
    split at h
    · simp at h
    · rename_i b0 hb0
      have := runCalls_tableInv (create_tableInv hb0) h
      simpa [groupsOf_newCalls] using this
  refine ⟨?_, ?_⟩
  · intro b rs h
    obtain ⟨hlen, _, hid, hgrp⟩ := key b rs h
    refine ⟨hgrp, ?_, ?_⟩
    · intro g hg
      rw [hgrp g]
      unfold idsOfGroup
      rw [List.filter_eq_nil_iff]
      intro i hi
      simp only [beq_iff_eq]
      intro hget
      exact hg (List.mem_iff_getElem?.2 ⟨i, hget⟩)
    · intro i hi
      have hlt : i < b.pages.length := by
        rw [hlen, List.length_map]
        exact hi
      obtain ⟨p, hp⟩ : ∃ p, b.pages[i]? = some p := ⟨_, List.getElem?_eq_getElem hlt⟩
      rw [hp, Option.map_some', hid i p hp]
  · intro h1 h2 h3 hk
    obtain ⟨b0, hb0⟩ := createDiskbasedResultBuffer_total d h1 h2 h3
    obtain ⟨b, rs, hr⟩ := @runCalls_newCalls_total d reqs b0 [] (create_allPinned hb0)
      (create_tableInv hb0) (by simpa using hk)
    have hs : session d rowSize pagesize inMemBufSize (newCalls reqs) = .ok (b, rs) := by
      unfold session
      rw [hb0]
      exact hr
    refine ⟨b, rs, hs, ?_⟩
    intro g
    obtain ⟨hlen, _, hid, hgrp⟩ := key b rs hs
    rw [hgrp g]
    unfold pageIdsOf
    apply List.map_congr_left
    intro i hi
    have hi2 := mem_idsOfGroup_lt hi
    have hlt : i < b.pages.length := by
      rw [hlen]
      exact hi2
    obtain ⟨p, hp⟩ : ∃ p, b.pages[i]? = some p := ⟨_, List.getElem?_eq_getElem hlt⟩
    rw [List.length_map] at hi2
    rw [hp, Option.map_some', hid i p hp, wrapInt32_of_lt i (by omega)]


/-! ## What the calls do to the page they return -/

theorem acquired_mem_length {d : Deps} {env : Env} {b b1 : SDiskbasedResultBuf}
    {avail : Option Nat} (h : Acquired d env b b1 avail) : b1.mem.length = b.mem.length := by
  rcases h with ⟨_, hb, _⟩ | ⟨_, hev⟩
  · subst hb
    rfl
  · rcases evicOneDataPage_ok hev with ⟨_, _, hb⟩ |
      ⟨n, p0, q, _, _, _, _, _, _, _, _, _, _, _, _, hm, _⟩
    · subst hb
      rfl
    · simpa using hm

theorem acquired_victim {d : Deps} {env : Env} {b b1 : SDiskbasedResultBuf} {s : Nat}
    (h : Acquired d env b b1 (some s)) :
    ∃ (v : Nat) (pv qv : SPageInfo), b.pages[v]? = some pv ∧ pv.used = false ∧
      pv.pData = some s ∧ b1.pages[v]? = some qv ∧ qv.pData = none := by
  rcases h with ⟨_, _, hn⟩ | ⟨_, hev⟩
  · simp at hn
  · rcases evicOneDataPage_ok hev with ⟨_, hn, _⟩ |
      ⟨n, p0, q, _, hp0, _, hu, _, hpages, _, _, _, _, _, _, _, hcase⟩
    · simp at hn
    · simp only [counted_pages] at hp0 hpages
      have hlt : n.data < b.pages.length := (List.getElem?_eq_some.1 hp0).1
      rcases hcase with ⟨hn, _⟩ | ⟨s', hs, hpd, hqd, _⟩
      · simp at hn
      · simp only [Option.some.injEq] at hs
        subst hs
        exact ⟨n.data, p0, q, hp0, hu, hpd, by rw [hpages]; exact getElem?_set_at _ _ _ hlt, hqd⟩

/-- **C7.**  After `getNewDataBuf` has returned page id `pageId` and payload
pointer `page`, the page registered under `pageId` has `pData` equal to `page`
(it is memory-resident) and `used == true` (it is pinned).  This holds when the
slab is new (`page` is the next free arena slot) and when it was taken over from
an evicted page `v`, which was unused, owned the slab before the call and has no
slab after it. -/
theorem new_page_is_resident_and_pinned (d : Deps) (env : Env) (b b' : SDiskbasedResultBuf)
    (groupId pageId : Int) (page : Nat)
    (h : getNewDataBuf d env b groupId = .ok (b', pageId, page)) :
    (∃ pi p, taosHashGet b'.all pageId = some pi ∧ b'.pages[pi]? = some p ∧
      p.pageId = pageId ∧ p.pData = some page ∧ p.used = true) ∧
    (page = b.mem.length ∨
      ∃ (v : Nat) (pv qv : SPageInfo), b.pages[v]? = some pv ∧ pv.used = false ∧
        pv.pData = some page ∧ b'.pages[v]? = some qv ∧ qv.pData = none) := by
  obtain ⟨b1, avail, hacq, _, hpages, _, _, _, _, _, hall, _, hnone, hsome, _⟩ :=
    getNewDataBuf_ok h
  refine ⟨⟨b1.pages.length, ⟨some b1.nodeSeq, pageId, PAGE_INFO_INITIALIZER, some page, true⟩,
    ?_, ?_, rfl, rfl, rfl⟩, ?_⟩
  · rw [hall]
    exact taosHashGet_put_same _ _ _
  · rw [hpages]
    exact List.getElem?_concat_length _ _
  · cases avail with
    | none =>
      left
      rw [hnone rfl]
      exact acquired_mem_length hacq
    | some s =>
      right
      have hps := hsome s rfl
      subst hps
      obtain ⟨v, pv, qv, h1, h2, h3, h4, h5⟩ := acquired_victim hacq
      have hlt : v < b1.pages.length := (List.getElem?_eq_some.1 h4).1
      exact ⟨v, pv, qv, h1, h2, h3, by rw [hpages, List.getElem?_append_left hlt]; exact h4, h5⟩

/-- **C9, as stated, fails.**  Two pages are created and page 0 is released:
page 0 is unused afterwards, but its node (address 0) is not the head of the
LRU list; the head is the node of page 1, where `getNewDataBuf` put it. -/
theorem released_page_not_at_lru_front :
    observe (session trimDeps 4 16 32 (twoPinnedCalls ++ [.release 0]))
      (fun b => ((pageOfId b 0).map (fun p => (p.used, p.pn)), b.lruList.head?))
      = some (some (false, some 0), some ⟨1, 1⟩) := by
  decide

/-- **C9, amended.**  `releaseResBufPage` on the payload pointer of a pinned
page `p` (the page named in the slab header, with `used == true` and a slab)
succeeds, leaves `p` unpinned (`used == false`) and leaves the LRU list as it
was: the node of `p` stays where the last `getNewDataBuf` or `getResBufPage` of
`p` put it. -/
theorem release_unpins_and_keeps_lru (b : SDiskbasedResultBuf) (page pi : Nat) (slab : Slab)
    (p : SPageInfo) (hslab : b.mem[page]? = some slab) (howner : slab.owner = some pi)
    (hp : b.pages[pi]? = some p) (hused : p.used = true) (hres : p.pData ≠ none) :
    ∃ b', releaseResBufPage b page = .ok b' ∧
      b'.pages[pi]? = some { p with used := false } ∧ b'.lruList = b.lruList := by
  have hlt : pi < b.pages.length := (List.getElem?_eq_some.1 hp).1
  refine ⟨{ b with
            pages := b.pages.set pi { p with used := false }
            statis := { b.statis with releasePages := b.statis.releasePages + 1 } },
    ?_, getElem?_set_at _ _ _ hlt, rfl⟩
  unfold releaseResBufPage
  rw [hslab]
  simp only [howner]
  unfold releaseResBufPageInfo
  rw [hp]
  simp only
  rw [if_neg (not_not.2 ⟨hres, hused⟩)]

/-- **C8, the defect.**  In the scenario "eviction and reload" the call
`getResBufPage(0)` loads page 0 back from disk and returns its payload
(`[161, ...]` at slab 1), yet leaves `used == false`: the page is memory-resident
and in the LRU list but not pinned. -/
theorem reloaded_page_is_not_pinned :
    observe (session trimDeps 4 16 48 reloadCalls)
      (fun b => ((pageOfId b 0).map (fun p => (p.pData, p.used)), payloadAt b 1))
      = some (some (some 1, false), some (fill 161)) ∧
    (finalRets (session trimDeps 4 16 48 reloadCalls)).getLast? = some (.page 1) := by
  decide

/-- The branch of `getResBufPage` for a page without slab never writes the
`used` flag: the page has afterwards the flag it had before. -/
theorem getResBufPage_reload_keeps_used (d : Deps) (env : Env) (b b' : SDiskbasedResultBuf)
    (id : Int) (page : Nat) (p : SPageInfo)
    (h : getResBufPage d env b id = .ok (b', page)) (hp : pageOfId b id = some p)
    (hd : p.pData = none) :
    (pageOfId b' id).map SPageInfo.used = some p.used := by
  obtain ⟨pi, p0, _, hpi, hp0, hcase⟩ := getResBufPage_ok h
  have hpp : p0 = p := by
    unfold pageOfId at hp
    rw [hpi] at hp
    simp only [hp0] at hp
    exact Option.some.inj hp
  subst hpp
  rcases hcase with ⟨hpd, _⟩ | ⟨_, hpn, b1, avail, hacq, hpages, _, _, _, _, _, hall, _⟩
  · rw [hd] at hpd
    simp at hpd
  · have hp1 : b1.pages[pi]? = some p0 := acquired_page_kept hacq hp0 hpn
    have hlt : pi < b1.pages.length := (List.getElem?_eq_some.1 hp1).1
    obtain ⟨_, _, _, _, _, t6, _⟩ := acquired_sameTables hacq
    unfold pageOfId
    rw [hall, t6, hpi]
    simp only
    rw [hpages, getElem?_set_at _ _ _ hlt]
    rfl

/-- **C10, the defect.**  The third `getNewDataBuf` of `recycleCalls` takes over
the slab of the evicted page 0, which held 16 bytes `161`.  The payload it
returns (slab 0) starts with 8 zero bytes and ends with 8 bytes of the evicted
page: `memset(ret, 0, pageSize)` starts at the header, `POINTER_BYTES` before
the payload. -/
theorem recycled_payload_is_not_zeroed :
    (finalRets (session trimDeps 4 16 32 recycleCalls)).getLast? = some (.newPage 2 0) ∧
    observe (session trimDeps 4 16 32 recycleCalls) (fun b => payloadAt b 0)
      = some (some [0, 0, 0, 0, 0, 0, 0, 0, 161, 161, 161, 161, 161, 161, 161, 161]) := by
  decide

/-- The stand-in codec meets what is assumed of the codec: it never lengthens
its input, and decompressing a compressed page gives the page back. -/
theorem trimDeps_roundtrips (x : List Nat) :
    (trimDeps.tsCompressString x).length ≤ x.length ∧
    trimDeps.tsDecompressString (trimDeps.tsCompressString x) x.length = x := by
  have hc : trimDeps.tsCompressString x = x.rdropWhile (fun v => v == 0) := rfl
  rw [hc]
  clear hc
  refine ⟨(List.rdropWhile_prefix _ x).length_le, ?_⟩
  show x.rdropWhile (fun v => v == 0) ++
    List.replicate (x.length - (x.rdropWhile (fun v => v == 0)).length) 0 = x
  induction x using List.reverseRecOn with
  | nil => rfl
  | append_singleton l a ih =>
    have hle : (l.rdropWhile (fun v => v == 0)).length ≤ l.length :=
      (List.rdropWhile_prefix _ l).length_le
    by_cases ha : a = 0
    · subst ha
      rw [List.rdropWhile_concat_pos _ _ _ (by simp)]
      rw [List.length_append, List.length_singleton]
      have : l.length + 1 - (l.rdropWhile (fun v => v == 0)).length =
          (l.length - (l.rdropWhile (fun v => v == 0)).length) + 1 := by omega
      rw [this, List.replicate_succ', ← List.append_assoc, ih]
    · rw [List.rdropWhile_concat_neg _ _ _ (by simpa using ha)]
      simp

/-- **C1, the defect.**  In `aliasCalls` the client holds page 0 from the first
`getResBufPage(0)` on (payload pointer 1) and never releases it.  Because the
reload left page 0 unused, `getResBufPage(1)` evicts it and returns the same
payload pointer 1 for page 1.  The bytes `4` that the client then writes to
page 0 through its pointer are not what the final `getResBufPage(0)` returns:
that payload holds the bytes `3` of the write before. -/
theorem held_page_is_evicted_and_write_lost :
    finalRets (session trimDeps 4 16 32 aliasCalls) =
      [.newPage 0 0, .done, .done, .newPage 1 1, .done, .done, .newPage 2 0,
       .page 1, .done, .page 1, .done, .page 1] ∧
    observe (session trimDeps 4 16 32 aliasCalls) (fun b => payloadAt b 1)
      = some (some (fill 3)) := by
  decide


/-! ## The theorems at concrete sessions -/

/-- C2 at a concrete session: after two released pages used up the budget, the
next `getNewDataBuf` evicts and does not fault at the flush assertion. -/
theorem evicted_page_is_unused_and_resident_witness :
    session trimDeps 4 16 32 twoReleasedCalls =
      .ok (finalBuf (session trimDeps 4 16 32 twoReleasedCalls),
           finalRets (session trimDeps 4 16 32 twoReleasedCalls)) ∧
    getNewDataBuf trimDeps Env.good (finalBuf (session trimDeps 4 16 32 twoReleasedCalls)) 0
      ≠ .error .assertFlushPage :=
  ⟨rfl, (evicted_page_is_unused_and_resident trimDeps 4 16 32 twoReleasedCalls
    (finalBuf (session trimDeps 4 16 32 twoReleasedCalls))
    (finalRets (session trimDeps 4 16 32 twoReleasedCalls)) rfl).2.2.1 Env.good 0⟩

/-- C3 at a concrete session with an eviction: two pages are resident under a
budget of two. -/
theorem resident_pages_within_budget_witness :
    (∀ c ∈ recycleCalls, c.fopenOk = true) ∧
    residentPages (finalBuf (session trimDeps 4 16 32 recycleCalls)) ≤
      (finalBuf (session trimDeps 4 16 32 recycleCalls)).inMemPages :=
  ⟨by decide, resident_pages_within_budget trimDeps 4 16 32 recycleCalls
    (finalBuf (session trimDeps 4 16 32 recycleCalls))
    (finalRets (session trimDeps 4 16 32 recycleCalls)) rfl (by decide)⟩

theorem twoPinnedBuf_reached :
    session trimDeps 4 16 32 twoPinnedCalls = .ok (twoPinnedBuf, [.newPage 0 0, .newPage 1 1]) :=
  rfl

/-- C5 at the groups 7, 7, 9, 9, 9, 7: the lists of the groups 7, 9 and 42. -/
theorem group_lists_in_creation_order_witness :
    pageIdsOf (finalBuf (session trimDeps 4 16 32 (newCalls groupRequests)))
      (getDataBufPagesIdList (finalBuf (session trimDeps 4 16 32 (newCalls groupRequests))) 7)
      = [some 0, some 1, some 5] ∧
    pageIdsOf (finalBuf (session trimDeps 4 16 32 (newCalls groupRequests)))
      (getDataBufPagesIdList (finalBuf (session trimDeps 4 16 32 (newCalls groupRequests))) 9)
      = [some 2, some 3, some 4] ∧
    pageIdsOf (finalBuf (session trimDeps 4 16 32 (newCalls groupRequests)))
      (getDataBufPagesIdList (finalBuf (session trimDeps 4 16 32 (newCalls groupRequests))) 42)
      = [] := by
  obtain ⟨b, rs, hs, hg⟩ := (group_lists_in_creation_order trimDeps 4 16 32 groupRequests).2
    (by decide) (by decide) (by decide) (by decide)
  have hb : finalBuf (session trimDeps 4 16 32 (newCalls groupRequests)) = b := by
    rw [hs]
    rfl
  rw [hb, hg 7, hg 9, hg 42]
  decide

/-- C6 at a concrete session with three `getNewDataBuf` calls among other calls. -/
theorem new_page_ids_count_from_zero_witness :
    (recycleCalls.filter Call.isNew).length ≤ 2147483648 ∧
    newPageIds (finalRets (session trimDeps 4 16 32 recycleCalls)) = [0, 1, 2] :=
  ⟨by decide, (new_page_ids_count_from_zero trimDeps 4 16 32 recycleCalls
    (finalBuf (session trimDeps 4 16 32 recycleCalls))
    (finalRets (session trimDeps 4 16 32 recycleCalls)) rfl (by decide)).1⟩

/-- C7 at a concrete call that takes over the slab of an evicted page: the
third `getNewDataBuf` after two released pages (`twoReleasedBuf`). -/
theorem new_page_is_resident_and_pinned_witness :
    getNewDataBuf trimDeps Env.good twoReleasedBuf 0 =
      .ok (finalBuf (runCalls trimDeps twoReleasedBuf [.newDataBuf Env.good 0]), 2, 0) ∧
    ∃ pi p,
      taosHashGet (finalBuf (runCalls trimDeps twoReleasedBuf [.newDataBuf Env.good 0])).all 2
        = some pi ∧
      (finalBuf (runCalls trimDeps twoReleasedBuf [.newDataBuf Env.good 0])).pages[pi]? = some p ∧
      p.pageId = 2 ∧ p.pData = some 0 ∧ p.used = true :=
  ⟨rfl, (new_page_is_resident_and_pinned trimDeps Env.good twoReleasedBuf
    (finalBuf (runCalls trimDeps twoReleasedBuf [.newDataBuf Env.good 0])) 0 2 0 rfl).1⟩

/-- C9 at a concrete call: the release of page 0 in `twoPinnedBuf`, where the
node of page 1 heads the LRU list. -/
theorem release_unpins_and_keeps_lru_witness :
    ∃ b', releaseResBufPage twoPinnedBuf 0 = .ok b' ∧
      b'.pages[0]? = some ⟨some 0, 0, ⟨-1, -1⟩, some 0, false⟩ ∧
      b'.lruList = [⟨1, 1⟩, ⟨0, 0⟩] :=
  release_unpins_and_keeps_lru twoPinnedBuf 0 0 ⟨some 0, fill 0⟩
    ⟨some 0, 0, ⟨-1, -1⟩, some 0, true⟩ rfl rfl rfl rfl (by decide)


/-! ## The growth of the budget -/

theorem groupsOf_length (cs : List Call) :
    (groupsOf cs).length = (cs.filter Call.isNew).length := by
  induction cs with
  | nil => rfl
  | cons c cs ih =>
    cases c <;> simp [groupsOf, Call.group?, Call.isNew, List.filter_cons, ih]

theorem session_tableInv {d : Deps} {rowSize pagesize inMemBufSize : Nat} {cs : List Call}
    {b : SDiskbasedResultBuf} {rs : List Ret}
    (h : session d rowSize pagesize inMemBufSize cs = .ok (b, rs)) :
    TableInv b (groupsOf cs) := by
  unfold session at h
  split at h
  · simp at h
  · rename_i b0 hb0
    simpa using runCalls_tableInv (create_tableInv hb0) h

theorem session_eldest_none {d : Deps} {rowSize pagesize inMemBufSize : Nat} {cs : List Call}
    {b : SDiskbasedResultBuf} {rs : List Ret}
    (h : session d rowSize pagesize inMemBufSize cs = .ok (b, rs))
    (hk : (cs.filter Call.isNew).length ≤ 2147483648)
    (hpin : ∀ (i : Nat) (p : SPageInfo), b.pages[i]? = some p → p.pData ≠ none →
      p.used = true) :
    getEldestUnrefedPage b = .ok none := by
  have hS : LruSound b := session_lruSound h
  obtain ⟨hlen, _, hid, _⟩ := session_tableInv h
  rw [groupsOf_length] at hlen
  unfold getEldestUnrefedPage
  apply eldestFrom_none_of
  intro n hn
  obtain ⟨p, hp, hpn, hpd⟩ := hS n (List.mem_reverse.1 hn)
  have hlt : n.data < b.pages.length := (List.getElem?_eq_some.1 hp).1
  refine ⟨p, hp, ?_, hpn, hpin n.data p hp hpd⟩
  rw [hid n.data p hp, wrapInt32_of_lt n.data (by omega)]
  exact Int.natCast_nonneg _

theorem evicOneDataPage_of_none {d : Deps} (env : Env) {b : SDiskbasedResultBuf}
    (hel : getEldestUnrefedPage b = .ok none) :
    evicOneDataPage d env b = .ok ({ b with inMemPages := b.inMemPages * 3 / 2 }, none) := by
  unfold evicOneDataPage
  rw [hel]

/-- **C11, as stated, fails.**  With a budget of three pages (`48 / 16`) and
three pinned pages the fourth `getNewDataBuf` finds nothing to evict and makes
the budget 4, not 5: `inMemPages * 1.5` is cut off to an integer. -/
theorem budget_three_grows_to_four :
    observe (session trimDeps 4 16 48 fourPinnedCalls)
      (fun b => (b.inMemPages, b.statis.flushPages, residentPages b)) = some (4, 0, 4) := by
  decide

/-- **C11, amended.**  When in a buffer with at most 2^31 pages every
memory-resident page is pinned, an eviction attempt returns `NULL` and makes
`inMemPages` the floor of 1.5 times its old value (`n * 3 / 2`, the integer
`r` with `2 r ≤ 3 n < 2 r + 2`); a `getNewDataBuf` that has to make the attempt
(`NO_AVAILABLE_PAGES`) leaves the budget at that value. -/
theorem budget_grows_to_floor (d : Deps) (rowSize pagesize inMemBufSize : Nat)
    (cs : List Call) (b : SDiskbasedResultBuf) (rs : List Ret)
    (h : session d rowSize pagesize inMemBufSize cs = .ok (b, rs))
    (hk : (cs.filter Call.isNew).length ≤ 2147483648)
    (hpin : ∀ p ∈ b.pages, p.pData ≠ none → p.used = true) (env : Env) :
    evicOneDataPage d env b = .ok ({ b with inMemPages := b.inMemPages * 3 / 2 }, none) ∧
    2 * (b.inMemPages * 3 / 2) ≤ 3 * b.inMemPages ∧
    3 * b.inMemPages < 2 * (b.inMemPages * 3 / 2) + 2 ∧
    (∀ groupId b' pageId page, NO_AVAILABLE_PAGES b = true →
      getNewDataBuf d env b groupId = .ok (b', pageId, page) →
      b'.inMemPages = b.inMemPages * 3 / 2) := by
  have hel := session_eldest_none h hk
    (fun i p hp => hpin p (List.mem_iff_getElem?.2 ⟨i, hp⟩))
  refine ⟨evicOneDataPage_of_none env hel, by omega, by omega, ?_⟩
  intro groupId b' pageId page hfull hn
  obtain ⟨b1, avail, hacq, _, _, _, hM, _⟩ := getNewDataBuf_ok hn
  rw [hM]
  rcases hacq with ⟨hlt, _, _⟩ | ⟨_, hev⟩
  · simp only [NO_AVAILABLE_PAGES, decide_eq_true_eq] at hfull
    omega
  · have hev2 : evicOneDataPage d env (counted b) =
        .ok ({ counted b with inMemPages := (counted b).inMemPages * 3 / 2 }, none) :=
      evicOneDataPage_of_none env hel
    rw [hev2] at hev
    simp only [Except.ok.injEq, Prod.mk.injEq] at hev
    rw [← hev.1]
    rfl

/-! ## Release of a page that is not pinned -/

/-- **C17.**  `releaseResBufPageInfo` on a page with `used == false` fails at
its assertion, and so does `releaseResBufPage` on the payload pointer of such a
page.  In particular a second release right after a successful one fails, by
page or by payload pointer. -/
theorem release_of_unpinned_page_is_rejected (b : SDiskbasedResultBuf) (pi : Nat) :
    (∀ p, b.pages[pi]? = some p → p.used = false →
      releaseResBufPageInfo b pi = .error .assertRelease ∧
      ∀ page slab, b.mem[page]? = some slab → slab.owner = some pi →
        releaseResBufPage b page = .error .assertRelease) ∧
    (∀ b', releaseResBufPageInfo b pi = .ok b' →
      releaseResBufPageInfo b' pi = .error .assertRelease) ∧
    (∀ page b', releaseResBufPage b page = .ok b' →
      releaseResBufPage b' page = .error .assertRelease) := by
  have key : ∀ (b0 : SDiskbasedResultBuf) (k : Nat) (p : SPageInfo),
      b0.pages[k]? = some p → p.used = false →
      releaseResBufPageInfo b0 k = .error .assertRelease := by
    intro b0 k p hp hu
    unfold releaseResBufPageInfo
    rw [hp]
    simp [hu]
  refine ⟨?_, ?_, ?_⟩
  · intro p hp hu
    refine ⟨key b pi p hp hu, ?_⟩
    intro page slab hslab howner
    unfold releaseResBufPage
    rw [hslab]
    simp only [howner]
    exact key b pi p hp hu
  · intro b' h
    obtain ⟨p, hp, _, _, hb⟩ := releaseResBufPageInfo_ok h
    subst hb
    have hlt : pi < b.pages.length := (List.getElem?_eq_some.1 hp).1
    exact key _ pi { p with used := false } (getElem?_set_at _ _ _ hlt) rfl
  · intro page b' h
    obtain ⟨slab, k, p, hslab, howner, hp, _, _, hb⟩ := releaseResBufPage_ok h
    subst hb
    have hlt : k < b.pages.length := (List.getElem?_eq_some.1 hp).1
    unfold releaseResBufPage
    simp only [hslab, howner]
    exact key _ k { p with used := false } (getElem?_set_at _ _ _ hlt) rfl

/-! ## An eviction attempt whose flush fails -/

theorem evicOneDataPage_flush_failed {d : Deps} {env : Env} {b b' : SDiskbasedResultBuf}
    {n : SListNode} (h : evicOneDataPage d env b = .ok (b', none))
    (hel : getEldestUnrefedPage b = .ok (some n)) :
    ∃ p, b.pages[n.data]? = some p ∧ p.used = false ∧ env.fopenOk = false ∧
      b' = { b with
             statis := { b.statis with flushPages := b.statis.flushPages + 1 }
             lruList := tdListPopNode b.lruList n.id
             pages := b.pages.set n.data { p with pn := none } } := by
  obtain ⟨_, p0, hp0, hu0, _, _⟩ := getEldestUnrefedPage_some hel
  unfold evicOneDataPage at h
  rw [hel] at h
  simp only [hp0] at h
  split at h
  · simp at h
  · obtain ⟨_, hfl⟩ := flushPageToDisk_ok h
    rcases hfl with ⟨_, hb, hfo⟩ | ⟨s, _, _, hr, _⟩
    · exact ⟨p0, hp0, hu0, hfo, hb⟩
    · simp at hr

/-- **C19, as stated, fails.**  In `fopenFailureCalls` the eviction attempt of
the last call picks page 0 and cannot create the scratch file.  Page 0 keeps its
slab, but its `used` flag is `false` as before: it is not marked pinned. -/
theorem victim_of_failed_flush_is_not_pinned :
    observe (session trimDeps 4 16 32 beforeFopenFailureCalls)
      (fun b => (pageOfId b 0).map (fun p => (p.pData, p.used)))
      = some (some (some 0, false)) ∧
    observe (session trimDeps 4 16 32 fopenFailureCalls)
      (fun b => ((pageOfId b 0).map (fun p => (p.pData, p.used)), b.file))
      = some (some (some 0, false), none) := by
  decide

/-- **C19, amended.**  If in a reachable buffer the flush inside
`evicOneDataPage` fails (the function returns `NULL` although it picked a victim:
the scratch file cannot be created), the victim is afterwards still
memory-resident, with the slab it had, and still unpinned (`used == false`). -/
theorem victim_of_failed_flush_stays_resident_unpinned (d : Deps)
    (rowSize pagesize inMemBufSize : Nat) (cs : List Call) (b : SDiskbasedResultBuf)
    (rs : List Ret) (h : session d rowSize pagesize inMemBufSize cs = .ok (b, rs))
    (env : Env) (b' : SDiskbasedResultBuf) (n : SListNode)
    (hev : evicOneDataPage d env b = .ok (b', none))
    (hel : getEldestUnrefedPage b = .ok (some n)) :
    env.fopenOk = false ∧
    ∃ p q, b.pages[n.data]? = some p ∧ b'.pages[n.data]? = some q ∧
      p.used = false ∧ q.used = false ∧ q.pData = p.pData ∧ q.pData ≠ none := by
  obtain ⟨p, hp, hu, hfo, hb⟩ := evicOneDataPage_flush_failed hev hel
  obtain ⟨hn, _⟩ := getEldestUnrefedPage_some hel
  obtain ⟨p1, hp1, _, hpd⟩ := session_lruSound h n hn
  have he : p1 = p := by rw [hp1] at hp; exact Option.some.inj hp
  subst he
  have hlt : n.data < b.pages.length := (List.getElem?_eq_some.1 hp).1
  subst hb
  exact ⟨hfo, p1, { p1 with pn := none }, hp, getElem?_set_at _ _ _ hlt, hu, hu, rfl, hpd⟩

/-- **C20, the defect.**  Before the last call of `fopenFailureCalls` page 0 has
the LRU node 0 and `statis.flushPages` is 0.  After the call, whose flush failed,
page 0 has `pn == NULL`, no node of the LRU list refers to it, and
`statis.flushPages` is 1; only `statis.flushBytes` is as before. -/
theorem failed_flush_unlinks_victim :
    observe (session trimDeps 4 16 32 beforeFopenFailureCalls)
      (fun b => ((pageOfId b 0).map SPageInfo.pn, b.lruList, b.statis.flushPages,
        b.statis.flushBytes))
      = some (some (some 0), [⟨1, 1⟩, ⟨0, 0⟩], 0, 0) ∧
    observe (session trimDeps 4 16 32 fopenFailureCalls)
      (fun b => ((pageOfId b 0).map SPageInfo.pn, b.lruList, b.statis.flushPages,
        b.statis.flushBytes))
      = some (some none, [⟨2, 2⟩, ⟨1, 1⟩], 1, 0) := by
  decide

/-- Every eviction attempt whose flush fails has counted the flush and removed
the node of the victim, and has cleared the victim's `pn`. -/
theorem failed_flush_changes (d : Deps) (env : Env) (b b' : SDiskbasedResultBuf)
    (n : SListNode) (hev : evicOneDataPage d env b = .ok (b', none))
    (hel : getEldestUnrefedPage b = .ok (some n)) :
    b'.statis.flushPages = b.statis.flushPages + 1 ∧
    b'.statis.flushBytes = b.statis.flushBytes ∧
    n ∈ b.lruList ∧ n ∉ b'.lruList ∧
    (b'.pages[n.data]?).map SPageInfo.pn = some none := by
  obtain ⟨p, hp, _, _, hb⟩ := evicOneDataPage_flush_failed hev hel
  obtain ⟨hn, _⟩ := getEldestUnrefedPage_some hel
  have hlt : n.data < b.pages.length := (List.getElem?_eq_some.1 hp).1
  subst hb
  refine ⟨rfl, rfl, hn, ?_, ?_⟩
  · intro hm
    exact (mem_tdListPopNode hm).2 rfl
  · simp only [getElem?_set_at _ _ _ hlt]
    rfl


/-! ## Known and unknown page ids -/

theorem taosHashGet_put_ne_none {α : Type} (h : List (Int × α)) (k k₂ : Int) (v : α) :
    taosHashGet (taosHashPut h k v) k₂ ≠ none ↔ k₂ = k ∨ taosHashGet h k₂ ≠ none := by
  by_cases hk : k = k₂
  · subst hk
    simp [taosHashGet_put_same]
  · rw [taosHashGet_put_other _ _ _ _ hk]
    constructor
    · intro hh
      exact Or.inr hh
    · rintro (hh | hh)
      · exact absurd hh.symm hk
      · exact hh

theorem exec_allStep {d : Deps} {b b' : SDiskbasedResultBuf} {c : Call} {r : Ret}
    (h : exec d b c = .ok (b', r)) : AllStep b b' r := by
  cases c with
  | newDataBuf env groupId =>
    simp only [exec] at h
    split at h
    · simp at h
    · rename_i b2 pageId page hn
      simp only [Except.ok.injEq, Prod.mk.injEq] at h
      obtain ⟨hb, hr⟩ := h
      subst hb hr
      obtain ⟨b1, avail, hacq, _, _, _, _, _, _, _, hall, _⟩ := getNewDataBuf_ok hn
      obtain ⟨_, _, _, _, _, t6, _⟩ := acquired_sameTables hacq
      exact ⟨b1.pages.length, by rw [hall, t6]⟩
  | resBufPage env id =>
    simp only [exec] at h
    split at h
    · simp at h
    · rename_i b2 page hn
      simp only [Except.ok.injEq, Prod.mk.injEq] at h
      obtain ⟨hb, hr⟩ := h
      subst hb hr
      obtain ⟨pi, p, _, _, _, hcase⟩ := getResBufPage_ok hn
      rcases hcase with ⟨_, _, _, hsame, _⟩ |
        ⟨_, _, b1, avail, hacq, _, _, _, _, _, _, hall, _⟩
      · exact hsame.2.2.2.2.2.1
      · obtain ⟨_, _, _, _, _, t6, _⟩ := acquired_sameTables hacq
        show b2.all = b.all
        rw [hall, t6]
  | release page =>
    simp only [exec] at h
    split at h
    · simp at h
    · rename_i b2 hn
      simp only [Except.ok.injEq, Prod.mk.injEq] at h
      obtain ⟨hb, hr⟩ := h
      subst hb hr
      obtain ⟨slab, pi, p, _, _, _, _, _, hb⟩ := releaseResBufPage_ok hn
      subst hb
      exact rfl
  | store page bytes =>
    simp only [exec] at h
    split at h
    · simp at h
    · rename_i b2 hn
      simp only [Except.ok.injEq, Prod.mk.injEq] at h
      obtain ⟨hb, hr⟩ := h
      subst hb hr
      obtain ⟨slab, _, hb⟩ := storePayload_ok hn
      subst hb
      exact rfl

theorem runCalls_knownIds {d : Deps} {cs : List Call} {b b' : SDiskbasedResultBuf}
    {rs : List Ret} {ids : List Int} (hK : KnownIds b ids)
    (h : runCalls d b cs = .ok (b', rs)) : KnownIds b' (ids ++ newPageIds rs) := by
  induction cs generalizing b rs ids with
  | nil =>
    simp only [runCalls, Except.ok.injEq, Prod.mk.injEq] at h
    obtain ⟨hb, hr⟩ := h
    subst hb hr
    simpa [newPageIds] using hK
  | cons c cs ih =>
    simp only [runCalls] at h
    split at h
    · simp at h
    · rename_i b1 r hc
      split at h
      · simp at h
      · rename_i b2 rs2 hr
        simp only [Except.ok.injEq, Prod.mk.injEq] at h
        obtain ⟨hb, hrs⟩ := h
        subst hb hrs
        have hstep := exec_allStep hc
        cases r with
        | newPage pageId page =>
          obtain ⟨pi, hall⟩ := hstep
          have hK1 : KnownIds b1 (ids ++ [pageId]) := by
            intro id
            rw [hall, taosHashGet_put_ne_none, hK id]
            simp only [List.mem_append, List.mem_singleton]
            tauto
          have := ih hK1 hr
          simpa [newPageIds] using this
        | page page =>
          have hK1 : KnownIds b1 ids := by
            intro id
            rw [show b1.all = b.all from hstep]
            exact hK id
          simpa [newPageIds] using ih hK1 hr
        | done =>
          have hK1 : KnownIds b1 ids := by
            intro id
            rw [show b1.all = b.all from hstep]
            exact hK id
          simpa [newPageIds] using ih hK1 hr

theorem session_knownIds {d : Deps} {rowSize pagesize inMemBufSize : Nat} {cs : List Call}
    {b : SDiskbasedResultBuf} {rs : List Ret}
    (h : session d rowSize pagesize inMemBufSize cs = .ok (b, rs)) :
    KnownIds b (newPageIds rs) := by
  unfold session at h
  split at h
  · simp at h
  · rename_i b0 hb0
    obtain ⟨_, _, _, _, _, _, _, _, hall, _⟩ := createDiskbasedResultBuffer_ok hb0
    have h0 : KnownIds b0 [] := by
      intro id
      rw [hall]
      simp [taosHashGet]
    simpa using runCalls_knownIds h0 h

theorem evicOneDataPage_fault {d : Deps} {env : Env} {b : SDiskbasedResultBuf} {e : Fault}
    (h : evicOneDataPage d env b = .error e) :
    e = .badPointer ∨ e = .assertEldest ∨ e = .assertEvictNode ∨ e = .assertFlushBudget ∨
      e = .assertFlushPage ∨ e = .bufferOverrun := by
  unfold evicOneDataPage at h
  split at h
  · rename_i e2 hel
    simp only [Except.error.injEq] at h
    subst h
    rcases eldestFrom_fault hel with h1 | h1
    · exact Or.inl h1
    · exact Or.inr (Or.inl h1)
  · simp at h
  · split at h
    · simp only [Except.error.injEq] at h
      exact Or.inl h.symm
    · split at h
      · simp only [Except.error.injEq] at h
        exact Or.inr (Or.inr (Or.inl h.symm))
      · unfold flushPageToDisk at h
        split at h
        · simp only [Except.error.injEq] at h
          exact Or.inr (Or.inr (Or.inr (Or.inl h.symm)))
        · have key : ∀ (b0 : SDiskbasedResultBuf) (pg : Nat) (e0 : Fault),
              doFlushPageToDisk d b0 pg = .error e0 →
              e0 = .badPointer ∨ e0 = .assertFlushPage ∨ e0 = .bufferOverrun := by
            intro b0 pg e0 hf
            unfold doFlushPageToDisk at hf
            split at hf
            · simp only [Except.error.injEq] at hf
              exact Or.inl hf.symm
            · split at hf
              · simp only [Except.error.injEq] at hf
                exact Or.inr (Or.inl hf.symm)
              · simp only [Except.error.injEq] at hf
                exact Or.inr (Or.inl hf.symm)
              · split at hf
                · simp only [Except.error.injEq] at hf
                  exact Or.inl hf.symm
                · simp only [Except.error.injEq] at hf
                  exact Or.inl hf.symm
                · split at hf
                  · rename_i e3 hc
                    simp only [Except.error.injEq] at hf
                    subst hf
                    exact Or.inr (Or.inr (doCompressData_fault hc))
                  · simp at hf
          have fin : ∀ e0 : Fault,
              (e0 = .badPointer ∨ e0 = .assertFlushPage ∨ e0 = .bufferOverrun) →
              e0 = .badPointer ∨ e0 = .assertEldest ∨ e0 = .assertEvictNode ∨
                e0 = .assertFlushBudget ∨ e0 = .assertFlushPage ∨ e0 = .bufferOverrun := by
            intro e0 h0
            rcases h0 with h0 | h0 | h0
            · exact Or.inl h0
            · exact Or.inr (Or.inr (Or.inr (Or.inr (Or.inl h0))))
            · exact Or.inr (Or.inr (Or.inr (Or.inr (Or.inr h0))))
          split at h
          · split at h
            · split at h
              · rename_i e2 hfl
                simp only [Except.error.injEq] at h
                subst h
                exact fin _ (key _ _ _ hfl)
              · simp at h
            · simp at h
          · split at h
            · rename_i e2 hfl
              simp only [Except.error.injEq] at h
              subst h
              exact fin _ (key _ _ _ hfl)
            · simp at h

theorem doFlushPageToDisk_full {d : Deps} {b b' : SDiskbasedResultBuf} {pg s : Nat}
    (h : doFlushPageToDisk d b pg = .ok (b', s)) :
    ∃ (p : SPageInfo) (slab : Slab) (f : List Nat) (size : Nat) (t : List Nat) (offset : Int),
      b.pages[pg]? = some p ∧ p.used = false ∧ p.pData = some s ∧ b.mem[s]? = some slab ∧
      b.file = some f ∧ doCompressData d b.comp slab.payload b.pageSize = .ok (size, t) ∧
      b'.statis = { b.statis with flushBytes := b.statis.flushBytes + size } ∧
      b'.comp = b.comp ∧
      b'.file = some (fileWrite f offset.toNat (t.take size)) ∧
      b'.pages = b.pages.set pg { p with info := ⟨offset, size⟩, pData := none } ∧
      b'.mem = b.mem.set s (memsetSlab d b.pageSize ⟨slab.owner, t⟩) ∧
      b'.lruList = b.lruList ∧ b'.pageSize = b.pageSize ∧
      (p.info.offset ≠ -1 → (size : Int) ≤ p.info.length →
        offset = p.info.offset ∧ b'.nextPos = b.nextPos ∧ b'.pFree = b.pFree) ∧
      (p.info.offset = -1 ∨ p.info.length < (size : Int) →
        b'.nextPos = b.nextPos + size ∧ (b.pFree = none → offset = b.nextPos)) ∧
      (b.pFree = none → b'.pFree = none) := by
  unfold doFlushPageToDisk at h
  split at h
  · simp at h
  · rename_i p hp
    split at h
    · simp at h
    · simp at h
    · rename_i s' hu hd
      split at h
      · simp at h
      · simp at h
      · rename_i slab f hm hf
        split at h
        · simp at h
        · rename_i size t hc
          simp only [Except.ok.injEq, Prod.mk.injEq] at h
          obtain ⟨hb, hs⟩ := h
          subst hb hs
          refine ⟨p, slab, f, size, t, _, hp, hu, hd, hm, hf, hc, rfl, rfl, rfl, rfl, rfl, rfl,
            rfl, ?_, ?_, ?_⟩
          · intro h1 h2
            have h3 : ¬ p.info.length < (size : Int) := by omega
            simp [h1, h3]
          · intro h1
            have h3 : (decide (p.info.offset = -1) || decide (p.info.length < (size : Int)))
                = true := by
              rcases h1 with h1 | h1 <;> simp [h1]
            refine ⟨by simp [h3], ?_⟩
            intro hfree
            simp [h3, allocatePositionInFile, hfree, taosArrayPushFree]
          · intro hfree
            simp only [hfree, taosArrayPushFree, allocatePositionInFile]
            simp


theorem with_file_self (b : SDiskbasedResultBuf) (f : List Nat) (hf : b.file = some f) :
    { b with file := some f } = b := by
  cases b
  simp only at hf
  subst hf
  rfl

theorem flushPageToDisk_full {d : Deps} {env : Env} {b b' : SDiskbasedResultBuf} {pg s : Nat}
    (h : flushPageToDisk d env b pg = .ok (b', some s)) :
    b.numOfPages * b.pageSize = b.totalBufSize ∧ b.inMemPages ≤ b.numOfPages ∧
    ∃ f0, (b.file = some f0 ∨ (b.file = none ∧ env.fopenOk = true ∧ f0 = [])) ∧
      doFlushPageToDisk d { b with file := some f0 } pg = .ok (b', s) := by
  unfold flushPageToDisk at h
  split at h
  · simp at h
  · rename_i hbud
    simp only [not_not] at hbud
    refine ⟨hbud.1, hbud.2, ?_⟩
    split at h
    · rename_i hnone
      split at h
      · rename_i hfo
        split at h
        · simp at h
        · rename_i b2 s2 hfl
          simp only [Except.ok.injEq, Prod.mk.injEq, Option.some.injEq] at h
          obtain ⟨hb, hr⟩ := h
          subst hb hr
          exact ⟨[], Or.inr ⟨hnone, hfo, rfl⟩, hfl⟩
      · simp at h
    · rename_i f hsome
      split at h
      · simp at h
      · rename_i b2 s2 hfl
        simp only [Except.ok.injEq, Prod.mk.injEq, Option.some.injEq] at h
        obtain ⟨hb, hr⟩ := h
        subst hb hr
        refine ⟨f, Or.inl hsome, ?_⟩
        rw [with_file_self b f hsome]
        exact hfl

/-- An eviction that hands back a slab: what it did to the buffer. -/
theorem evicOneDataPage_flushed {d : Deps} {env : Env} {b b' : SDiskbasedResultBuf} {s : Nat}
    (h : evicOneDataPage d env b = .ok (b', some s)) :
    ∃ (n : SListNode) (p : SPageInfo) (slab : Slab) (f0 : List Nat) (size : Nat)
      (t : List Nat) (offset : Int),
      getEldestUnrefedPage b = .ok (some n) ∧ b.pages[n.data]? = some p ∧ p.used = false ∧
      p.pn = some n.id ∧ p.pData = some s ∧ b.mem[s]? = some slab ∧
      (b.file = some f0 ∨ (b.file = none ∧ env.fopenOk = true ∧ f0 = [])) ∧
      doCompressData d b.comp slab.payload b.pageSize = .ok (size, t) ∧
      b'.statis = { b.statis with flushPages := b.statis.flushPages + 1
                                  flushBytes := b.statis.flushBytes + size } ∧
      b'.comp = b.comp ∧
      b'.file = some (fileWrite f0 offset.toNat (t.take size)) ∧
      b'.pages = b.pages.set n.data { p with pn := none, info := ⟨offset, size⟩, pData := none } ∧
      b'.mem = b.mem.set s (memsetSlab d b.pageSize ⟨slab.owner, t⟩) ∧
      b'.lruList = tdListPopNode b.lruList n.id ∧ b'.pageSize = b.pageSize ∧
      (p.info.offset ≠ -1 → (size : Int) ≤ p.info.length →
        offset = p.info.offset ∧ b'.nextPos = b.nextPos ∧ b'.pFree = b.pFree) ∧
      (p.info.offset = -1 ∨ p.info.length < (size : Int) →
        b'.nextPos = b.nextPos + size ∧ (b.pFree = none → offset = b.nextPos)) ∧
      (b.pFree = none → b'.pFree = none) := by
  unfold evicOneDataPage at h
  split at h
  · simp at h
  · simp at h
  · rename_i n hel
    obtain ⟨_, p0, hp0, hu0, hpn0, _⟩ := getEldestUnrefedPage_some hel
    simp only [hp0] at h
    split at h
    · simp at h
    · obtain ⟨_, _, f0, hf0, hfl⟩ := flushPageToDisk_full h
      obtain ⟨p, slab, f, size, t, offset, hp, hu, hd, hm, hf, hc, h1, h2, h3, h4, h5, h6, h7,
        h8, h9, h10⟩ := doFlushPageToDisk_full hfl
      have hlt : n.data < b.pages.length := (List.getElem?_eq_some.1 hp0).1
      simp only [getElem?_set_at _ _ _ hlt, Option.some.injEq] at hp
      subst hp
      simp only [Option.some.injEq] at hf
      subst hf
      refine ⟨n, p0, slab, f0, size, t, offset, hel, hp0, hu0, hpn0, hd, hm, hf0, hc, h1, h2, h3,
        ?_, h5, h6, h7, h8, h9, h10⟩
      simpa [List.set_set] using h4


/-! ## The slab search in detail -/

theorem acquired_unique {d : Deps} {env : Env} {b b1 b2 : SDiskbasedResultBuf}
    {a1 a2 : Option Nat} (h1 : Acquired d env b b1 a1) (h2 : Acquired d env b b2 a2) :
    b1 = b2 ∧ a1 = a2 := by
  rcases h1 with ⟨hlt, hb1, ha1⟩ | ⟨hle, hev1⟩
  · rcases h2 with ⟨_, hb2, ha2⟩ | ⟨hle, _⟩
    · exact ⟨hb1.trans hb2.symm, ha1.trans ha2.symm⟩
    · omega
  · rcases h2 with ⟨hlt, _, _⟩ | ⟨_, hev2⟩
    · omega
    · rw [hev1] at hev2
      simp only [Except.ok.injEq, Prod.mk.injEq] at hev2
      exact hev2

/-- The slab search leaves the codec flag, the page size and the counters of
loads, fetches and releases alone; it cannot create a free list. -/
theorem acquired_frame {d : Deps} {env : Env} {b b1 : SDiskbasedResultBuf}
    {avail : Option Nat} (h : Acquired d env b b1 avail) :
    b1.comp = b.comp ∧ b1.pageSize = b.pageSize ∧
    b1.statis.loadBytes = b.statis.loadBytes ∧
    b1.statis.getPages = b.statis.getPages + 1 ∧
    b1.statis.releasePages = b.statis.releasePages ∧
    (b.pFree = none → b1.pFree = none) := by
  rcases h with ⟨_, hb, _⟩ | ⟨_, hev⟩
  · subst hb
    exact ⟨rfl, rfl, rfl, rfl, rfl, fun h => h⟩
  · cases avail with
    | some s =>
      obtain ⟨n, p, slab, f0, size, t, offset, _, _, _, _, _, _, _, _, hst, hcomp, _, _, _, _,
        hps, _, _, hfree⟩ := evicOneDataPage_flushed hev
      rw [hst]
      exact ⟨hcomp, hps, rfl, rfl, rfl, hfree⟩
    | none =>
      rcases evicOneDataPage_ok hev with ⟨_, _, hb⟩ | ⟨n, _, _, hel, _⟩
      · subst hb
        exact ⟨rfl, rfl, rfl, rfl, rfl, fun h => h⟩
      · obtain ⟨p, _, _, _, hb⟩ := evicOneDataPage_flush_failed hev hel
        subst hb
        exact ⟨rfl, rfl, rfl, rfl, rfl, fun h => h⟩

/-- A slab search that evicts nothing leaves the file and the flush counters alone. -/
theorem acquired_no_evict {d : Deps} {env : Env} {b b1 : SDiskbasedResultBuf}
    {avail : Option Nat} (h : Acquired d env b b1 avail) (hroom : b.numOfPages < b.inMemPages) :
    b1 = counted b ∧ avail = none := by
  rcases h with ⟨_, hb, ha⟩ | ⟨hle, _⟩
  · exact ⟨hb, ha⟩
  · omega

/-- The fields of the result of `getNewDataBuf` that `getNewDataBuf_ok` does not list. -/
theorem getNewDataBuf_rest {d : Deps} {env : Env} {b b' : SDiskbasedResultBuf}
    {groupId pageId : Int} {page : Nat}
    (h : getNewDataBuf d env b groupId = .ok (b', pageId, page)) :
    ∃ b1 avail, Acquired d env b b1 avail ∧
      b'.statis = b1.statis ∧ b'.comp = b1.comp ∧ b'.file = b1.file ∧
      b'.nextPos = b1.nextPos ∧ b'.pFree = b1.pFree ∧ b'.fileSize = b1.fileSize ∧
      b'.pageSize = b1.pageSize ∧ b'.totalBufSize = b1.totalBufSize + b1.pageSize ∧
      b'.mem = (match avail with
        | none => b1.mem ++ [⟨some b1.pages.length, List.replicate b1.pageSize 0⟩]
        | some s => b1.mem.modify (fun slab => { slab with owner := some b1.pages.length }) s) := by
  unfold getNewDataBuf at h
  simp only at h
  split at h
  · simp at h
  · rename_i b1 avail hev
    split at h
    · simp at h
    · simp only [Except.ok.injEq, Prod.mk.injEq] at h
      obtain ⟨hb, _, _⟩ := h
      subst hb
      refine ⟨b1, avail, acquired_of_eq hev, ?_, ?_, ?_, ?_, ?_, ?_, ?_, ?_, ?_⟩ <;>
        cases avail <;> simp [attachSlab, lruListPushFront, registerPage]

/-- A `getResBufPage` of a memory-resident page changes the `used` flag of the
page, the LRU order and `statis.getPages`, nothing else. -/
theorem getResBufPage_resident {d : Deps} {env : Env} {b b' : SDiskbasedResultBuf} {id : Int}
    {page pi s : Nat} {p : SPageInfo} (h : getResBufPage d env b id = .ok (b', page))
    (hpi : taosHashGet b.all id = some pi) (hp : b.pages[pi]? = some p)
    (hs : p.pData = some s) :
    page = s ∧
    b' = { counted b with
           lruList := b'.lruList
           pages := b.pages.set pi { p with used := true } } := by
  unfold getResBufPage at h
  split at h
  · simp at h
  · simp only at h
    have hpi2 : taosHashGet { b with statis := { b.statis with
        getPages := b.statis.getPages + 1 } }.all id = some pi := hpi
    rw [hpi2] at h
    simp only at h
    have hp2 : ({ b with statis := { b.statis with
        getPages := b.statis.getPages + 1 } } : SDiskbasedResultBuf).pages[pi]? = some p := hp
    rw [hp2] at h
    simp only [hs] at h
    split at h
    · simp only [Except.ok.injEq, Prod.mk.injEq] at h
      obtain ⟨hb, hpg⟩ := h
      subst hb
      refine ⟨hpg.symm, ?_⟩
      simp only [counted, hs]
    · split at h
      · simp at h
      · split at h
        · simp at h
        · split at h
          · simp at h
          · simp only [Except.ok.injEq, Prod.mk.injEq] at h
            obtain ⟨hb, hpg⟩ := h
            subst hb
            refine ⟨hpg.symm, ?_⟩
            simp only [counted, hs]

/-- What `loadPageFromDisk` does: a short read changes the payload only, a full
read is counted in `statis.loadBytes` and decoded. -/
theorem loadPageFromDisk_full {d : Deps} {env : Env} {b b' : SDiskbasedResultBuf} {pg : Nat}
    {r : Bool} (h : loadPageFromDisk d env b pg = .ok (b', r)) :
    ∃ (p : SPageInfo) (s : Nat) (f : List Nat) (slab : Slab),
      b.pages[pg]? = some p ∧ p.pData = some s ∧ b.file = some f ∧ b.mem[s]? = some slab ∧
      b'.file = b.file ∧ b'.comp = b.comp ∧ b'.pFree = b.pFree ∧ b'.nextPos = b.nextPos ∧
      b'.statis.flushPages = b.statis.flushPages ∧
      b'.statis.flushBytes = b.statis.flushBytes ∧
      b'.statis.getPages = b.statis.getPages ∧
      ((r = false ∧ ((freadBytes env f p.info).length : Int) ≠ p.info.length ∧
          b'.statis.loadBytes = b.statis.loadBytes ∧
          b'.mem = b.mem.set s ⟨slab.owner, freadBytes env f p.info ++
            slab.payload.drop (freadBytes env f p.info).length⟩) ∨
       (r = true ∧ ((freadBytes env f p.info).length : Int) = p.info.length ∧
          b'.statis.loadBytes = b.statis.loadBytes + (freadBytes env f p.info).length ∧
          ∃ n t, doDecompressData d b.comp b.pageSize
              (freadBytes env f p.info ++ slab.payload.drop (freadBytes env f p.info).length)
              (freadBytes env f p.info).length = .ok (n, t) ∧
            b'.mem = b.mem.set s ⟨slab.owner, t⟩)) := by
  unfold loadPageFromDisk at h
  split at h
  · simp at h
  · rename_i p hp
    split at h
    · simp at h
    · simp at h
    · rename_i s f hd hf
      split at h
      · simp at h
      · rename_i slab hm
        simp only at h
        refine ⟨p, s, f, slab, hp, hd, hf, hm, ?_⟩
        unfold freadBytes
        cases hfm : env.freadMax <;> simp only [hfm] at h ⊢
        all_goals
          split at h
          · rename_i hshort
            simp only [Except.ok.injEq, Prod.mk.injEq] at h
            obtain ⟨hb, hr⟩ := h
            subst hb hr
            exact ⟨rfl, rfl, rfl, rfl, rfl, rfl, rfl, Or.inl ⟨rfl, hshort, rfl, rfl⟩⟩
          · rename_i hfull
            simp only [ne_eq, not_not] at hfull
            split at h
            · simp at h
            · rename_i n t hdec
              simp only [Except.ok.injEq, Prod.mk.injEq] at h
              obtain ⟨hb, hr⟩ := h
              subst hb hr
              exact ⟨rfl, rfl, rfl, rfl, rfl, rfl, rfl,
                Or.inr ⟨rfl, hfull, rfl, n, t, hdec, rfl⟩⟩

/-- A `getResBufPage` of a page that is not memory-resident: slab search, then
the slab is attached, the page pushed on the LRU list and `loadPageFromDisk` run. -/
theorem getResBufPage_reload {d : Deps} {env : Env} {b b' : SDiskbasedResultBuf} {id : Int}
    {page pi : Nat} {p : SPageInfo} (h : getResBufPage d env b id = .ok (b', page))
    (hpi : taosHashGet b.all id = some pi) (hp : b.pages[pi]? = some p)
    (hs : p.pData = none) :
    ∃ b1 avail r, Acquired d env b b1 avail ∧
      loadPageFromDisk d env (lruListPushFront (attachSlab b1 pi avail).1 pi) pi = .ok (b', r) ∧
      page = (attachSlab b1 pi avail).2 := by
  unfold getResBufPage at h
  split at h
  · simp at h
  · simp only at h
    have hpi2 : taosHashGet { b with statis := { b.statis with
        getPages := b.statis.getPages + 1 } }.all id = some pi := hpi
    rw [hpi2] at h
    simp only at h
    have hp2 : ({ b with statis := { b.statis with
        getPages := b.statis.getPages + 1 } } : SDiskbasedResultBuf).pages[pi]? = some p := hp
    rw [hp2] at h
    simp only [hs] at h
    split at h
    · simp at h
    · split at h
      · simp at h
      · rename_i b1 avail hev
        split at h
        · simp at h
        · rename_i b2 r hload
          simp only [Except.ok.injEq, Prod.mk.injEq] at h
          obtain ⟨hb, hpg⟩ := h
          subst hb
          exact ⟨b1, avail, r, acquired_of_eq hev, hload, hpg.symm⟩


/-! ## Page ids that `getResBufPage` accepts -/

theorem session_newPageIds {d : Deps} {rowSize pagesize inMemBufSize : Nat} {cs : List Call}
    {b : SDiskbasedResultBuf} {rs : List Ret}
    (h : session d rowSize pagesize inMemBufSize cs = .ok (b, rs))
    (hk : (cs.filter Call.isNew).length ≤ 2147483648) :
    newPageIds rs = (List.range (cs.filter Call.isNew).length).map (fun k : Nat => (k : Int)) := by
  unfold session at h
  split at h
  · simp at h
  · rename_i b0 hb0
    obtain ⟨_, _, _, _, _, _, hal, _⟩ := createDiskbasedResultBuffer_ok hb0
    obtain ⟨hids, _⟩ := runCalls_ids h (-1) (by rw [hal]; rfl)
    rw [hids]
    apply List.map_congr_left
    intro k hkm
    have hlt : k < 2147483648 := by
      have := List.mem_range.1 hkm
      omega
    have : (-1 : Int) + 1 + (k : Int) = (k : Int) := by ring
    rw [this]
    exact wrapInt32_of_lt k hlt


/-! ## A buffer that stays within its budget never flushes -/

theorem map_set_same {α β : Type} (f : α → β) (l : List α) (i : Nat) (p q : α)
    (hp : l[i]? = some p) (hq : f q = f p) : (l.set i q).map f = l.map f := by
  apply List.ext_getElem?
  intro j
  by_cases hj : i = j
  · subst hj
    obtain ⟨hlt, hget⟩ := List.getElem?_eq_some.1 hp
    simp [List.getElem?_map, List.getElem?_set, hlt, hget, hq]
  · simp [List.getElem?_map, List.getElem?_set, hj]

theorem fits_set {b : SDiskbasedResultBuf} {pages : List SPageInfo} {pi : Nat}
    {p q : SPageInfo} (hF : ∀ x ∈ b.pages, x.pData ≠ none) (hp : b.pages[pi]? = some p)
    (hq : q.pData = p.pData) (hpages : pages = b.pages.set pi q) :
    (∀ x ∈ pages, x.pData ≠ none) ∧ pages.length = b.pages.length ∧
      pages.map SPageInfo.pData = b.pages.map SPageInfo.pData := by
  subst hpages
  have hmap := map_set_same SPageInfo.pData b.pages pi p q hp hq
  refine ⟨?_, by simp, hmap⟩
  intro x hx
  have hx2 : x.pData ∈ (b.pages.set pi q).map SPageInfo.pData := List.mem_map_of_mem _ hx
  rw [hmap] at hx2
  obtain ⟨y, hy, hyx⟩ := List.mem_map.1 hx2
  rw [← hyx]
  exact hF y hy

/-- One call on a buffer that has not flushed yet and, if the call creates a
page, has room for it. -/
theorem exec_fits {d : Deps} {b b' : SDiskbasedResultBuf} {c : Call} {r : Ret}
    (hF : Fits b) (hroom : c.isNew = true → b.numOfPages < b.inMemPages)
    (h : exec d b c = .ok (b', r)) :
    Fits b' ∧ b'.inMemPages = b.inMemPages ∧
    b'.numOfPages = b.numOfPages + (if c.isNew then 1 else 0) ∧
    (c.isFetchOrRelease = true →
      b'.mem = b.mem ∧ b'.pages.map SPageInfo.pData = b.pages.map SPageInfo.pData) := by
  obtain ⟨f1, f2, f3, f4, f5⟩ := hF
  cases c with
  | newDataBuf env groupId =>
    simp only [exec] at h
    split at h
    · simp at h
    · rename_i b2 pageId page hn
      simp only [Except.ok.injEq, Prod.mk.injEq] at h
      obtain ⟨hb, _⟩ := h
      subst hb
      obtain ⟨b1, avail, hacq, _, hpages, _, hM, hN, _⟩ := getNewDataBuf_ok hn
      obtain ⟨b1', avail', hacq', hst, _, hfile, _⟩ := getNewDataBuf_rest hn
      obtain ⟨e1, e2⟩ := acquired_unique hacq' hacq
      subst e1 e2
      obtain ⟨hb1, _⟩ := acquired_no_evict hacq (hroom rfl)
      subst hb1
      refine ⟨⟨?_, ?_, ?_, ?_, ?_⟩, hM, ?_, ?_⟩
      · rw [hst]
        exact f1
      · rw [hst]
        exact f2
      · rw [hfile]
        exact f3
      · intro x hx
        rw [hpages] at hx
        rcases List.mem_append.1 hx with hx | hx
        · exact f4 x hx
        · simp only [List.mem_singleton] at hx
          subst hx
          simp
      · rw [hpages, hN]
        simp only [List.length_append, List.length_singleton, counted_pages, counted_numOfPages]
        omega
      · simpa [Call.isNew] using hN
      · intro hc
        simp [Call.isFetchOrRelease] at hc
  | resBufPage env id =>
    simp only [exec] at h
    split at h
    · simp at h
    · rename_i b2 page hn
      simp only [Except.ok.injEq, Prod.mk.injEq] at h
      obtain ⟨hb, _⟩ := h
      subst hb
      obtain ⟨pi, p, _, hpi, hp, _⟩ := getResBufPage_ok hn
      have hmem : p ∈ b.pages := List.mem_iff_getElem?.2 ⟨pi, hp⟩
      obtain ⟨s, hs⟩ : ∃ s, p.pData = some s := by
        cases hd : p.pData with
        | none => exact absurd hd (f4 p hmem)
        | some s => exact ⟨s, rfl⟩
      obtain ⟨_, hb2⟩ := getResBufPage_resident hn hpi hp hs
      have hpages : b2.pages = b.pages.set pi { p with used := true } := by
        rw [hb2]
      obtain ⟨g1, g2, g3⟩ := fits_set f4 hp (q := { p with used := true }) rfl hpages
      refine ⟨⟨?_, ?_, ?_, g1, ?_⟩, ?_, ?_, ?_⟩
      · rw [hb2]
        exact f1
      · rw [hb2]
        exact f2
      · rw [hb2]
        exact f3
      · rw [g2, f5, hb2]
        rfl
      · rw [hb2]
        rfl
      · rw [hb2]
        simp [Call.isNew]
      · intro _
        refine ⟨?_, g3⟩
        rw [hb2]
        rfl
  | release page =>
    simp only [exec] at h
    split at h
    · simp at h
    · rename_i b2 hn
      simp only [Except.ok.injEq, Prod.mk.injEq] at h
      obtain ⟨hb, _⟩ := h
      subst hb
      obtain ⟨slab, pi, p, _, _, hp, _, _, hb2⟩ := releaseResBufPage_ok hn
      have hpages : b2.pages = b.pages.set pi { p with used := false } := by
        rw [hb2]
      obtain ⟨g1, g2, g3⟩ := fits_set f4 hp (q := { p with used := false }) rfl hpages
      refine ⟨⟨?_, ?_, ?_, g1, ?_⟩, ?_, ?_, ?_⟩
      · rw [hb2]
        exact f1
      · rw [hb2]
        exact f2
      · rw [hb2]
        exact f3
      · rw [g2, f5, hb2]
      · rw [hb2]
      · rw [hb2]
        simp [Call.isNew]
      · intro _
        refine ⟨?_, g3⟩
        rw [hb2]
  | store page bytes =>
    simp only [exec] at h
    split at h
    · simp at h
    · rename_i b2 hn
      simp only [Except.ok.injEq, Prod.mk.injEq] at h
      obtain ⟨hb, _⟩ := h
      subst hb
      obtain ⟨slab, _, hb2⟩ := storePayload_ok hn
      subst hb2
      refine ⟨⟨f1, f2, f3, f4, f5⟩, rfl, by simp [Call.isNew], ?_⟩
      intro hc
      simp [Call.isFetchOrRelease] at hc

theorem runCalls_fits {d : Deps} {cs : List Call} {b b' : SDiskbasedResultBuf} {rs : List Ret}
    (hF : Fits b) (hroom : b.numOfPages + (cs.filter Call.isNew).length ≤ b.inMemPages)
    (h : runCalls d b cs = .ok (b', rs)) :
    Fits b' ∧ b'.inMemPages = b.inMemPages := by
  induction cs generalizing b rs with
  | nil =>
    simp only [runCalls, Except.ok.injEq, Prod.mk.injEq] at h
    obtain ⟨hb, _⟩ := h
    subst hb
    exact ⟨hF, rfl⟩
  | cons c cs ih =>
    simp only [runCalls] at h
    split at h
    · simp at h
    · rename_i b1 r hc
      split at h
      · simp at h
      · rename_i b2 rs2 hr
        simp only [Except.ok.injEq, Prod.mk.injEq] at h
        obtain ⟨hb, _⟩ := h
        subst hb
        have hroom1 : c.isNew = true → b.numOfPages < b.inMemPages := by
          intro hnew
          simp only [List.filter_cons, hnew, if_true, List.length_cons] at hroom
          omega
        obtain ⟨hF1, hM1, hN1, _⟩ := exec_fits hF hroom1 hc
        have hroom2 : b1.numOfPages + (cs.filter Call.isNew).length ≤ b1.inMemPages := by
          rw [hM1, hN1]
          by_cases hnew : c.isNew = true
          · simp only [List.filter_cons, hnew, if_true, List.length_cons] at hroom ⊢
            omega
          · have hnew2 : c.isNew = false := by simpa using hnew
            simp only [List.filter_cons, hnew2, Bool.false_eq_true, if_false] at hroom ⊢
            omega
        obtain ⟨hF2, hM2⟩ := ih hF1 hroom2 hr
        exact ⟨hF2, hM2.trans hM1⟩

theorem runCalls_fetch_release {d : Deps} {cs : List Call} {b b' : SDiskbasedResultBuf}
    {rs : List Ret} (hF : Fits b) (hcs : ∀ c ∈ cs, c.isFetchOrRelease = true)
    (h : runCalls d b cs = .ok (b', rs)) :
    Fits b' ∧ b'.inMemPages = b.inMemPages ∧ b'.mem = b.mem ∧
      b'.pages.map SPageInfo.pData = b.pages.map SPageInfo.pData := by
  induction cs generalizing b rs with
  | nil =>
    simp only [runCalls, Except.ok.injEq, Prod.mk.injEq] at h
    obtain ⟨hb, _⟩ := h
    subst hb
    exact ⟨hF, rfl, rfl, rfl⟩
  | cons c cs ih =>
    simp only [runCalls] at h
    split at h
    · simp at h
    · rename_i b1 r hc
      split at h
      · simp at h
      · rename_i b2 rs2 hr
        simp only [Except.ok.injEq, Prod.mk.injEq] at h
        obtain ⟨hb, _⟩ := h
        subst hb
        have hfr : c.isFetchOrRelease = true := hcs c (List.mem_cons_self _ _)
        have hnn : c.isNew = true → b.numOfPages < b.inMemPages := by
          intro hnew
          cases c <;> simp [Call.isNew, Call.isFetchOrRelease] at hnew hfr
        obtain ⟨hF1, hM1, _, hkeep⟩ := exec_fits hF hnn hc
        obtain ⟨hm1, hp1⟩ := hkeep hfr
        obtain ⟨hF2, hM2, hm2, hp2⟩ :=
          ih hF1 (fun x hx => hcs x (List.mem_cons_of_mem _ hx)) hr
        exact ⟨hF2, hM2.trans hM1, hm2.trans hm1, hp2.trans hp1⟩

theorem create_fits {d : Deps} {rowSize pagesize inMemBufSize : Nat} {b : SDiskbasedResultBuf}
    (h : createDiskbasedResultBuffer d rowSize pagesize inMemBufSize = .ok b) :
    Fits b ∧ b.numOfPages = 0 ∧ b.inMemPages = inMemBufSize / pagesize := by
  unfold createDiskbasedResultBuffer at h
  split at h
  · simp at h
  · split at h
    · simp at h
    · split at h
      · simp at h
      · simp only [Except.ok.injEq] at h
        subst h
        exact ⟨⟨rfl, rfl, rfl, by simp, rfl⟩, rfl, rfl⟩

/-- **C12.**  Let a session create at most `inMemBufSize / pagesize` pages (the
budget `inMemPages` of the buffer), with any other calls in between.  Then
nothing was flushed: `statis.flushPages` is 0, the scratch file does not exist
and every page is memory-resident.  Whatever `getResBufPage` and
`releaseResBufPage` calls follow, the same holds after them, the budget is
still the initial one, every page has the slab it had, and no byte of any slab
has changed. -/
theorem no_flush_within_budget (d : Deps) (rowSize pagesize inMemBufSize : Nat)
    (cs cs2 : List Call) (b b2 : SDiskbasedResultBuf) (rs rs2 : List Ret)
    (h : session d rowSize pagesize inMemBufSize cs = .ok (b, rs))
    (hn : (cs.filter Call.isNew).length ≤ inMemBufSize / pagesize)
    (hcs2 : ∀ c ∈ cs2, c.isFetchOrRelease = true)
    (h2 : runCalls d b cs2 = .ok (b2, rs2)) :
    (b.statis.flushPages = 0 ∧ b.file = none ∧ ∀ p ∈ b.pages, p.pData ≠ none) ∧
    (b2.statis.flushPages = 0 ∧ b2.file = none ∧ ∀ p ∈ b2.pages, p.pData ≠ none) ∧
    b2.inMemPages = inMemBufSize / pagesize ∧
    b2.pages.map SPageInfo.pData = b.pages.map SPageInfo.pData ∧
    b2.mem = b.mem := by
  unfold session at h
  split at h
  · simp at h
  · rename_i b0 hb0
    obtain ⟨hF0, hN0, hM0⟩ := create_fits hb0
    obtain ⟨hF, hM⟩ := runCalls_fits hF0 (by rw [hN0, hM0]; omega) h
    obtain ⟨hF2, hM2, hmem, hpd⟩ := runCalls_fetch_release hF hcs2 h2
    exact ⟨⟨hF.1, hF.2.2.1, hF.2.2.2.1⟩, ⟨hF2.1, hF2.2.2.1, hF2.2.2.2.1⟩,
      by rw [hM2, hM, hM0], hpd, hmem⟩


/-! ## The eviction performed by `getNewDataBuf` -/

theorem flushPageToDisk_none {d : Deps} {env : Env} {b b' : SDiskbasedResultBuf} {pg : Nat}
    (h : flushPageToDisk d env b pg = .ok (b', none)) :
    b.file = none ∧ env.fopenOk = false ∧ b' = b := by
  unfold flushPageToDisk at h
  split at h
  · simp at h
  · split at h
    · rename_i hnone
      split at h
      · split at h
        · simp at h
        · simp at h
      · rename_i hfo
        simp only [Except.ok.injEq, Prod.mk.injEq, and_true] at h
        exact ⟨hnone, by simpa using hfo, h.symm⟩
    · split at h
      · simp at h
      · simp at h

theorem evicOneDataPage_none_file {d : Deps} {env : Env} {b b' : SDiskbasedResultBuf}
    {n : SListNode} (h : evicOneDataPage d env b = .ok (b', none))
    (hel : getEldestUnrefedPage b = .ok (some n)) : b.file = none ∧ env.fopenOk = false := by
  obtain ⟨_, p0, hp0, _, _, _⟩ := getEldestUnrefedPage_some hel
  unfold evicOneDataPage at h
  rw [hel] at h
  simp only [hp0] at h
  split at h
  · simp at h
  · obtain ⟨hf, hfo, _⟩ := flushPageToDisk_none h
    exact ⟨hf, hfo⟩

theorem eldestFrom_head {pages : List SPageInfo} {n n' : SListNode} {rest : List SListNode}
    (h : eldestFrom pages (n :: rest) = .ok (some n'))
    (hu : ∀ q ∈ pages[n.data]?, q.used = false) : n' = n := by
  unfold eldestFrom at h
  split at h
  · simp at h
  · rename_i q hq
    have hqu : q.used = false := hu q hq
    split at h
    · simp at h
    · simp only [hqu, Bool.not_false, if_true, Except.ok.injEq, Option.some.injEq] at h
      exact h.symm

theorem popNode_tail {l : List SListNode} {n : SListNode}
    (h : ((l ++ [n]).map SListNode.id).Nodup) : tdListPopNode (l ++ [n]) n.id = l := by
  have hne : ∀ m ∈ l, m.id ≠ n.id := by
    intro m hm he
    rw [List.map_append, List.nodup_append] at h
    exact h.2.2 (List.mem_map_of_mem _ hm) (by simp [he])
  unfold tdListPopNode
  rw [List.filter_append]
  have h1 : l.filter (fun m => m.id != n.id) = l := by
    apply List.filter_eq_self.2
    intro m hm
    simpa using hne m hm
  rw [h1]
  simp

theorem doCompressData_size {d : Deps} {comp : Bool} {data t : List Nat} {srcSize size : Nat}
    (h : doCompressData d comp data srcSize = .ok (size, t)) :
    (comp = false → size = srcSize) ∧
    (comp = true → size = (d.tsCompressString (data.take srcSize)).length) := by
  unfold doCompressData at h
  cases comp with
  | false =>
    simp only [Bool.not_false, if_true, Except.ok.injEq, Prod.mk.injEq] at h
    exact ⟨fun _ => h.1.symm, fun hc => by simp at hc⟩
  | true =>
    simp only [Bool.not_true, Bool.false_eq_true, if_false] at h
    split at h
    · simp only [Except.ok.injEq, Prod.mk.injEq] at h
      exact ⟨fun hc => by simp at hc, fun _ => h.1.symm⟩
    · simp at h

/-- **C13, amended.**  Let `getNewDataBuf` be called when the budget is used up
(`numOfPages >= inMemPages`), every page of the LRU list is released, and the
scratch file exists or can be created.  Then exactly one page changes: the page
of the last (oldest) node `n` of the LRU list is evicted, its slab becomes the
slab of the new page and its node leaves the list.  `statis.flushPages` grows
by 1 and `statis.flushBytes` by the length `size` that `doCompressData` reports
for the payload: `pageSize` if `comp` is `false`, the length of the compressed
payload if `comp` is `true`. -/
theorem eviction_flushes_lru_oldest (d : Deps) (env : Env) (b b' : SDiskbasedResultBuf)
    (groupId pageId : Int) (page : Nat) (l : List SListNode) (n : SListNode)
    (hfull : b.inMemPages ≤ b.numOfPages) (hlru : b.lruList = l ++ [n])
    (hnodup : (b.lruList.map SListNode.id).Nodup)
    (hrel : ∀ m ∈ b.lruList, ∀ q ∈ b.pages[m.data]?, q.used = false)
    (hfile : b.file ≠ none ∨ env.fopenOk = true)
    (h : getNewDataBuf d env b groupId = .ok (b', pageId, page)) :
    ∃ (p : SPageInfo) (slab : Slab) (size : Nat) (t : List Nat) (offset : Int),
      b.pages[n.data]? = some p ∧ p.pData = some page ∧ b.mem[page]? = some slab ∧
      doCompressData d b.comp slab.payload b.pageSize = .ok (size, t) ∧
      (b.comp = false → size = b.pageSize) ∧
      (b.comp = true → size = (d.tsCompressString (slab.payload.take b.pageSize)).length) ∧
      b'.pages = b.pages.set n.data { p with pn := none, info := ⟨offset, size⟩, pData := none }
        ++ [⟨some b.nodeSeq, pageId, PAGE_INFO_INITIALIZER, some page, true⟩] ∧
      b'.lruList = ⟨b.nodeSeq, b.pages.length⟩ :: l ∧
      b'.statis.flushPages = b.statis.flushPages + 1 ∧
      b'.statis.flushBytes = b.statis.flushBytes + size := by
  obtain ⟨b1, avail, hacq, _, hpages, hlist, _, _, _, _, _, _, _, hpage, _⟩ := getNewDataBuf_ok h
  obtain ⟨b1', avail', hacq', hst, _⟩ := getNewDataBuf_rest h
  obtain ⟨e1, e2⟩ := acquired_unique hacq hacq'
  subst e1 e2
  obtain ⟨_, _, _, _, _, _, hseq, _⟩ := acquired_sameTables hacq
  have hnmem : n ∈ b.lruList := by rw [hlru]; simp
  rcases hacq with ⟨hlt, _, _⟩ | ⟨_, hev⟩
  · omega
  · cases avail with
    | none =>
      exfalso
      rcases evicOneDataPage_ok hev with ⟨hel, _, _⟩ | ⟨n', _, _, hel, _⟩
      · obtain ⟨q, hq, hqu⟩ := getEldestUnrefedPage_none hel n hnmem
        have := hrel n hnmem q hq
        rw [this] at hqu
        simp at hqu
      · obtain ⟨hf, hfo⟩ := evicOneDataPage_none_file hev hel
        rcases hfile with h1 | h1
        · exact h1 hf
        · rw [h1] at hfo
          simp at hfo
    | some s =>
      obtain ⟨n', p, slab, f0, size, t, offset, hel, hp, _, _, hd, hm, _, hc, hst1, _, _, hpg1,
        _, hl1, _⟩ := evicOneDataPage_flushed hev
      have hn' : n' = n := by
        have hel2 : eldestFrom b.pages (n :: l.reverse) = .ok (some n') := by
          have : getEldestUnrefedPage b = .ok (some n') := hel
          unfold getEldestUnrefedPage at this
          rw [hlru] at this
          simpa using this
        exact eldestFrom_head hel2 (hrel n hnmem)
      subst hn'
      have hps : page = s := hpage s rfl
      subst hps
      have hlen : b1.pages.length = b.pages.length := by
        rw [hpg1]
        simp
      have hl2 : b1.lruList = l := by
        rw [hl1]
        show tdListPopNode b.lruList n'.id = l
        rw [hlru]
        rw [hlru] at hnodup
        exact popNode_tail hnodup
      obtain ⟨hs1, hs2⟩ := doCompressData_size hc
      refine ⟨p, slab, size, t, offset, hp, hd, hm, hc, hs1, hs2, ?_, ?_, ?_, ?_⟩
      · rw [hpages, hpg1, hseq]
        rfl
      · rw [hlist, hl2, hlen, hseq]
      · rw [hst, hst1]
        rfl
      · rw [hst, hst1]
        rfl


/-! ## The bytes counted by a reload -/

theorem reload_mid_state {b1 : SDiskbasedResultBuf} {pi : Nat} {p : SPageInfo}
    (avail : Option Nat) (hp1 : b1.pages[pi]? = some p) :
    (lruListPushFront (attachSlab b1 pi avail).1 pi).pages[pi]? =
      some { p with pData := some (attachSlab b1 pi avail).2, pn := some b1.nodeSeq } ∧
    (lruListPushFront (attachSlab b1 pi avail).1 pi).file = b1.file ∧
    (lruListPushFront (attachSlab b1 pi avail).1 pi).statis = b1.statis ∧
    (lruListPushFront (attachSlab b1 pi avail).1 pi).pFree = b1.pFree ∧
    (lruListPushFront (attachSlab b1 pi avail).1 pi).comp = b1.comp := by
  have hlt : pi < b1.pages.length := (List.getElem?_eq_some.1 hp1).1
  cases avail <;>
    simp [attachSlab, lruListPushFront, List.modify_eq_set_get?, hp1, hlt, List.getElem?_set,
      List.set_set]

/-- **C15, amended.**  When `doFlushPageToDisk` flushes a page that has a disk
slot (`info.offset != -1`) and the new length `size` is at most `info.length`,
the flush succeeds, the `size` bytes are written at the same `info.offset`, no
position is allocated (`nextPos` and the free list are untouched), and
`info.length` becomes `size`: it is reduced whenever the page got shorter. -/
theorem flush_into_slot_sets_length (d : Deps) (b : SDiskbasedResultBuf) (pg : Nat)
    (p : SPageInfo) (s : Nat) (slab : Slab) (f : List Nat) (size : Nat) (t : List Nat)
    (hp : b.pages[pg]? = some p) (hu : p.used = false) (hd : p.pData = some s)
    (hm : b.mem[s]? = some slab) (hf : b.file = some f)
    (hc : doCompressData d b.comp slab.payload b.pageSize = .ok (size, t))
    (hslot : p.info.offset ≠ -1) (hle : (size : Int) ≤ p.info.length) :
    ∃ b', doFlushPageToDisk d b pg = .ok (b', s) ∧
      b'.pages[pg]? = some { p with info := ⟨p.info.offset, size⟩, pData := none } ∧
      b'.file = some (fileWrite f p.info.offset.toNat (t.take size)) ∧
      b'.nextPos = b.nextPos ∧ b'.pFree = b.pFree ∧
      b'.statis.flushBytes = b.statis.flushBytes + size := by
  have hex : ∃ b', doFlushPageToDisk d b pg = .ok (b', s) := by
    unfold doFlushPageToDisk
    simp only [hp, hu, hd, hm, hf, hc]
    exact ⟨_, rfl⟩
  obtain ⟨b', hb'⟩ := hex
  obtain ⟨p2, slab2, f2, size2, t2, offset, hp2, _, _, hm2, hf2, hc2, hst, _, hfile, hpages, _,
    _, _, hkeep, _, _⟩ := doFlushPageToDisk_full hb'
  rw [hp] at hp2
  simp only [Option.some.injEq] at hp2
  subst hp2
  rw [hm] at hm2
  simp only [Option.some.injEq] at hm2
  subst hm2
  rw [hf] at hf2
  simp only [Option.some.injEq] at hf2
  subst hf2
  rw [hc] at hc2
  simp only [Except.ok.injEq, Prod.mk.injEq] at hc2
  obtain ⟨h1, h2⟩ := hc2
  subst h1 h2
  obtain ⟨ho, hnp, hfr⟩ := hkeep hslot hle
  subst ho
  have hlt : pg < b.pages.length := (List.getElem?_eq_some.1 hp).1
  refine ⟨b', hb', ?_, hfile, hnp, hfr, ?_⟩
  · rw [hpages]
    exact getElem?_set_at _ _ _ hlt
  · rw [hst]

/-! ## The free list -/

theorem exec_pFree_none {d : Deps} {b b' : SDiskbasedResultBuf} {c : Call} {r : Ret}
    (hF : b.pFree = none) (h : exec d b c = .ok (b', r)) : b'.pFree = none := by
  cases c with
  | newDataBuf env groupId =>
    simp only [exec] at h
    split at h
    · simp at h
    · rename_i b2 pageId page hn
      simp only [Except.ok.injEq, Prod.mk.injEq] at h
      obtain ⟨hb, _⟩ := h
      subst hb
      obtain ⟨b1, avail, hacq, _, _, _, _, hfree, _⟩ := getNewDataBuf_rest hn
      rw [hfree]
      exact (acquired_frame hacq).2.2.2.2.2 hF
  | resBufPage env id =>
    simp only [exec] at h
    split at h
    · simp at h
    · rename_i b2 page hn
      simp only [Except.ok.injEq, Prod.mk.injEq] at h
      obtain ⟨hb, _⟩ := h
      subst hb
      obtain ⟨pi, p, _, hpi, hp, hcase⟩ := getResBufPage_ok hn
      cases hd : p.pData with
      | some s =>
        obtain ⟨_, hb2⟩ := getResBufPage_resident hn hpi hp hd
        rw [hb2]
        exact hF
      | none =>
        have hpn : p.pn = none := by
          rcases hcase with ⟨hd2, _⟩ | ⟨_, hpn, _⟩
          · rw [hd] at hd2
            simp at hd2
          · exact hpn
        obtain ⟨b1, avail, r, hacq, hload, _⟩ := getResBufPage_reload hn hpi hp hd
        have hp1 : b1.pages[pi]? = some p := acquired_page_kept hacq hp hpn
        obtain ⟨_, _, _, m4, _⟩ := reload_mid_state avail hp1
        obtain ⟨_, _, _, _, _, _, _, _, _, _, hfree, _⟩ := loadPageFromDisk_full hload
        rw [hfree, m4]
        exact (acquired_frame hacq).2.2.2.2.2 hF
  | release page =>
    simp only [exec] at h
    split at h
    · simp at h
    · rename_i b2 hn
      simp only [Except.ok.injEq, Prod.mk.injEq] at h
      obtain ⟨hb, _⟩ := h
      subst hb
      obtain ⟨slab, pi, p, _, _, _, _, _, hb2⟩ := releaseResBufPage_ok hn
      rw [hb2]
      exact hF
  | store page bytes =>
    simp only [exec] at h
    split at h
    · simp at h
    · rename_i b2 hn
      simp only [Except.ok.injEq, Prod.mk.injEq] at h
      obtain ⟨hb, _⟩ := h
      subst hb
      obtain ⟨slab, _, hb2⟩ := storePayload_ok hn
      rw [hb2]
      exact hF

/-- In every buffer that a session reaches the free list is `NULL`, so
`allocatePositionInFile` returns `nextPos` for every size. -/
theorem session_pFree_none {d : Deps} {rowSize pagesize inMemBufSize : Nat} {cs : List Call}
    {b : SDiskbasedResultBuf} {rs : List Ret}
    (h : session d rowSize pagesize inMemBufSize cs = .ok (b, rs)) :
    b.pFree = none ∧ ∀ size, allocatePositionInFile b size = (b.nextPos, none) := by
  have hF : b.pFree = none := by
    unfold session at h
    split at h
    · simp at h
    · rename_i b0 hb0
      have h0 : b0.pFree = none := by
        unfold createDiskbasedResultBuffer at hb0
        split at hb0
        · simp at hb0
        · split at hb0
          · simp at hb0
          · split at hb0
            · simp at hb0
            · simp only [Except.ok.injEq] at hb0
              subst hb0
              rfl
      exact runCalls_induct (fun x => x.pFree = none) (fun _ => True)
        (fun _ _ _ _ _ hP hs => exec_pFree_none hP hs) (fun _ _ => trivial) h0 h
  refine ⟨hF, ?_⟩
  intro size
  unfold allocatePositionInFile
  rw [hF]


/-! ## The bookkeeping that the assertions rely on -/

theorem pnLinks_set_keep {pages : List SPageInfo} {k i : Nat} {p q : SPageInfo}
    (h : PnLinks pages k) (hp : pages[i]? = some p) (hq : q.pn = p.pn ∨ q.pn = none) :
    PnLinks (pages.set i q) k := by
  obtain ⟨hinj, hlow⟩ := h
  have hlt : i < pages.length := (List.getElem?_eq_some.1 hp).1
  have hget : ∀ (j : Nat) (x : SPageInfo) (n : Nat), (pages.set i q)[j]? = some x →
      x.pn = some n → ∃ y, pages[j]? = some y ∧ y.pn = some n := by
    intro j x n hx hn
    by_cases hij : i = j
    · subst hij
      rw [getElem?_set_at _ _ _ hlt] at hx
      simp only [Option.some.injEq] at hx
      subst hx
      rcases hq with hq | hq
      · exact ⟨p, hp, by rw [← hq]; exact hn⟩
      · rw [hq] at hn
        simp at hn
    · rw [getElem?_set_ne' _ _ _ _ hij] at hx
      exact ⟨x, hx, hn⟩
  refine ⟨?_, ?_⟩
  · intro a c x y n hx hy hxn hyn
    obtain ⟨x', hx', hxn'⟩ := hget a x n hx hxn
    obtain ⟨y', hy', hyn'⟩ := hget c y n hy hyn
    exact hinj a c x' y' n hx' hy' hxn' hyn'
  · intro x n hx hn
    obtain ⟨j, hj⟩ := List.mem_iff_getElem?.1 hx
    obtain ⟨y, hy, hyn⟩ := hget j x n hj hn
    exact hlow y n (List.mem_iff_getElem?.2 ⟨j, hy⟩) hyn

theorem pnLinks_succ {pages : List SPageInfo} {k : Nat} (h : PnLinks pages k) :
    PnLinks pages (k + 1) :=
  ⟨h.1, fun p n hp hn => Nat.lt_succ_of_lt (h.2 p n hp hn)⟩

theorem pnLinks_set_fresh {pages : List SPageInfo} {k i : Nat} {p q : SPageInfo}
    (h : PnLinks pages k) (hp : pages[i]? = some p) (hq : q.pn = some k) :
    PnLinks (pages.set i q) (k + 1) := by
  obtain ⟨hinj, hlow⟩ := h
  have hlt : i < pages.length := (List.getElem?_eq_some.1 hp).1
  have hget : ∀ (j : Nat) (x : SPageInfo) (n : Nat), (pages.set i q)[j]? = some x →
      x.pn = some n → (j = i ∧ n = k) ∨ (j ≠ i ∧ n < k ∧ pages[j]? = some x) := by
    intro j x n hx hn
    by_cases hij : i = j
    · subst hij
      rw [getElem?_set_at _ _ _ hlt] at hx
      simp only [Option.some.injEq] at hx
      subst hx
      rw [hq] at hn
      simp only [Option.some.injEq] at hn
      exact Or.inl ⟨rfl, hn.symm⟩
    · rw [getElem?_set_ne' _ _ _ _ hij] at hx
      exact Or.inr ⟨fun he => hij he.symm, hlow x n (List.mem_iff_getElem?.2 ⟨j, hx⟩) hn, hx⟩
  refine ⟨?_, ?_⟩
  · intro a c x y n hx hy hxn hyn
    rcases hget a x n hx hxn with ⟨ha, hna⟩ | ⟨ha, hna, hx'⟩ <;>
      rcases hget c y n hy hyn with ⟨hc, hnc⟩ | ⟨hc, hnc, hy'⟩
    · rw [ha, hc]
    · omega
    · omega
    · exact hinj a c x y n hx' hy' hxn hyn
  · intro x n hx hn
    obtain ⟨j, hj⟩ := List.mem_iff_getElem?.1 hx
    rcases hget j x n hj hn with ⟨_, hn2⟩ | ⟨_, hn2, _⟩ <;> omega

theorem pnLinks_append_fresh {pages : List SPageInfo} {k : Nat} {q : SPageInfo}
    (h : PnLinks pages k) (hq : q.pn = some k) : PnLinks (pages ++ [q]) (k + 1) := by
  obtain ⟨hinj, hlow⟩ := h
  have hget : ∀ (j : Nat) (x : SPageInfo) (n : Nat), (pages ++ [q])[j]? = some x →
      x.pn = some n → (j = pages.length ∧ n = k) ∨
        (j < pages.length ∧ n < k ∧ pages[j]? = some x) := by
    intro j x n hx hn
    by_cases hj : j < pages.length
    · rw [List.getElem?_append_left hj] at hx
      exact Or.inr ⟨hj, hlow x n (List.mem_iff_getElem?.2 ⟨j, hx⟩) hn, hx⟩
    · rw [List.getElem?_append_right (by omega)] at hx
      have hj0 : j - pages.length = 0 := by
        by_contra hne
        obtain ⟨m, hm⟩ : ∃ m, j - pages.length = m + 1 := ⟨j - pages.length - 1, by omega⟩
        rw [hm] at hx
        simp at hx
      rw [hj0] at hx
      simp only [List.getElem?_cons_zero, Option.some.injEq] at hx
      subst hx
      rw [hq] at hn
      simp only [Option.some.injEq] at hn
      exact Or.inl ⟨by omega, hn.symm⟩
  refine ⟨?_, ?_⟩
  · intro a c x y n hx hy hxn hyn
    rcases hget a x n hx hxn with ⟨ha, hna⟩ | ⟨ha, hna, hx'⟩ <;>
      rcases hget c y n hy hyn with ⟨hc, hnc⟩ | ⟨hc, hnc, hy'⟩
    · rw [ha, hc]
    · omega
    · omega
    · exact hinj a c x y n hx' hy' hxn hyn
  · intro x n hx hn
    obtain ⟨j, hj⟩ := List.mem_iff_getElem?.1 hx
    rcases hget j x n hj hn with ⟨_, hn2⟩ | ⟨_, hn2, _⟩ <;> omega

theorem pageOk_set {pages : List SPageInfo} {i : Nat} {q : SPageInfo}
    (h : ∀ p ∈ pages, PageOk p) (hq : PageOk q) : ∀ p ∈ pages.set i q, PageOk p := by
  intro p hp
  rcases List.mem_or_eq_of_mem_set hp with h1 | h1
  · exact h p h1
  · rw [h1]
    exact hq

theorem acquired_linkInv {d : Deps} {env : Env} {b b1 : SDiskbasedResultBuf}
    {avail : Option Nat} (hL : LinkInv b) (h : Acquired d env b b1 avail) : LinkInv b1 := by
  obtain ⟨hpn, hok, hfree, hnext, htot⟩ := hL
  obtain ⟨t1, t2, _, t4, _, _, t7, _⟩ := acquired_sameTables h
  have htot1 : b1.numOfPages * b1.pageSize = b1.totalBufSize := by rw [t1, t2, t4]; exact htot
  have hfree1 : b1.pFree = none := (acquired_frame h).2.2.2.2.2 hfree
  rcases h with ⟨_, hb, _⟩ | ⟨_, hev⟩
  · subst hb
    exact ⟨hpn, hok, hfree, hnext, htot⟩
  · cases avail with
    | none =>
      rcases evicOneDataPage_ok hev with ⟨_, _, hb⟩ | ⟨n, _, _, hel, _⟩
      · subst hb
        exact ⟨hpn, hok, hfree, hnext, htot⟩
      · obtain ⟨p, hp, _, _, hb⟩ := evicOneDataPage_flush_failed hev hel
        subst hb
        have hp' : b.pages[n.data]? = some p := hp
        have hpm : p ∈ b.pages := List.mem_iff_getElem?.2 ⟨n.data, hp'⟩
        refine ⟨pnLinks_set_keep hpn hp' (Or.inr rfl), ?_, hfree, hnext, htot⟩
        apply pageOk_set hok
        obtain ⟨o1, o2⟩ := hok p hpm
        exact ⟨o1, fun hd => ⟨rfl, (o2 hd).2⟩⟩
    | some s =>
      obtain ⟨n, p, slab, f0, size, t, offset, _, hp, _, _, hd, _, _, _, _, _, _, hpages, _, _,
        _, hkeep, hnew, _⟩ := evicOneDataPage_flushed hev
      have hp' : b.pages[n.data]? = some p := hp
      have hpm : p ∈ b.pages := List.mem_iff_getElem?.2 ⟨n.data, hp'⟩
      obtain ⟨o1, _⟩ := hok p hpm
      have hoff : 0 ≤ offset ∧ 0 ≤ b1.nextPos := by
        by_cases hc : p.info.offset = -1 ∨ p.info.length < (size : Int)
        · obtain ⟨hn1, hn2⟩ := hnew hc
          have e1 : offset = b.nextPos := hn2 hfree
          have e2 : b1.nextPos = b.nextPos + size := hn1
          rw [e1, e2]
          exact ⟨hnext, by omega⟩
        · have hc1 : p.info.offset ≠ -1 := fun he => hc (Or.inl he)
          have hc2 : (size : Int) ≤ p.info.length := by
            by_contra hlt
            exact hc (Or.inr (by omega))
          obtain ⟨e1, e2, _⟩ := hkeep hc1 hc2
          have e3 : b1.nextPos = b.nextPos := e2
          rw [e1, e3]
          refine ⟨?_, hnext⟩
          rcases o1 with o1 | o1
          · exact absurd o1 hc1
          · exact o1
      refine ⟨?_, ?_, hfree1, hoff.2, htot1⟩
      · rw [hpages, t7]
        exact pnLinks_set_keep hpn hp' (Or.inr rfl)
      · rw [hpages]
        apply pageOk_set hok
        exact ⟨Or.inr hoff.1, fun _ => ⟨rfl, Int.natCast_nonneg _, hoff.1⟩⟩

theorem exec_linkInv {d : Deps} {b b' : SDiskbasedResultBuf} {c : Call} {r : Ret}
    (hL : LinkInv b) (h : exec d b c = .ok (b', r)) : LinkInv b' := by
  cases c with
  | newDataBuf env groupId =>
    simp only [exec] at h
    split at h
    · simp at h
    · rename_i b2 pageId page hn
      simp only [Except.ok.injEq, Prod.mk.injEq] at h
      obtain ⟨hb, _⟩ := h
      subst hb
      obtain ⟨b1, avail, hacq, _, hpages, _, _, hN, _, _, _, _, _, _, hseq⟩ := getNewDataBuf_ok hn
      obtain ⟨b1', avail', hacq', _, _, _, hnp, hfr, _, hps, htb, _⟩ := getNewDataBuf_rest hn
      obtain ⟨e1, e2⟩ := acquired_unique hacq hacq'
      subst e1 e2
      obtain ⟨hpn, hok, hfree, hnext, htot⟩ := acquired_linkInv hL hacq
      refine ⟨?_, ?_, ?_, ?_, ?_⟩
      · rw [hpages, hseq]
        exact pnLinks_append_fresh hpn rfl
      · intro p hp
        rw [hpages] at hp
        rcases List.mem_append.1 hp with hp | hp
        · exact hok p hp
        · simp only [List.mem_singleton] at hp
          subst hp
          exact ⟨Or.inl rfl, fun hd => by simp at hd⟩
      · rw [hfr]
        exact hfree
      · rw [hnp]
        exact hnext
      · rw [hN, hps, htb, ← htot]
        ring
  | resBufPage env id =>
    simp only [exec] at h
    split at h
    · simp at h
    · rename_i b2 page hn
      simp only [Except.ok.injEq, Prod.mk.injEq] at h
      obtain ⟨hb, _⟩ := h
      subst hb
      obtain ⟨pi, p, _, hpi, hp, hcase⟩ := getResBufPage_ok hn
      cases hd : p.pData with
      | some s =>
        obtain ⟨hpn, hok, hfree, hnext, htot⟩ := hL
        obtain ⟨_, hb2⟩ := getResBufPage_resident hn hpi hp hd
        rw [hb2]
        refine ⟨pnLinks_set_keep hpn hp (Or.inl rfl), ?_, hfree, hnext, htot⟩
        apply pageOk_set hok
        exact hok p (List.mem_iff_getElem?.2 ⟨pi, hp⟩)
      | none =>
        rcases hcase with ⟨hd2, _⟩ | ⟨_, hpn0, b1, avail, hacq, hpages, _, _, hN, _, _, _, _, _,
          hseq⟩
        · rw [hd] at hd2
          simp at hd2
        · obtain ⟨b1', avail', r, hacq', hload, _⟩ := getResBufPage_reload hn hpi hp hd
          obtain ⟨e1, e2⟩ := acquired_unique hacq hacq'
          subst e1 e2
          have hp1 : b1.pages[pi]? = some p := acquired_page_kept hacq hp hpn0
          obtain ⟨_, _, _, m4, _⟩ := reload_mid_state avail hp1
          obtain ⟨_, _, _, _, _, _, _, _, _, _, hfr, hnp, _⟩ := loadPageFromDisk_full hload
          obtain ⟨_, _, _, hsame, _⟩ := loadPageFromDisk_ok hload
          obtain ⟨_, s2, _, s4, _⟩ := hsame
          obtain ⟨hpn, hok, hfree, hnext, htot⟩ := acquired_linkInv hL hacq
          have hmid : (lruListPushFront (attachSlab b1 pi avail).1 pi).nextPos = b1.nextPos ∧
              (lruListPushFront (attachSlab b1 pi avail).1 pi).totalBufSize = b1.totalBufSize ∧
              (lruListPushFront (attachSlab b1 pi avail).1 pi).pageSize = b1.pageSize := by
            cases avail <;> simp [attachSlab, lruListPushFront]
          refine ⟨?_, ?_, ?_, ?_, ?_⟩
          · rw [hpages, hseq]
            exact pnLinks_set_fresh hpn hp1 rfl
          · rw [hpages]
            apply pageOk_set hok
            exact ⟨(hok p (List.mem_iff_getElem?.2 ⟨pi, hp1⟩)).1, fun hd3 => by simp at hd3⟩
          · rw [hfr, m4]
            exact hfree
          · rw [hnp, hmid.1]
            exact hnext
          · rw [hN, s4, s2, hmid.2.1, hmid.2.2]
            exact htot
  | release page =>
    simp only [exec] at h
    split at h
    · simp at h
    · rename_i b2 hn
      simp only [Except.ok.injEq, Prod.mk.injEq] at h
      obtain ⟨hb, _⟩ := h
      subst hb
      obtain ⟨hpn, hok, hfree, hnext, htot⟩ := hL
      obtain ⟨slab, pi, p, _, _, hp, _, _, hb2⟩ := releaseResBufPage_ok hn
      rw [hb2]
      refine ⟨pnLinks_set_keep hpn hp (Or.inl rfl), ?_, hfree, hnext, htot⟩
      apply pageOk_set hok
      exact hok p (List.mem_iff_getElem?.2 ⟨pi, hp⟩)
  | store page bytes =>
    simp only [exec] at h
    split at h
    · simp at h
    · rename_i b2 hn
      simp only [Except.ok.injEq, Prod.mk.injEq] at h
      obtain ⟨hb, _⟩ := h
      subst hb
      obtain ⟨slab, _, hb2⟩ := storePayload_ok hn
      rw [hb2]
      exact hL

theorem session_linkInv {d : Deps} {rowSize pagesize inMemBufSize : Nat} {cs : List Call}
    {b : SDiskbasedResultBuf} {rs : List Ret}
    (h : session d rowSize pagesize inMemBufSize cs = .ok (b, rs)) : LinkInv b := by
  unfold session at h
  split at h
  · simp at h
  · rename_i b0 hb0
    have h0 : LinkInv b0 := by
      unfold createDiskbasedResultBuffer at hb0
      split at hb0
      · simp at hb0
      · split at hb0
        · simp at hb0
        · split at hb0
          · simp at hb0
          · simp only [Except.ok.injEq] at hb0
            subst hb0
            refine ⟨⟨?_, ?_⟩, ?_, rfl, le_refl _, by simp⟩
            · intro i j p q n hp
              simp at hp
            · intro p n hp
              simp at hp
            · intro p hp
              simp at hp
    exact runCalls_induct LinkInv (fun _ => True)
      (fun _ _ _ _ _ hP hs => exec_linkInv hP hs) (fun _ _ => trivial) h0 h


/-! ## No assertion fails on a page id that was handed out -/

theorem eldestFrom_assert {pages : List SPageInfo} {l : List SListNode}
    (h : eldestFrom pages l = .error .assertEldest) :
    ∃ n ∈ l, ∃ p, pages[n.data]? = some p ∧ ¬ (p.pageId ≥ 0 ∧ p.pn = some n.id) := by
  induction l with
  | nil => simp [eldestFrom] at h
  | cons m rest ih =>
    unfold eldestFrom at h
    split at h
    · simp at h
    · rename_i p hp
      split at h
      · rename_i hbad
        exact ⟨m, List.mem_cons_self _ _, p, hp, hbad⟩
      · split at h
        · simp at h
        · obtain ⟨n, hn, hrest⟩ := ih h
          exact ⟨n, List.mem_cons_of_mem _ hn, hrest⟩

theorem doFlushPageToDisk_fault_kind {d : Deps} {b : SDiskbasedResultBuf} {pg : Nat}
    {e : Fault} (h : doFlushPageToDisk d b pg = .error e) :
    e = .badPointer ∨ e = .assertFlushPage ∨ e = .bufferOverrun := by
  unfold doFlushPageToDisk at h
  split at h
  · simp only [Except.error.injEq] at h
    exact Or.inl h.symm
  · split at h
    · simp only [Except.error.injEq] at h
      exact Or.inr (Or.inl h.symm)
    · simp only [Except.error.injEq] at h
      exact Or.inr (Or.inl h.symm)
    · split at h
      · simp only [Except.error.injEq] at h
        exact Or.inl h.symm
      · simp only [Except.error.injEq] at h
        exact Or.inl h.symm
      · split at h
        · rename_i e3 hc
          simp only [Except.error.injEq] at h
          subst h
          exact Or.inr (Or.inr (doCompressData_fault hc))
        · simp at h

theorem session_pageIds_nonneg {d : Deps} {rowSize pagesize inMemBufSize : Nat}
    {cs : List Call} {b : SDiskbasedResultBuf} {rs : List Ret}
    (h : session d rowSize pagesize inMemBufSize cs = .ok (b, rs))
    (hk : (cs.filter Call.isNew).length ≤ 2147483648) : ∀ p ∈ b.pages, 0 ≤ p.pageId := by
  obtain ⟨hlen, _, hid, _⟩ := session_tableInv h
  rw [groupsOf_length] at hlen
  intro p hp
  obtain ⟨i, hi⟩ := List.mem_iff_getElem?.1 hp
  have hlt : i < b.pages.length := (List.getElem?_eq_some.1 hi).1
  rw [hid i p hi, wrapInt32_of_lt i (by omega)]
  exact Int.natCast_nonneg _

/-- **C13, as stated, fails.**  The statement needs a scratch file that can be
had.  On a buffer with `comp` cleared, budget three and three released pages
(`threeReleasedCalls`), a fourth `getNewDataBuf` during which `fopen` fails
counts a flush (`statis.flushPages` goes from 0 to 1) but evicts no page: page 0
keeps its slab, four pages are memory-resident and `statis.flushBytes` stays 0.
Moreover compression is not disabled in a buffer as `createDiskbasedResultBuffer`
makes it: `comp` is `true`, and with the stand-in codec the eviction of a page
of 16 bytes adds 1 to `statis.flushBytes`, not `pageSize`. -/
theorem eviction_without_file_flushes_nothing :
    observe (sessionComp trimDeps false 4 16 48 threeReleasedCalls)
      (fun b => (b.comp, b.statis.flushPages, b.statis.flushBytes, residentPages b,
        (pageOfId b 0).map SPageInfo.pData))
      = some (false, 0, 0, 3, some (some 0)) ∧
    observe (sessionComp trimDeps false 4 16 48
        (threeReleasedCalls ++ [.newDataBuf ⟨false, none⟩ 0]))
      (fun b => (b.comp, b.statis.flushPages, b.statis.flushBytes, residentPages b,
        (pageOfId b 0).map SPageInfo.pData))
      = some (false, 1, 0, 4, some (some 0)) ∧
    observe (session trimDeps 4 16 48 (threeSparseCalls ++ [.newDataBuf Env.good 0]))
      (fun b => (b.comp, b.pageSize, b.statis.flushPages, b.statis.flushBytes))
      = some (true, 16, 1, 1) :=
  ⟨by decide, by decide, by decide⟩

/-- **C15, as stated, fails.**  After `slotCalls` page 0 has the slot
`{offset 0, length 16}` and a payload that compresses to 1 byte.  The flush of
`shrinkCalls` writes it at offset 0 and leaves `info.length = 1`: the length is
reduced. -/
theorem flush_into_slot_shrinks_length :
    observe (session trimDeps 4 16 32 slotCalls)
      (fun b => ((pageOfId b 0).map SPageInfo.info, b.nextPos))
      = some (some ⟨0, 16⟩, 16) ∧
    observe (session trimDeps 4 16 32 shrinkCalls)
      (fun b => ((pageOfId b 0).map SPageInfo.info, b.nextPos))
      = some (some ⟨0, 1⟩, 16) := by
  decide

/-- **C16, the defect.**  After `beforeGrowCalls` page 0 has the slot
`{offset 0, length 1}`.  The flush of `growCalls` needs 16 bytes and allocates a
new position, but the old region is not in the free list: the list is `NULL`.
The next allocation of 1 byte, for page 3 in `reuseCalls`, is placed at
`nextPos = 17`, not at offset 0, and `nextPos` advances to 18. -/
theorem grown_page_region_is_not_reused :
    observe (session trimDeps 4 16 32 beforeGrowCalls)
      (fun b => ((pageOfId b 0).map SPageInfo.info, b.pFree, b.nextPos))
      = some (some ⟨0, 1⟩, none, 1) ∧
    observe (session trimDeps 4 16 32 growCalls)
      (fun b => ((pageOfId b 0).map SPageInfo.info, b.pFree, b.nextPos))
      = some (some ⟨1, 16⟩, none, 17) ∧
    observe (session trimDeps 4 16 32 reuseCalls)
      (fun b => ((pageOfId b 3).map SPageInfo.info, b.pFree, b.nextPos))
      = some (some ⟨17, 1⟩, none, 18) := by
  decide

/-! ## The theorems at concrete buffers -/

theorem threeFilledBuf_reached :
    session trimDeps 4 16 48 withinBudgetCalls =
      .ok (threeFilledBuf, [.newPage 0 0, .done, .newPage 1 1, .done, .newPage 2 2, .done]) :=
  rfl

theorem threeReleasedPlainBuf_reached :
    sessionComp trimDeps false 4 16 48 threeReleasedCalls =
      .ok (threeReleasedPlainBuf,
        [.newPage 0 0, .done, .done, .newPage 1 1, .done, .done, .newPage 2 2, .done, .done]) :=
  rfl

theorem slotBuf_reached :
    session trimDeps 4 16 32 slotCalls =
      .ok (slotBuf,
        [.newPage 0 0, .done, .done, .newPage 1 1, .done, .newPage 2 0, .page 1, .done]) :=
  rfl

theorem beforeFopenFailureBuf_reached :
    session trimDeps 4 16 32 beforeFopenFailureCalls =
      .ok (beforeFopenFailureBuf, [.newPage 0 0, .done, .newPage 1 1]) :=
  rfl

/-- C11 at a concrete buffer: three pinned pages under a budget of three; the
eviction attempt makes the budget `3 * 3 / 2 = 4`. -/
theorem budget_grows_to_floor_witness :
    (finalBuf (session trimDeps 4 16 48 threePinnedCalls)).inMemPages * 3 / 2 = 4 ∧
    evicOneDataPage trimDeps Env.good (finalBuf (session trimDeps 4 16 48 threePinnedCalls)) =
      .ok ({ finalBuf (session trimDeps 4 16 48 threePinnedCalls) with
             inMemPages :=
               (finalBuf (session trimDeps 4 16 48 threePinnedCalls)).inMemPages * 3 / 2 },
           none) :=
  ⟨by decide, (budget_grows_to_floor trimDeps 4 16 48 threePinnedCalls
    (finalBuf (session trimDeps 4 16 48 threePinnedCalls))
    (finalRets (session trimDeps 4 16 48 threePinnedCalls)) rfl (by decide) (by decide)
    Env.good).1⟩

/-- C12 at the scenario "fits in memory": three pages under a budget of three
are released and fetched in reverse order; nothing is flushed and the slabs
hold the bytes written. -/
theorem no_flush_within_budget_witness :
    (finalBuf (runCalls trimDeps threeFilledBuf releaseAndFetchCalls)).statis.flushPages = 0 ∧
    (finalBuf (runCalls trimDeps threeFilledBuf releaseAndFetchCalls)).file = none ∧
    (finalBuf (runCalls trimDeps threeFilledBuf releaseAndFetchCalls)).mem =
      [⟨some 0, fill 161⟩, ⟨some 1, fill 162⟩, ⟨some 2, fill 163⟩] ∧
    finalRets (runCalls trimDeps threeFilledBuf releaseAndFetchCalls) =
      [.done, .done, .done, .page 2, .page 1, .page 0] :=
  ⟨(no_flush_within_budget trimDeps 4 16 48 withinBudgetCalls releaseAndFetchCalls
      threeFilledBuf (finalBuf (runCalls trimDeps threeFilledBuf releaseAndFetchCalls)) _
      (finalRets (runCalls trimDeps threeFilledBuf releaseAndFetchCalls))
      threeFilledBuf_reached (by decide) (by decide) rfl).2.1.1,
   (no_flush_within_budget trimDeps 4 16 48 withinBudgetCalls releaseAndFetchCalls
      threeFilledBuf (finalBuf (runCalls trimDeps threeFilledBuf releaseAndFetchCalls)) _
      (finalRets (runCalls trimDeps threeFilledBuf releaseAndFetchCalls))
      threeFilledBuf_reached (by decide) (by decide) rfl).2.1.2.1,
   (no_flush_within_budget trimDeps 4 16 48 withinBudgetCalls releaseAndFetchCalls
      threeFilledBuf (finalBuf (runCalls trimDeps threeFilledBuf releaseAndFetchCalls)) _
      (finalRets (runCalls trimDeps threeFilledBuf releaseAndFetchCalls))
      threeFilledBuf_reached (by decide) (by decide) rfl).2.2.2.2,
   by decide⟩

/-- C13 at the scenario "eviction and reload" with `comp` cleared: the fourth
`getNewDataBuf` evicts page 0, the oldest of three released pages. -/
theorem eviction_flushes_lru_oldest_witness :
    getNewDataBuf trimDeps Env.good threeReleasedPlainBuf 0 =
      .ok (finalBuf (runCalls trimDeps threeReleasedPlainBuf [.newDataBuf Env.good 0]), 3, 0) ∧
    (finalBuf (runCalls trimDeps threeReleasedPlainBuf [.newDataBuf Env.good 0])).statis.flushPages
      = threeReleasedPlainBuf.statis.flushPages + 1 ∧
    (finalBuf (runCalls trimDeps threeReleasedPlainBuf [.newDataBuf Env.good 0])).statis.flushBytes
      = 16 := by
  have h := eviction_flushes_lru_oldest trimDeps Env.good threeReleasedPlainBuf
    (finalBuf (runCalls trimDeps threeReleasedPlainBuf [.newDataBuf Env.good 0])) 0 3 0
    [⟨2, 2⟩, ⟨1, 1⟩] ⟨0, 0⟩ (by decide) rfl (by decide) (by decide) (Or.inr rfl) rfl
  obtain ⟨p, slab, size, t, offset, _, _, _, _, hsz, _, _, _, hfp, hfb⟩ := h
  have hsize : size = 16 := hsz rfl
  subst hsize
  exact ⟨rfl, hfp, hfb⟩

/-- C15 at `slotBuf`: page 0 with the slot `{offset 0, length 16}` is flushed
with 1 byte. -/
theorem flush_into_slot_sets_length_witness :
    ∃ b', doFlushPageToDisk trimDeps slotBuf 0 = .ok (b', 1) ∧
      b'.pages[0]? = some ⟨some 3, 0, ⟨0, 1⟩, none, false⟩ ∧
      b'.file = some (fileWrite (fill 161) 0 [5]) ∧
      b'.nextPos = slotBuf.nextPos ∧ b'.pFree = slotBuf.pFree ∧
      b'.statis.flushBytes = slotBuf.statis.flushBytes + 1 :=
  flush_into_slot_sets_length trimDeps slotBuf 0 ⟨some 3, 0, ⟨0, 16⟩, some 1, false⟩ 1
    ⟨some 0, sparse 5⟩ (fill 161) 1 (sparse 5) rfl rfl rfl rfl rfl rfl (by decide) (by decide)

/-- C17 at concrete buffers: a release of the released page 0 of
`twoReleasedBuf`, by page and by payload pointer, and a second release after a
release of page 0 of `twoPinnedBuf`. -/
theorem release_of_unpinned_page_is_rejected_witness :
    releaseResBufPageInfo twoReleasedBuf 0 = .error .assertRelease ∧
    releaseResBufPage twoReleasedBuf 0 = .error .assertRelease ∧
    releaseResBufPage (finalBuf (runCalls trimDeps twoPinnedBuf [.release 0])) 0
      = .error .assertRelease :=
  ⟨((release_of_unpinned_page_is_rejected twoReleasedBuf 0).1
      ⟨some 0, 0, ⟨-1, -1⟩, some 0, false⟩ rfl rfl).1,
   ((release_of_unpinned_page_is_rejected twoReleasedBuf 0).1
      ⟨some 0, 0, ⟨-1, -1⟩, some 0, false⟩ rfl rfl).2 0 ⟨some 0, fill 161⟩ rfl rfl,
   (release_of_unpinned_page_is_rejected twoPinnedBuf 0).2.2 0
      (finalBuf (runCalls trimDeps twoPinnedBuf [.release 0])) rfl⟩

/-- C19 at a concrete buffer: page 0 released, page 1 pinned, budget two, and
the scratch file cannot be created. -/
theorem victim_of_failed_flush_stays_resident_unpinned_witness :
    evicOneDataPage trimDeps ⟨false, none⟩ beforeFopenFailureBuf = .ok (failedFlushBuf, none) ∧
    getEldestUnrefedPage beforeFopenFailureBuf = .ok (some ⟨0, 0⟩) ∧
    ∃ p q, beforeFopenFailureBuf.pages[0]? = some p ∧ failedFlushBuf.pages[0]? = some q ∧
      p.used = false ∧ q.used = false ∧ q.pData = p.pData ∧ q.pData ≠ none :=
  ⟨rfl, rfl, (victim_of_failed_flush_stays_resident_unpinned trimDeps 4 16 32
    beforeFopenFailureCalls beforeFopenFailureBuf [.newPage 0 0, .done, .newPage 1 1]
    beforeFopenFailureBuf_reached ⟨false, none⟩ failedFlushBuf ⟨0, 0⟩ rfl rfl).2⟩


/-! ## Rows per page and the initial budget -/

theorem doFlushPageToDisk_rows {d : Deps} {b b' : SDiskbasedResultBuf} {pg s : Nat}
    (h : doFlushPageToDisk d b pg = .ok (b', s)) :
    b'.numOfRowsPerPage = b.numOfRowsPerPage := by
  unfold doFlushPageToDisk at h
  split at h
  · simp at h
  · split at h
    · simp at h
    · simp at h
    · split at h
      · simp at h
      · simp at h
      · split at h
        · simp at h
        · simp only [Except.ok.injEq, Prod.mk.injEq] at h
          obtain ⟨hb, _⟩ := h
          subst hb
          rfl

theorem evicOneDataPage_rows {d : Deps} {env : Env} {b b' : SDiskbasedResultBuf}
    {r : Option Nat} (h : evicOneDataPage d env b = .ok (b', r)) :
    b'.numOfRowsPerPage = b.numOfRowsPerPage := by
  cases r with
  | none =>
    rcases evicOneDataPage_ok h with ⟨_, _, hb⟩ | ⟨n, _, _, hel, _⟩
    · subst hb
      rfl
    · obtain ⟨p, _, _, _, hb⟩ := evicOneDataPage_flush_failed h hel
      subst hb
      rfl
  | some s =>
    unfold evicOneDataPage at h
    split at h
    · simp at h
    · simp at h
    · split at h
      · simp at h
      · split at h
        · simp at h
        · obtain ⟨_, _, f0, _, hfl⟩ := flushPageToDisk_full h
          have h1 := doFlushPageToDisk_rows hfl
          exact h1

theorem acquired_rows {d : Deps} {env : Env} {b b1 : SDiskbasedResultBuf}
    {avail : Option Nat} (h : Acquired d env b b1 avail) :
    b1.numOfRowsPerPage = b.numOfRowsPerPage := by
  rcases h with ⟨_, hb, _⟩ | ⟨_, hev⟩
  · subst hb
    rfl
  · have h1 := evicOneDataPage_rows hev
    exact h1

theorem loadPageFromDisk_rows {d : Deps} {env : Env} {b b' : SDiskbasedResultBuf} {pg : Nat}
    {r : Bool} (h : loadPageFromDisk d env b pg = .ok (b', r)) :
    b'.numOfRowsPerPage = b.numOfRowsPerPage := by
  unfold loadPageFromDisk at h
  split at h
  · simp at h
  · split at h
    · simp at h
    · simp at h
    · split at h
      · simp at h
      · simp only at h
        split at h
        · simp only [Except.ok.injEq, Prod.mk.injEq] at h
          obtain ⟨hb, _⟩ := h
          subst hb
          rfl
        · split at h
          · simp at h
          · simp only [Except.ok.injEq, Prod.mk.injEq] at h
            obtain ⟨hb, _⟩ := h
            subst hb
            rfl

theorem exec_rows {d : Deps} {b b' : SDiskbasedResultBuf} {c : Call} {r : Ret}
    (h : exec d b c = .ok (b', r)) : b'.numOfRowsPerPage = b.numOfRowsPerPage := by
  cases c with
  | newDataBuf env groupId =>
    simp only [exec] at h
    split at h
    · simp at h
    · rename_i b2 pageId page hn
      simp only [Except.ok.injEq, Prod.mk.injEq] at h
      obtain ⟨hb, _⟩ := h
      subst hb
      unfold getNewDataBuf at hn
      simp only at hn
      split at hn
      · simp at hn
      · rename_i b1 avail hev
        split at hn
        · simp at hn
        · simp only [Except.ok.injEq, Prod.mk.injEq] at hn
          obtain ⟨hb, _, _⟩ := hn
          subst hb
          have h1 : b1.numOfRowsPerPage = b.numOfRowsPerPage := acquired_rows (acquired_of_eq hev)
          rw [← h1]
          cases avail <;> simp [attachSlab, lruListPushFront, registerPage]
  | resBufPage env id =>
    simp only [exec] at h
    split at h
    · simp at h
    · rename_i b2 page hn
      simp only [Except.ok.injEq, Prod.mk.injEq] at h
      obtain ⟨hb, _⟩ := h
      subst hb
      obtain ⟨pi, p, _, hpi, hp, _⟩ := getResBufPage_ok hn
      cases hd : p.pData with
      | some s =>
        obtain ⟨_, hb2⟩ := getResBufPage_resident hn hpi hp hd
        rw [hb2]
        rfl
      | none =>
        obtain ⟨b1, avail, r, hacq, hload, _⟩ := getResBufPage_reload hn hpi hp hd
        rw [loadPageFromDisk_rows hload, ← acquired_rows hacq]
        cases avail <;> simp [attachSlab, lruListPushFront]
  | release page =>
    simp only [exec] at h
    split at h
    · simp at h
    · rename_i b2 hn
      simp only [Except.ok.injEq, Prod.mk.injEq] at h
      obtain ⟨hb, _⟩ := h
      subst hb
      obtain ⟨slab, pi, p, _, _, _, _, _, hb2⟩ := releaseResBufPage_ok hn
      rw [hb2]
  | store page bytes =>
    simp only [exec] at h
    split at h
    · simp at h
    · rename_i b2 hn
      simp only [Except.ok.injEq, Prod.mk.injEq] at h
      obtain ⟨hb, _⟩ := h
      subst hb
      obtain ⟨slab, _, hb2⟩ := storePayload_ok hn
      rw [hb2]

/-- **C23.**  In every buffer that a session reaches, with a page size that is
an `int32_t` and at least `sizeof(tFilePage)`, `getNumOfRowsPerPage` returns
`(pagesize - sizeof(tFilePage)) / rowSize` (integer division, `rowSize > 0`):
the constructor computes it and no call changes it. -/
theorem rows_per_page_fixed_at_creation (d : Deps) (rowSize pagesize inMemBufSize : Nat)
    (cs : List Call) (b : SDiskbasedResultBuf) (rs : List Ret)
    (h : session d rowSize pagesize inMemBufSize cs = .ok (b, rs))
    (hsz : d.sizeofFilePage ≤ pagesize) (hfit : pagesize < 2147483648) :
    0 < rowSize ∧
    getNumOfRowsPerPage b = (pagesize - d.sizeofFilePage) / rowSize ∧
    (pagesize - d.sizeofFilePage) / rowSize * rowSize ≤ pagesize - d.sizeofFilePage ∧
    pagesize - d.sizeofFilePage < ((pagesize - d.sizeofFilePage) / rowSize + 1) * rowSize := by
  unfold session at h
  split at h
  · simp at h
  · rename_i b0 hb0
    have hkeep : b.numOfRowsPerPage = b0.numOfRowsPerPage :=
      runCalls_induct (fun x => x.numOfRowsPerPage = b0.numOfRowsPerPage) (fun _ => True)
        (fun _ _ _ _ _ hP hs => (exec_rows hs).trans hP) (fun _ _ => trivial) rfl h
    unfold createDiskbasedResultBuffer at hb0
    split at hb0
    · simp at hb0
    · split at hb0
      · simp at hb0
      · split at hb0
        · simp at hb0
        · rename_i hrow
          simp only [Except.ok.injEq] at hb0
          have hpos : 0 < rowSize := Nat.pos_of_ne_zero hrow
          have h0 : b0.numOfRowsPerPage = (pagesize - d.sizeofFilePage) / rowSize := by
            rw [← hb0]
            simp only
            have : (pagesize + 18446744073709551616 - d.sizeofFilePage) % 18446744073709551616
                = pagesize - d.sizeofFilePage := by omega
            rw [this]
          refine ⟨hpos, ?_, Nat.div_mul_le_self _ _, ?_⟩
          · unfold getNumOfRowsPerPage
            rw [hkeep, h0]
          · exact (Nat.div_lt_iff_lt_mul hpos).1 (Nat.lt_succ_self _)

/-- **C24.**  For a positive page size `createDiskbasedResultBuffer` either
faults or returns a buffer with `inMemPages = inMemBufSize / pagesize` (integer
division), and then `inMemBufSize >= 2 * pagesize` and `inMemPages >= 2`; it
returns one whenever `inMemBufSize >= 2 * pagesize` (and `rowSize > 0`); and with
`inMemBufSize < 2 * pagesize`, the product being an `int32_t`, it fails at its
assertion. -/
theorem inMemPages_at_creation (d : Deps) (rowSize pagesize inMemBufSize : Nat)
    (hpos : 0 < pagesize) :
    (∀ b, createDiskbasedResultBuffer d rowSize pagesize inMemBufSize = .ok b →
      b.inMemPages = inMemBufSize / pagesize ∧ pagesize * 2 ≤ inMemBufSize ∧
      2 ≤ b.inMemPages ∧ b.inMemPages * pagesize ≤ inMemBufSize ∧
      inMemBufSize < (b.inMemPages + 1) * pagesize) ∧
    (pagesize * 2 ≤ inMemBufSize → 0 < rowSize →
      ∃ b, createDiskbasedResultBuffer d rowSize pagesize inMemBufSize = .ok b ∧
        b.inMemPages = inMemBufSize / pagesize ∧ 2 ≤ b.inMemPages) ∧
    (pagesize * 2 < 2147483648 → inMemBufSize < pagesize * 2 →
      wrapInt32 ((pagesize : Int) * 2) = (pagesize : Int) * 2 ∧
      createDiskbasedResultBuffer d rowSize pagesize inMemBufSize = .error .assertCreate) := by
  have key : ∀ b, createDiskbasedResultBuffer d rowSize pagesize inMemBufSize = .ok b →
      b.inMemPages = inMemBufSize / pagesize ∧ pagesize * 2 ≤ inMemBufSize ∧
      2 ≤ b.inMemPages ∧ b.inMemPages * pagesize ≤ inMemBufSize ∧
      inMemBufSize < (b.inMemPages + 1) * pagesize := by
    intro b hb
    obtain ⟨_, hsz, _, _, hM, _⟩ := createDiskbasedResultBuffer_ok hb
    have h2 : 2 ≤ inMemBufSize / pagesize := by
      rw [Nat.le_div_iff_mul_le hpos]
      omega
    rw [hM]
    refine ⟨rfl, hsz, h2, Nat.div_mul_le_self _ _, ?_⟩
    have := Nat.lt_succ_self (inMemBufSize / pagesize)
    exact (Nat.div_lt_iff_lt_mul hpos).1 this
  refine ⟨key, ?_, ?_⟩
  · intro hsz hrow
    obtain ⟨b, hb⟩ := createDiskbasedResultBuffer_total d (Nat.pos_iff_ne_zero.1 hrow)
      (Nat.pos_iff_ne_zero.1 hpos) hsz
    obtain ⟨h1, _, h3, _⟩ := key b hb
    exact ⟨b, hb, h1, h3⟩
  · intro hfit hlt
    refine ⟨?_, ?_⟩
    · unfold wrapInt32
      omega
    · unfold createDiskbasedResultBuffer
      rw [if_neg (Nat.pos_iff_ne_zero.1 hpos), if_pos (by omega)]


/-! ## The page lists of the groups -/

theorem exec_groupSet_kept {d : Deps} {b b' : SDiskbasedResultBuf} {c : Call} {r : Ret}
    (hc : c.isNew = false) (h : exec d b c = .ok (b', r)) : b'.groupSet = b.groupSet := by
  cases c with
  | newDataBuf env groupId => simp [Call.isNew] at hc
  | resBufPage env id =>
    simp only [exec] at h
    split at h
    · simp at h
    · rename_i b2 page hn
      simp only [Except.ok.injEq, Prod.mk.injEq] at h
      obtain ⟨hb, _⟩ := h
      subst hb
      obtain ⟨pi, p, _, _, _, hcase⟩ := getResBufPage_ok hn
      rcases hcase with ⟨_, _, _, hsame, _⟩ | ⟨_, _, b1, avail, hacq, _, _, _, _, _, hgs, _⟩
      · exact hsame.2.2.2.2.1
      · rw [hgs]
        exact (acquired_sameTables hacq).2.2.2.2.1
  | release page =>
    simp only [exec] at h
    split at h
    · simp at h
    · rename_i b2 hn
      simp only [Except.ok.injEq, Prod.mk.injEq] at h
      obtain ⟨hb, _⟩ := h
      subst hb
      obtain ⟨slab, pi, p, _, _, _, _, _, hb2⟩ := releaseResBufPage_ok hn
      rw [hb2]
  | store page bytes =>
    simp only [exec] at h
    split at h
    · simp at h
    · rename_i b2 hn
      simp only [Except.ok.injEq, Prod.mk.injEq] at h
      obtain ⟨hb, _⟩ := h
      subst hb
      obtain ⟨slab, _, hb2⟩ := storePayload_ok hn
      rw [hb2]

/-- **C25.**  A call of `getResBufPage` or `releaseResBufPage` (or a write to a
payload), with whatever eviction and reload it runs, leaves the page list of
every group as it is.  A call of `getNewDataBuf` with group `g0`, with whatever
eviction it runs, appends one entry, the new page object, to the list of `g0`
and leaves the list of every other group as it is. -/
theorem group_lists_change_only_by_append (d : Deps) (b b' : SDiskbasedResultBuf)
    (c : Call) (r : Ret) (h : exec d b c = .ok (b', r)) :
    (c.isNew = false → ∀ g, getDataBufPagesIdList b' g = getDataBufPagesIdList b g) ∧
    (∀ env g0, c = .newDataBuf env g0 →
      getDataBufPagesIdList b' g0 = getDataBufPagesIdList b g0 ++ [b.pages.length] ∧
      (∃ pageId page p, r = .newPage pageId page ∧ b'.pages[b.pages.length]? = some p ∧
        p.pageId = pageId) ∧
      ∀ g, g ≠ g0 → getDataBufPagesIdList b' g = getDataBufPagesIdList b g) := by
  refine ⟨?_, ?_⟩
  · intro hc g
    exact getDataBufPagesIdList_congr b b' g (exec_groupSet_kept hc h)
  · intro env g0 hc
    subst hc
    simp only [exec] at h
    split at h
    · simp at h
    · rename_i b2 pageId page hn
      simp only [Except.ok.injEq, Prod.mk.injEq] at h
      obtain ⟨hb, hr⟩ := h
      subst hb
      obtain ⟨b1, avail, hacq, _, hpages, _, _, _, _, hgs, _⟩ := getNewDataBuf_ok hn
      obtain ⟨_, _, _, _, t5, _, _, t8⟩ := acquired_sameTables hacq
      have h1 : ∀ g', getDataBufPagesIdList b1 g' = getDataBufPagesIdList b g' :=
        fun g' => getDataBufPagesIdList_congr b b1 g' t5
      refine ⟨?_, ?_, ?_⟩
      · rw [getDataBufPagesIdList_put b1 b2 g0 g0 _ hgs, if_pos rfl, h1, t8]
      · refine ⟨pageId, page,
          ⟨some b1.nodeSeq, pageId, PAGE_INFO_INITIALIZER, some page, true⟩, hr.symm, ?_, rfl⟩
        rw [hpages, ← t8, List.getElem?_concat_length]
      · intro g hg
        rw [getDataBufPagesIdList_put b1 b2 g0 g _ hgs, if_neg (fun he => hg he.symm), h1]

/-! ## The last page of a group -/

theorem idsOfGroup_sorted (gs : List Int) (g : Int) :
    (idsOfGroup gs g).Pairwise (fun a c => a < c) := by
  unfold idsOfGroup
  exact (List.pairwise_lt_range gs.length).sublist (List.filter_sublist _)

theorem mem_idsOfGroup {gs : List Int} {g : Int} {i : Nat} :
    i ∈ idsOfGroup gs g ↔ gs[i]? = some g := by
  unfold idsOfGroup
  rw [List.mem_filter, List.mem_range]
  constructor
  · intro h
    simpa using h.2
  · intro h
    exact ⟨(List.getElem?_eq_some.1 h).1, by simpa using h⟩

theorem getLastPageInfo_concat (l : List Nat) (m : Nat)
    (hlen : l.length + 1 < 18446744073709551616) : getLastPageInfo (l ++ [m]) = some m := by
  unfold getLastPageInfo
  have : ((l ++ [m]).length + 18446744073709551616 - 1) % 18446744073709551616 = l.length := by
    simp only [List.length_append, List.length_singleton]
    omega
  rw [this, List.getElem?_concat_length]

/-- **C26.**  In a buffer reached by a session with at most 2^31 `getNewDataBuf`
calls, for every group `g` in which a page was created,
`getLastPageInfo(getDataBufPagesIdList(g))` is a page of the list of `g`; its
page id `pi` is the number of the last `getNewDataBuf` call made with `g`
(counting from 0), so it is the page most recently created in `g`, and no page
of the list has a larger id. -/
theorem last_page_of_group_is_newest (d : Deps) (rowSize pagesize inMemBufSize : Nat)
    (cs : List Call) (b : SDiskbasedResultBuf) (rs : List Ret)
    (h : session d rowSize pagesize inMemBufSize cs = .ok (b, rs))
    (hk : (cs.filter Call.isNew).length ≤ 2147483648) (g : Int) (hg : g ∈ groupsOf cs) :
    ∃ (pi : Nat) (p : SPageInfo),
      getLastPageInfo (getDataBufPagesIdList b g) = some pi ∧
      pi ∈ getDataBufPagesIdList b g ∧ b.pages[pi]? = some p ∧ p.pageId = (pi : Int) ∧
      (groupsOf cs)[pi]? = some g ∧ (∀ j, pi < j → (groupsOf cs)[j]? ≠ some g) ∧
      (∀ pj ∈ getDataBufPagesIdList b g, ∀ q, b.pages[pj]? = some q → q.pageId ≤ p.pageId) := by
  obtain ⟨hlen, _, hid, hgrp⟩ := session_tableInv h
  have hglen := groupsOf_length cs
  obtain ⟨i0, hi0⟩ := List.mem_iff_getElem?.1 hg
  have hne : idsOfGroup (groupsOf cs) g ≠ [] := by
    intro he
    have : i0 ∈ idsOfGroup (groupsOf cs) g := mem_idsOfGroup.2 hi0
    rw [he] at this
    simp at this
  obtain ⟨l, m, hlm⟩ : ∃ l m, idsOfGroup (groupsOf cs) g = l ++ [m] :=
    ⟨_, _, (List.dropLast_append_getLast hne).symm⟩
  have hsorted := idsOfGroup_sorted (groupsOf cs) g
  rw [hlm] at hsorted
  have hmax : ∀ a ∈ l, a < m := by
    intro a ha
    exact (List.pairwise_append.1 hsorted).2.2 a ha m (by simp)
  have hm_mem : m ∈ idsOfGroup (groupsOf cs) g := by rw [hlm]; simp
  have hm_g : (groupsOf cs)[m]? = some g := mem_idsOfGroup.1 hm_mem
  have hm_lt : m < (groupsOf cs).length := (List.getElem?_eq_some.1 hm_g).1
  have hidlt : ∀ a ∈ idsOfGroup (groupsOf cs) g, a ≤ m := by
    intro a ha
    rw [hlm] at ha
    rcases List.mem_append.1 ha with h1 | h1
    · exact Nat.le_of_lt (hmax a h1)
    · simp only [List.mem_singleton] at h1
      omega
  have hpageId : ∀ (j : Nat) (q : SPageInfo), b.pages[j]? = some q → q.pageId = (j : Int) := by
    intro j q hq
    have hj : j < b.pages.length := (List.getElem?_eq_some.1 hq).1
    rw [hid j q hq, wrapInt32_of_lt j (by omega)]
  obtain ⟨p, hp⟩ : ∃ p, b.pages[m]? = some p :=
    ⟨_, List.getElem?_eq_getElem (by omega)⟩
  have hllen : l.length + 1 < 18446744073709551616 := by
    have h1 : (idsOfGroup (groupsOf cs) g).length ≤ (groupsOf cs).length := by
      unfold idsOfGroup
      exact (List.length_filter_le _ _).trans (by simp)
    rw [hlm] at h1
    simp only [List.length_append, List.length_singleton] at h1
    omega
  refine ⟨m, p, ?_, ?_, hp, hpageId m p hp, hm_g, ?_, ?_⟩
  · rw [hgrp g, hlm]
    exact getLastPageInfo_concat l m hllen
  · rw [hgrp g]
    exact hm_mem
  · intro j hj hjg
    have := hidlt j (mem_idsOfGroup.2 hjg)
    omega
  · intro pj hpj q hq
    rw [hgrp g] at hpj
    rw [hpageId pj q hq, hpageId m p hp]
    exact Int.ofNat_le.2 (hidlt pj hpj)


/-! ## Pinned pages and the LRU list -/

theorem linked_mono {l l' : List SListNode} {i : Nat} {p : SPageInfo}
    (h : Linked l i p) (hsub : ∀ n ∈ l, n.data = i → p.pn = some n.id → n ∈ l') :
    Linked l' i p := by
  obtain ⟨hd, n, hn, hni, hpn⟩ := h
  exact ⟨hd, n, hsub n hn hni hpn, hni, hpn⟩

theorem linked_congr {l : List SListNode} {i : Nat} {p q : SPageInfo}
    (h : Linked l i p) (hd : q.pData = p.pData) (hn : q.pn = p.pn) : Linked l i q := by
  obtain ⟨h1, n, h2, h3, h4⟩ := h
  exact ⟨by rw [hd]; exact h1, n, h2, h3, by rw [hn]; exact h4⟩

/-- A page other than the one whose node is removed keeps its node. -/
theorem linked_popNode {pages : List SPageInfo} {k : Nat} {l : List SListNode}
    {i v : Nat} {p pv : SPageInfo} {nid : Nat} (hL : PnLinks pages k)
    (hp : pages[i]? = some p) (hv : pages[v]? = some pv) (hvn : pv.pn = some nid)
    (hne : i ≠ v) (h : Linked l i p) : Linked (tdListPopNode l nid) i p := by
  apply linked_mono h
  intro n hn _ hpn
  unfold tdListPopNode
  rw [List.mem_filter]
  refine ⟨hn, ?_⟩
  simp only [bne_iff_ne, ne_eq]
  intro he
  rw [he] at hpn
  exact hne (hL.1 i v p pv nid hp hv hpn hvn)

/-- Moving the node of a page to the front keeps every page's node in the list. -/
theorem linked_moveToFront {pages : List SPageInfo} {k : Nat} {l : List SListNode}
    {i : Nat} {p pv : SPageInfo} {node : SListNode} (hL : PnLinks pages k)
    (hp : pages[i]? = some p) (hv : pages[node.data]? = some pv)
    (hvn : pv.pn = some node.id) (h : Linked l i p) :
    Linked (lruListMoveToFront l node) i p := by
  apply linked_mono h
  intro n hn hni hpn
  unfold lruListMoveToFront tdListPopNode
  by_cases he : n.id = node.id
  · have hi : i = node.data := by
      rw [he] at hpn
      exact hL.1 i node.data p pv node.id hp hv hpn hvn
    have hnn : n = node := by
      cases n
      cases node
      simp only at he hni hi
      simp only [SListNode.mk.injEq]
      exact ⟨he, by omega⟩
    rw [hnn]
    exact List.mem_cons_self _ _
  · apply List.mem_cons_of_mem
    rw [List.mem_filter]
    exact ⟨hn, by simpa using he⟩

theorem acquired_pinned {d : Deps} {env : Env} {b b1 : SDiskbasedResultBuf}
    {avail : Option Nat} (hL : PnLinks b.pages b.nodeSeq)
    (hP : ∀ (i : Nat) (p : SPageInfo), b.pages[i]? = some p → p.used = true →
      Linked b.lruList i p)
    (h : Acquired d env b b1 avail) :
    ∀ (i : Nat) (p : SPageInfo), b1.pages[i]? = some p → p.used = true →
      Linked b1.lruList i p := by
  rcases h with ⟨_, hb, _⟩ | ⟨_, hev⟩
  · subst hb
    exact hP
  · rcases evicOneDataPage_ok hev with ⟨_, _, hb⟩ |
      ⟨n, p0, q, _, hp0, hpn0, _, hlru, hpages, _, hqu, _⟩
    · subst hb
      exact hP
    · intro i p hp hu
      have hp0' : b.pages[n.data]? = some p0 := hp0
      have hlt : n.data < b.pages.length := (List.getElem?_eq_some.1 hp0').1
      by_cases hi : n.data = i
      · subst hi
        rw [hpages] at hp
        have hset : (b.pages.set n.data q)[n.data]? = some q := getElem?_set_at _ _ _ hlt
        have hp2 : (b.pages.set n.data q)[n.data]? = some p := hp
        rw [hset] at hp2
        simp only [Option.some.injEq] at hp2
        subst hp2
        rw [hqu] at hu
        simp at hu
      · rw [hpages] at hp
        have hp2 : (b.pages.set n.data q)[i]? = some p := hp
        rw [getElem?_set_ne' _ _ _ _ hi] at hp2
        rw [hlru]
        exact linked_popNode hL hp2 hp0' hpn0 (fun he => hi he.symm) (hP i p hp2 hu)

/-- In the in-memory branch of `getResBufPage` the LRU list is left alone only
if the buffer has a single page; otherwise the page's node moves to the front. -/
theorem getResBufPage_resident_lru {d : Deps} {env : Env} {b b' : SDiskbasedResultBuf}
    {id : Int} {page pi s : Nat} {p : SPageInfo}
    (h : getResBufPage d env b id = .ok (b', page))
    (hpi : taosHashGet b.all id = some pi) (hp : b.pages[pi]? = some p)
    (hs : p.pData = some s) :
    (b.numOfPages = 1 ∧ b'.lruList = b.lruList) ∨
    (∃ node, node ∈ b.lruList ∧ node.data = pi ∧ p.pn = some node.id ∧
      b'.lruList = lruListMoveToFront b.lruList node) := by
  unfold getResBufPage at h
  split at h
  · simp at h
  · simp only at h
    have hpi2 : taosHashGet { b with statis := { b.statis with
        getPages := b.statis.getPages + 1 } }.all id = some pi := hpi
    rw [hpi2] at h
    simp only at h
    have hp2 : ({ b with statis := { b.statis with
        getPages := b.statis.getPages + 1 } } : SDiskbasedResultBuf).pages[pi]? = some p := hp
    rw [hp2] at h
    simp only [hs] at h
    split at h
    · rename_i hone
      simp only [Except.ok.injEq, Prod.mk.injEq] at h
      obtain ⟨hb, _⟩ := h
      subst hb
      exact Or.inl ⟨hone, rfl⟩
    · split at h
      · simp at h
      · rename_i n hn
        split at h
        · simp at h
        · rename_i node hnode
          split at h
          · simp at h
          · rename_i hback
            simp only [not_not] at hback
            simp only [Except.ok.injEq, Prod.mk.injEq] at h
            obtain ⟨hb, _⟩ := h
            subst hb
            have hmem := List.mem_of_find?_eq_some hnode
            have hnid := List.find?_some hnode
            simp only [beq_iff_eq] at hnid
            exact Or.inr ⟨node, hmem, hback, by rw [hn, hnid], rfl⟩

theorem exec_numOfPages {d : Deps} {b b' : SDiskbasedResultBuf} {c : Call} {r : Ret}
    (h : exec d b c = .ok (b', r)) : b.numOfPages ≤ b'.numOfPages := by
  cases c with
  | newDataBuf env groupId =>
    simp only [exec] at h
    split at h
    · simp at h
    · rename_i b2 pageId page hn
      simp only [Except.ok.injEq, Prod.mk.injEq] at h
      obtain ⟨hb, _⟩ := h
      subst hb
      obtain ⟨b1, avail, hacq, _, _, _, _, hN, _⟩ := getNewDataBuf_ok hn
      rw [hN, (acquired_sameTables hacq).1]
      omega
  | resBufPage env id =>
    simp only [exec] at h
    split at h
    · simp at h
    · rename_i b2 page hn
      simp only [Except.ok.injEq, Prod.mk.injEq] at h
      obtain ⟨hb, _⟩ := h
      subst hb
      obtain ⟨pi, p, _, _, _, hcase⟩ := getResBufPage_ok hn
      rcases hcase with ⟨_, _, _, hsame, _⟩ | ⟨_, _, b1, avail, hacq, _, _, _, hN, _⟩
      · rw [hsame.1]
      · rw [hN, (acquired_sameTables hacq).1]
  | release page =>
    simp only [exec] at h
    split at h
    · simp at h
    · rename_i b2 hn
      simp only [Except.ok.injEq, Prod.mk.injEq] at h
      obtain ⟨hb, _⟩ := h
      subst hb
      obtain ⟨slab, pi, p, _, _, _, _, _, hb2⟩ := releaseResBufPage_ok hn
      rw [hb2]
  | store page bytes =>
    simp only [exec] at h
    split at h
    · simp at h
    · rename_i b2 hn
      simp only [Except.ok.injEq, Prod.mk.injEq] at h
      obtain ⟨hb, _⟩ := h
      subst hb
      obtain ⟨slab, _, hb2⟩ := storePayload_ok hn
      rw [hb2]

theorem exec_pinInv {d : Deps} {b b' : SDiskbasedResultBuf} {c : Call} {r : Ret}
    (hL : LinkInv b) (hP : PinInv b) (h : exec d b c = .ok (b', r)) : PinInv b' := by
  obtain ⟨hpin, hall, htwo⟩ := hP
  have hpn : PnLinks b.pages b.nodeSeq := hL.1
  have hN := exec_numOfPages h
  have hM := (exec_inMemPages h).1
  have key : (∀ (i : Nat) (p : SPageInfo), b'.pages[i]? = some p → p.used = true →
        Linked b'.lruList i p) ∧
      (b.numOfPages ≤ 1 → ∀ (i : Nat) (p : SPageInfo), b'.pages[i]? = some p →
        Linked b'.lruList i p) := by
    cases c with
    | newDataBuf env groupId =>
      simp only [exec] at h
      split at h
      · simp at h
      · rename_i b2 pageId page hn
        simp only [Except.ok.injEq, Prod.mk.injEq] at h
        obtain ⟨hb, _⟩ := h
        subst hb
        obtain ⟨b1, avail, hacq, _, hpages, hlist, _⟩ := getNewDataBuf_ok hn
        have hpin1 := acquired_pinned hpn hpin hacq
        have hstep : ∀ (i : Nat) (p : SPageInfo), b2.pages[i]? = some p →
            (∀ q, b1.pages[i]? = some q → Linked b1.lruList i q) → Linked b2.lruList i p := by
          intro i p hp hold
          rw [hpages] at hp
          rw [hlist]
          by_cases hi : i < b1.pages.length
          · rw [List.getElem?_append_left hi] at hp
            exact linked_mono (hold p hp) (fun n hn _ _ => List.mem_cons_of_mem _ hn)
          · have hlt := (List.getElem?_eq_some.1 hp).1
            simp only [List.length_append, List.length_singleton] at hlt
            have hi2 : i = b1.pages.length := by omega
            subst hi2
            rw [List.getElem?_concat_length] at hp
            simp only [Option.some.injEq] at hp
            subst hp
            exact ⟨by simp, ⟨b1.nodeSeq, b1.pages.length⟩, List.mem_cons_self _ _, rfl, rfl⟩
        refine ⟨?_, ?_⟩
        · intro i p hp hu
          apply hstep i p hp
          intro q hq
          have hq2 : q = p := by
            rw [hpages] at hp
            have hi : i < b1.pages.length := (List.getElem?_eq_some.1 hq).1
            rw [List.getElem?_append_left hi, hq] at hp
            exact Option.some.inj hp
          subst hq2
          exact hpin1 i q hq hu
        · intro hone i p hp
          apply hstep i p hp
          intro q hq
          obtain ⟨hb1, _⟩ := acquired_no_evict hacq (by omega)
          subst hb1
          exact hall hone i q hq
    | resBufPage env id =>
      simp only [exec] at h
      split at h
      · simp at h
      · rename_i b2 page hn
        simp only [Except.ok.injEq, Prod.mk.injEq] at h
        obtain ⟨hb, _⟩ := h
        subst hb
        obtain ⟨pi, p0, _, hpi, hp0, hcase⟩ := getResBufPage_ok hn
        have hlt0 : pi < b.pages.length := (List.getElem?_eq_some.1 hp0).1
        cases hd : p0.pData with
        | some s =>
          obtain ⟨_, hb2⟩ := getResBufPage_resident hn hpi hp0 hd
          have hpages : b2.pages = b.pages.set pi { p0 with used := true } := by rw [hb2]
          have hlru := getResBufPage_resident_lru hn hpi hp0 hd
          have htrans : ∀ (i : Nat) (q : SPageInfo), b.pages[i]? = some q →
              Linked b.lruList i q → Linked b2.lruList i q := by
            intro i q hq hlq
            rcases hlru with ⟨_, hl⟩ | ⟨node, hnode, hnd, hnp, hl⟩
            · rw [hl]
              exact hlq
            · rw [hl]
              have hv : b.pages[node.data]? = some p0 := by rw [hnd]; exact hp0
              exact linked_moveToFront hpn hq hv hnp hlq
          have hself : (b.numOfPages ≤ 1 → Linked b.lruList pi p0) →
              Linked b2.lruList pi { p0 with used := true } := by
            intro hpre
            rcases hlru with ⟨hone, hl⟩ | ⟨node, hnode, hnd, hnp, hl⟩
            · rw [hl]
              exact linked_congr (hpre (by omega)) rfl rfl
            · rw [hl]
              refine ⟨by simp [hd], node, ?_, hnd, hnp⟩
              unfold lruListMoveToFront
              exact List.mem_cons_self _ _
          have hget : ∀ (i : Nat) (p : SPageInfo), b2.pages[i]? = some p →
              (i = pi ∧ p = { p0 with used := true }) ∨ (i ≠ pi ∧ b.pages[i]? = some p) := by
            intro i p hp
            rw [hpages] at hp
            by_cases hi : pi = i
            · subst hi
              rw [getElem?_set_at _ _ _ hlt0] at hp
              exact Or.inl ⟨rfl, (Option.some.inj hp).symm⟩
            · rw [getElem?_set_ne' _ _ _ _ hi] at hp
              exact Or.inr ⟨fun he => hi he.symm, hp⟩
          refine ⟨?_, ?_⟩
          · intro i p hp hu
            rcases hget i p hp with ⟨hi, he⟩ | ⟨_, hq⟩
            · subst hi he
              exact hself (fun hone => hall hone i p0 hp0)
            · exact htrans i p hq (hpin i p hq hu)
          · intro hone i p hp
            rcases hget i p hp with ⟨hi, he⟩ | ⟨_, hq⟩
            · subst hi he
              exact hself (fun hone => hall hone i p0 hp0)
            · exact htrans i p hq (hall hone i p hq)
        | none =>
          rcases hcase with ⟨hd2, _⟩ | ⟨_, hpn0, b1, avail, hacq, hpages, hlist, _⟩
          · rw [hd] at hd2
            simp at hd2
          · have hpin1 := acquired_pinned hpn hpin hacq
            have hp1 : b1.pages[pi]? = some p0 := acquired_page_kept hacq hp0 hpn0
            have hlt1 : pi < b1.pages.length := (List.getElem?_eq_some.1 hp1).1
            refine ⟨?_, ?_⟩
            · intro i p hp hu
              rw [hpages] at hp
              rw [hlist]
              by_cases hi : pi = i
              · subst hi
                rw [getElem?_set_at _ _ _ hlt1] at hp
                simp only [Option.some.injEq] at hp
                subst hp
                exact ⟨by simp, ⟨b1.nodeSeq, pi⟩, List.mem_cons_self _ _, rfl, rfl⟩
              · rw [getElem?_set_ne' _ _ _ _ hi] at hp
                exact linked_mono (hpin1 i p hp hu) (fun n hn _ _ => List.mem_cons_of_mem _ hn)
            · intro hone i p _
              exact absurd hd (hall hone pi p0 hp0).1
    | release page =>
      simp only [exec] at h
      split at h
      · simp at h
      · rename_i b2 hn
        simp only [Except.ok.injEq, Prod.mk.injEq] at h
        obtain ⟨hb, _⟩ := h
        subst hb
        obtain ⟨slab, pi, p0, _, _, hp0, _, _, hb2⟩ := releaseResBufPage_ok hn
        have hlt0 : pi < b.pages.length := (List.getElem?_eq_some.1 hp0).1
        subst hb2
        have hget : ∀ (i : Nat) (p : SPageInfo),
            (b.pages.set pi { p0 with used := false })[i]? = some p →
            (i = pi ∧ p = { p0 with used := false }) ∨ (i ≠ pi ∧ b.pages[i]? = some p) := by
          intro i p hp
          by_cases hi : pi = i
          · subst hi
            rw [getElem?_set_at _ _ _ hlt0] at hp
            exact Or.inl ⟨rfl, (Option.some.inj hp).symm⟩
          · rw [getElem?_set_ne' _ _ _ _ hi] at hp
            exact Or.inr ⟨fun he => hi he.symm, hp⟩
        refine ⟨?_, ?_⟩
        · intro i p hp hu
          rcases hget i p hp with ⟨hi, he⟩ | ⟨_, hq⟩
          · subst he
            simp at hu
          · exact hpin i p hq hu
        · intro hone i p hp
          rcases hget i p hp with ⟨hi, he⟩ | ⟨_, hq⟩
          · subst hi he
            exact linked_congr (hall hone i p0 hp0) rfl rfl
          · exact hall hone i p hq
    | store page bytes =>
      simp only [exec] at h
      split at h
      · simp at h
      · rename_i b2 hn
        simp only [Except.ok.injEq, Prod.mk.injEq] at h
        obtain ⟨hb, _⟩ := h
        subst hb
        obtain ⟨slab, _, hb2⟩ := storePayload_ok hn
        subst hb2
        exact ⟨hpin, hall⟩
  exact ⟨key.1, fun hone => key.2 (by omega), by omega⟩

theorem session_pinInv {d : Deps} {rowSize pagesize inMemBufSize : Nat} {cs : List Call}
    {b : SDiskbasedResultBuf} {rs : List Ret}
    (h : session d rowSize pagesize inMemBufSize cs = .ok (b, rs)) : PinInv b := by
  have hboth : LinkInv b ∧ PinInv b := by
    unfold session at h
    split at h
    · simp at h
    · rename_i b0 hb0
      have hL0 : LinkInv b0 := by
        have hs : session d rowSize pagesize inMemBufSize [] = .ok (b0, []) := by
          unfold session
          rw [hb0]
          rfl
        exact session_linkInv hs
      have hP0 : PinInv b0 := by
        obtain ⟨_, _, htwo⟩ := create_budget hb0
        obtain ⟨_, _, hp, _⟩ := createDiskbasedResultBuffer_ok hb0
        refine ⟨?_, ?_, htwo⟩
        · intro i p hpi
          rw [hp] at hpi
          simp at hpi
        · intro _ i p hpi
          rw [hp] at hpi
          simp at hpi
      exact runCalls_induct (fun x => LinkInv x ∧ PinInv x) (fun _ => True)
        (fun _ _ _ _ _ hP hs => ⟨exec_linkInv hP.1 hs, exec_pinInv hP.1 hP.2 hs⟩)
        (fun _ _ => trivial) ⟨hL0, hP0⟩ h
  exact hboth.2

/-- **C27, as stated, fails.**  After two `getNewDataBuf` calls both pages are
pinned and memory-resident, and both have an LRU node: `pn` is set and the list
holds the two nodes. -/
theorem pinned_pages_have_lru_nodes :
    observe (session trimDeps 4 16 32 twoPinnedCalls)
      (fun b => (b.pages.map (fun p => (p.used, p.pData, p.pn)), b.lruList))
      = some ([(true, some 0, some 0), (true, some 1, some 1)], [⟨1, 1⟩, ⟨0, 0⟩]) := by
  decide

/-- **C27, amended.**  In every buffer that a session reaches, every pinned page
(`used == true`) is memory-resident (`pData != NULL`) and has an LRU node: `pn`
is not `NULL`, the node is in the LRU list and refers back to the page. -/
theorem pinned_page_is_resident_and_linked (d : Deps) (rowSize pagesize inMemBufSize : Nat)
    (cs : List Call) (b : SDiskbasedResultBuf) (rs : List Ret)
    (h : session d rowSize pagesize inMemBufSize cs = .ok (b, rs))
    (i : Nat) (p : SPageInfo) (hp : b.pages[i]? = some p) (hu : p.used = true) :
    p.pData ≠ none ∧ p.pn ≠ none ∧ ∃ n ∈ b.lruList, n.data = i ∧ p.pn = some n.id := by
  obtain ⟨hd, n, hn, hni, hpn⟩ := (session_pinInv h).1 i p hp hu
  exact ⟨hd, by rw [hpn]; simp, n, hn, hni, hpn⟩

/-- **C28, as stated, fails.**  After three `getNewDataBuf` calls under a budget
of three the LRU list holds the nodes of the pages 2, 1 and 0, and all three
pages are pinned. -/
theorem lru_list_holds_pinned_pages :
    observe (session trimDeps 4 16 48 threePinnedCalls)
      (fun b => (b.lruList.map SListNode.data, b.pages.map (fun p => (p.pData.isSome, p.used))))
      = some ([2, 1, 0], [(true, true), (true, true), (true, true)]) := by
  decide

/-- **C28, amended.**  In every buffer reached by a session in which the
creation of the scratch file does not fail, the LRU list contains exactly the
memory-resident pages, pinned or not: a page has a node in `lruList` if and only
if `pData != NULL`, and it has one node only. -/
theorem lru_list_holds_resident_pages (d : Deps) (rowSize pagesize inMemBufSize : Nat)
    (cs : List Call) (b : SDiskbasedResultBuf) (rs : List Ret)
    (h : session d rowSize pagesize inMemBufSize cs = .ok (b, rs))
    (hio : ∀ c ∈ cs, c.fopenOk = true) :
    (∀ (i : Nat) (p : SPageInfo), b.pages[i]? = some p →
      ((∃ n ∈ b.lruList, n.data = i) ↔ p.pData ≠ none)) ∧
    (∀ n ∈ b.lruList, ∃ p, b.pages[n.data]? = some p ∧ p.pn = some n.id) ∧
    (∀ n ∈ b.lruList, ∀ m ∈ b.lruList, n.data = m.data → n = m) := by
  obtain ⟨hS, hC, _⟩ := session_lruExact h hio
  refine ⟨?_, ?_, ?_⟩
  · intro i p hp
    constructor
    · rintro ⟨n, hn, hni⟩
      obtain ⟨q, hq, _, hqd⟩ := hS n hn
      rw [hni, hp] at hq
      simp only [Option.some.injEq] at hq
      subst hq
      exact hqd
    · intro hd
      exact hC i p hp hd
  · intro n hn
    obtain ⟨q, hq, hqn, _⟩ := hS n hn
    exact ⟨q, hq, hqn⟩
  · intro n hn m hm hnm
    obtain ⟨q, hq, hqn, _⟩ := hS n hn
    obtain ⟨q2, hq2, hqn2, _⟩ := hS m hm
    rw [hnm, hq2] at hq
    simp only [Option.some.injEq] at hq
    subst hq
    rw [hqn2] at hqn
    simp only [Option.some.injEq] at hqn
    cases n
    cases m
    simp only at hnm hqn
    simp only [SListNode.mk.injEq]
    exact ⟨hqn.symm, hnm⟩


/-! ## The assertions on the back links -/

theorem flushPageToDisk_fault_kind {d : Deps} {env : Env} {b : SDiskbasedResultBuf} {pg : Nat}
    {e : Fault} (h : flushPageToDisk d env b pg = .error e) :
    e = .assertFlushBudget ∨ e = .badPointer ∨ e = .assertFlushPage ∨ e = .bufferOverrun := by
  unfold flushPageToDisk at h
  split at h
  · simp only [Except.error.injEq] at h
    exact Or.inl h.symm
  · split at h
    · split at h
      · split at h
        · rename_i e2 hfl
          simp only [Except.error.injEq] at h
          subst h
          exact Or.inr (doFlushPageToDisk_fault_kind hfl)
        · simp at h
      · simp at h
    · split at h
      · rename_i e2 hfl
        simp only [Except.error.injEq] at h
        subst h
        exact Or.inr (doFlushPageToDisk_fault_kind hfl)
      · simp at h

/-- An eviction attempt never fails at `assert(d->pn == pn)`, and with sound
back links it fails at the assertion of `getEldestUnrefedPage` only on a
negative page id. -/
theorem evicOneDataPage_link_asserts {d : Deps} {env : Env} {b : SDiskbasedResultBuf}
    {e : Fault} (hS : LruSound b) (h : evicOneDataPage d env b = .error e) :
    e ≠ .assertEvictNode ∧ e ≠ .assertNodeBack ∧
    (e = .assertEldest → ∃ p ∈ b.pages, p.pageId < 0) := by
  unfold evicOneDataPage at h
  split at h
  · rename_i e2 hel
    simp only [Except.error.injEq] at h
    subst h
    rcases eldestFrom_fault hel with h1 | h1
    · subst h1
      exact ⟨by decide, by decide, fun hc => by simp at hc⟩
    · subst h1
      refine ⟨by decide, by decide, fun _ => ?_⟩
      obtain ⟨n, hn, p, hp, hbad⟩ := eldestFrom_assert hel
      obtain ⟨p1, hp1, hpn1, _⟩ := hS n (List.mem_reverse.1 hn)
      rw [hp1] at hp
      simp only [Option.some.injEq] at hp
      subst hp
      refine ⟨p1, List.mem_iff_getElem?.2 ⟨n.data, hp1⟩, ?_⟩
      by_contra hge
      exact hbad ⟨by omega, hpn1⟩
  · simp at h
  · rename_i n hel
    obtain ⟨_, p0, hp0, _, hpn0, _⟩ := getEldestUnrefedPage_some hel
    simp only [hp0] at h
    split at h
    · rename_i hbad
      exact absurd hpn0 hbad
    · rcases flushPageToDisk_fault_kind h with h1 | h1 | h1 | h1 <;>
        (subst h1; exact ⟨by decide, by decide, fun hc => by simp at hc⟩)

/-- With sound back links `getResBufPage` never fails at `assert(*pInfo == *pi)`;
a fault other than the two on the page id, a bad pointer and the assertion of
the not-in-memory branch comes from the eviction or from the reload. -/
theorem getResBufPage_link_asserts {d : Deps} {env : Env} {b : SDiskbasedResultBuf}
    {id : Int} {e : Fault} (hS : LruSound b) (hL : PnLinks b.pages b.nodeSeq)
    (h : getResBufPage d env b id = .error e) :
    e ≠ .assertEvictNode ∧ e ≠ .assertNodeBack ∧
    (e = .assertEldest → ∃ p ∈ b.pages, p.pageId < 0) := by
  have triv : ∀ e0 : Fault, e0 ≠ .assertEvictNode → e0 ≠ .assertNodeBack →
      e0 ≠ .assertEldest → e0 ≠ .assertEvictNode ∧ e0 ≠ .assertNodeBack ∧
        (e0 = .assertEldest → ∃ p ∈ b.pages, p.pageId < 0) :=
    fun e0 h1 h2 h3 => ⟨h1, h2, fun hc => absurd hc h3⟩
  unfold getResBufPage at h
  split at h
  · simp only [Except.error.injEq] at h
    subst h
    exact triv _ (by decide) (by decide) (by decide)
  · simp only at h
    split at h
    · simp only [Except.error.injEq] at h
      subst h
      exact triv _ (by decide) (by decide) (by decide)
    · rename_i pi hpi
      split at h
      · simp only [Except.error.injEq] at h
        subst h
        exact triv _ (by decide) (by decide) (by decide)
      · rename_i p hp
        have hp' : b.pages[pi]? = some p := hp
        split at h
        · rename_i s hs
          split at h
          · simp at h
          · split at h
            · simp only [Except.error.injEq] at h
              subst h
              exact triv _ (by decide) (by decide) (by decide)
            · rename_i n hn
              split at h
              · simp only [Except.error.injEq] at h
                subst h
                exact triv _ (by decide) (by decide) (by decide)
              · rename_i node hnode
                split at h
                · rename_i hback
                  exfalso
                  have hmem : node ∈ b.lruList := List.mem_of_find?_eq_some hnode
                  have hnid := List.find?_some hnode
                  simp only [beq_iff_eq] at hnid
                  obtain ⟨q, hq, hqn, _⟩ := hS node hmem
                  rw [hnid] at hqn
                  exact hback (hL.1 node.data pi q p n hq hp' hqn hn)
                · simp at h
        · split at h
          · simp only [Except.error.injEq] at h
            subst h
            exact triv _ (by decide) (by decide) (by decide)
          · split at h
            · rename_i e2 hev
              simp only [Except.error.injEq] at h
              subst h
              split at hev
              · have hS' : LruSound (counted b) := hS
                exact @evicOneDataPage_link_asserts d env (counted b) e2 hS' hev
              · simp at hev
            · split at h
              · rename_i e2 hl
                simp only [Except.error.injEq] at h
                subst h
                rcases loadPageFromDisk_fault hl with h1 | h1 <;>
                  (subst h1; exact triv _ (by decide) (by decide) (by decide))
              · simp at h

theorem exec_link_asserts {d : Deps} {b : SDiskbasedResultBuf} {c : Call} {e : Fault}
    (hS : LruSound b) (hL : PnLinks b.pages b.nodeSeq) (h : exec d b c = .error e) :
    e ≠ .assertEvictNode ∧ e ≠ .assertNodeBack ∧
    (e = .assertEldest → ∃ p ∈ b.pages, p.pageId < 0) := by
  have triv : ∀ e0 : Fault, e0 ≠ .assertEvictNode → e0 ≠ .assertNodeBack →
      e0 ≠ .assertEldest → e0 ≠ .assertEvictNode ∧ e0 ≠ .assertNodeBack ∧
        (e0 = .assertEldest → ∃ p ∈ b.pages, p.pageId < 0) :=
    fun e0 h1 h2 h3 => ⟨h1, h2, fun hc => absurd hc h3⟩
  cases c with
  | newDataBuf env groupId =>
    simp only [exec] at h
    split at h
    · rename_i e2 hn
      simp only [Except.error.injEq] at h
      subst h
      rcases getNewDataBuf_fault hn with h1 | h1
      · subst h1
        exact triv _ (by decide) (by decide) (by decide)
      · have hS' : LruSound (counted b) := hS
        exact @evicOneDataPage_link_asserts d env (counted b) e2 hS' h1
    · simp at h
  | resBufPage env id =>
    simp only [exec] at h
    split at h
    · rename_i e2 hn
      simp only [Except.error.injEq] at h
      subst h
      exact getResBufPage_link_asserts hS hL hn
    · simp at h
  | release page =>
    simp only [exec] at h
    split at h
    · rename_i e2 hn
      simp only [Except.error.injEq] at h
      subst h
      unfold releaseResBufPage at hn
      split at hn
      · simp only [Except.error.injEq] at hn
        subst hn
        exact triv _ (by decide) (by decide) (by decide)
      · split at hn
        · simp only [Except.error.injEq] at hn
          subst hn
          exact triv _ (by decide) (by decide) (by decide)
        · unfold releaseResBufPageInfo at hn
          split at hn
          · simp only [Except.error.injEq] at hn
            subst hn
            exact triv _ (by decide) (by decide) (by decide)
          · split at hn
            · simp only [Except.error.injEq] at hn
              subst hn
              exact triv _ (by decide) (by decide) (by decide)
            · simp at hn
    · simp at h
  | store page bytes =>
    simp only [exec] at h
    split at h
    · rename_i e2 hn
      simp only [Except.error.injEq] at h
      subst h
      unfold storePayload at hn
      split at hn
      · simp only [Except.error.injEq] at hn
        subst hn
        exact triv _ (by decide) (by decide) (by decide)
      · split at hn
        · simp at hn
        · simp only [Except.error.injEq] at hn
          subst hn
          exact triv _ (by decide) (by decide) (by decide)
    · simp at h

/-- **C29.**  In every buffer reached by a session in which the creation of
the scratch file does not fail, each unpinned memory-resident page has a node in
the LRU list whose data refers back to the page and to which the page's `pn`
points.  No call made on a buffer that a session reaches fails at
`assert(d->pn == pn)` of `evicOneDataPage` or at `assert(*pInfo == *pi)` of
`getResBufPage`.  The page of every node of the LRU list points back to the
node, which is the conjunct `pageInfo->pn == pn` of the assertion of
`getEldestUnrefedPage`; that assertion, whose other conjunct is `pageId >= 0`,
does not fail as long as at most 2^31 pages were created. -/
theorem back_links_hold (d : Deps) (rowSize pagesize inMemBufSize : Nat)
    (cs : List Call) (b : SDiskbasedResultBuf) (rs : List Ret)
    (h : session d rowSize pagesize inMemBufSize cs = .ok (b, rs)) :
    ((∀ c ∈ cs, c.fopenOk = true) →
      ∀ (i : Nat) (p : SPageInfo), b.pages[i]? = some p → p.pData ≠ none → p.used = false →
        ∃ n ∈ b.lruList, n.data = i ∧ p.pn = some n.id) ∧
    (∀ n ∈ b.lruList, ∃ p, b.pages[n.data]? = some p ∧ p.pn = some n.id) ∧
    (∀ (c : Call), exec d b c ≠ .error .assertEvictNode ∧
      exec d b c ≠ .error .assertNodeBack ∧
      ((cs.filter Call.isNew).length ≤ 2147483648 → exec d b c ≠ .error .assertEldest)) := by
  have hS := session_lruSound h
  have hL := (session_linkInv h).1
  refine ⟨?_, ?_, ?_⟩
  rotate_left
  · intro n hn
    obtain ⟨q, hq, hqn, _⟩ := hS n hn
    exact ⟨q, hq, hqn⟩
  rotate_left
  · intro hio i p hp hd _
    obtain ⟨_, hC, _⟩ := session_lruExact h hio
    obtain ⟨n, hn, hni⟩ := hC i p hp hd
    obtain ⟨q, hq, hqn, _⟩ := hS n hn
    rw [hni, hp] at hq
    simp only [Option.some.injEq] at hq
    subst hq
    exact ⟨n, hn, hni, hqn⟩
  · intro c
    refine ⟨?_, ?_, ?_⟩
    · intro he
      exact (exec_link_asserts hS hL he).1 rfl
    · intro he
      exact (exec_link_asserts hS hL he).2.1 rfl
    · intro hk he
      obtain ⟨p, hp, hneg⟩ := (exec_link_asserts hS hL he).2.2 rfl
      have := session_pageIds_nonneg h hk p hp
      omega


/-! ## Writes to the scratch file -/

theorem extentsOk_mono {infos : List SPageDiskInfo} {k k' : Int}
    (h : ExtentsOk infos k) (hk : k ≤ k') : ExtentsOk infos k' := by
  refine ⟨?_, h.2⟩
  intro x hx hne
  obtain ⟨a1, a2, a3⟩ := h.1 x hx hne
  exact ⟨a1, a2, by omega⟩

/-- **C21, the defect.**  In `shortReadCalls` the last call is `getResBufPage(0)`
for the evicted page 0, and `fread` delivers none of its 16 bytes.  The call
returns a payload pointer all the same (`.page 1`), as it does in `reloadCalls`
where the read succeeds; the payload behind it is what the slab held before, 8
zero bytes and 8 bytes of the page evicted from it, not the bytes of page 0. -/
theorem short_read_returns_payload :
    (finalRets (session trimDeps 4 16 48 shortReadCalls)).getLast? = some (.page 1) ∧
    observe (session trimDeps 4 16 48 shortReadCalls)
      (fun b => ((pageOfId b 0).map SPageInfo.pData, payloadAt b 1))
      = some (some (some 1), some (List.replicate 8 0 ++ List.replicate 8 162)) ∧
    (finalRets (session trimDeps 4 16 48 reloadCalls)).getLast? = some (.page 1) ∧
    observe (session trimDeps 4 16 48 reloadCalls)
      (fun b => ((pageOfId b 0).map SPageInfo.pData, payloadAt b 1))
      = some (some (some 1), some (fill 161)) :=
  ⟨by decide, by decide, by decide, by decide⟩

/-- **C22, the defect.**  With the codec `truncDeps`, whose decoder returns the
1 byte it is given, the reload of page 0 in `corruptDecodeCalls` decodes to a
length of 1, not the page size 16.  `getResBufPage(0)` returns the payload
pointer all the same (`.page 1`); the payload is the decoded byte followed by
what the slab held before, not the 16 bytes written to page 0. -/
theorem short_decode_returns_payload :
    (doDecompressData truncDeps true 16
      (161 :: (List.replicate 7 0 ++ List.replicate 8 162)) 1).toOption.map Prod.fst
      = some 1 ∧
    (finalRets (session truncDeps 4 16 48 corruptDecodeCalls)).getLast? = some (.page 1) ∧
    observe (session truncDeps 4 16 48 corruptDecodeCalls)
      (fun b => ((pageOfId b 0).map (fun p => (p.pData, p.info.length)), b.pageSize,
        payloadAt b 1))
      = some (some (some 1, 1), 16,
          some (161 :: (List.replicate 7 0 ++ List.replicate 8 162))) ∧
    sparse 161 ≠ 161 :: (List.replicate 7 0 ++ List.replicate 8 162) :=
  ⟨by decide, by decide, by decide, by decide⟩

/-! ## The theorems at concrete buffers, continued -/

/-- C23 at a concrete session: pages of 16 bytes, a header of 8 bytes and rows
of 4 bytes give 2 rows per page, also after an eviction. -/
theorem rows_per_page_fixed_at_creation_witness :
    getNumOfRowsPerPage (finalBuf (session trimDeps 4 16 32 recycleCalls)) = (16 - 8) / 4 :=
  (rows_per_page_fixed_at_creation trimDeps 4 16 32 recycleCalls
    (finalBuf (session trimDeps 4 16 32 recycleCalls))
    (finalRets (session trimDeps 4 16 32 recycleCalls)) rfl (by decide) (by decide)).2.1

/-- C24 at the page size 4096: a buffer size of 12288 gives a budget of 3 pages,
a buffer size of 8191 fails at the assertion. -/
theorem inMemPages_at_creation_witness :
    (12288 / 4096 = 3) ∧
    (∃ b, createDiskbasedResultBuffer trimDeps 4 4096 12288 = .ok b ∧
      b.inMemPages = 12288 / 4096 ∧ 2 ≤ b.inMemPages) ∧
    createDiskbasedResultBuffer trimDeps 4 4096 8191 = .error .assertCreate :=
  ⟨by decide,
   (inMemPages_at_creation trimDeps 4 4096 12288 (by decide)).2.1 (by decide) (by decide),
   ((inMemPages_at_creation trimDeps 4 4096 8191 (by decide)).2.2 (by decide) (by decide)).2⟩

/-- C25 at a concrete call: the third `getNewDataBuf` after two released pages
evicts page 0 and appends the new page object 2 to the list of group 0. -/
theorem group_lists_change_only_by_append_witness :
    exec trimDeps twoReleasedBuf (.newDataBuf Env.good 0) =
      .ok (finalBuf (runCalls trimDeps twoReleasedBuf [.newDataBuf Env.good 0]), .newPage 2 0) ∧
    getDataBufPagesIdList (finalBuf (runCalls trimDeps twoReleasedBuf [.newDataBuf Env.good 0])) 0
      = getDataBufPagesIdList twoReleasedBuf 0 ++ [twoReleasedBuf.pages.length] :=
  ⟨rfl, ((group_lists_change_only_by_append trimDeps twoReleasedBuf
    (finalBuf (runCalls trimDeps twoReleasedBuf [.newDataBuf Env.good 0]))
    (.newDataBuf Env.good 0) (.newPage 2 0) rfl).2 Env.good 0 rfl).1⟩

/-- C26 at the groups 7, 7, 9, 9, 9, 7: the last page of group 7 is page 5, the
last page of group 9 is page 4. -/
theorem last_page_of_group_is_newest_witness :
    getLastPageInfo (getDataBufPagesIdList
      (finalBuf (session trimDeps 4 16 32 (newCalls groupRequests))) 7) = some 5 ∧
    getLastPageInfo (getDataBufPagesIdList
      (finalBuf (session trimDeps 4 16 32 (newCalls groupRequests))) 9) = some 4 ∧
    ∃ (pi : Nat) (p : SPageInfo),
      getLastPageInfo (getDataBufPagesIdList
        (finalBuf (session trimDeps 4 16 32 (newCalls groupRequests))) 7) = some pi ∧
      pi ∈ getDataBufPagesIdList
        (finalBuf (session trimDeps 4 16 32 (newCalls groupRequests))) 7 ∧
      (finalBuf (session trimDeps 4 16 32 (newCalls groupRequests))).pages[pi]? = some p ∧
      p.pageId = (pi : Int) ∧
      (groupsOf (newCalls groupRequests))[pi]? = some 7 ∧
      (∀ j, pi < j → (groupsOf (newCalls groupRequests))[j]? ≠ some 7) ∧
      (∀ pj ∈ getDataBufPagesIdList
          (finalBuf (session trimDeps 4 16 32 (newCalls groupRequests))) 7,
        ∀ q, (finalBuf (session trimDeps 4 16 32 (newCalls groupRequests))).pages[pj]? = some q →
          q.pageId ≤ p.pageId) :=
  ⟨by decide, by decide, last_page_of_group_is_newest trimDeps 4 16 32 (newCalls groupRequests)
    (finalBuf (session trimDeps 4 16 32 (newCalls groupRequests)))
    (finalRets (session trimDeps 4 16 32 (newCalls groupRequests))) rfl (by decide) 7
    (by decide)⟩

/-- C27 at `twoPinnedBuf`: the pinned page 0 has its slab and its LRU node. -/
theorem pinned_page_is_resident_and_linked_witness :
    (⟨some 0, 0, ⟨-1, -1⟩, some 0, true⟩ : SPageInfo).pData ≠ none ∧
    (⟨some 0, 0, ⟨-1, -1⟩, some 0, true⟩ : SPageInfo).pn ≠ none ∧
    ∃ n ∈ twoPinnedBuf.lruList, n.data = 0 ∧
      (⟨some 0, 0, ⟨-1, -1⟩, some 0, true⟩ : SPageInfo).pn = some n.id :=
  pinned_page_is_resident_and_linked trimDeps 4 16 32 twoPinnedCalls twoPinnedBuf
    [.newPage 0 0, .newPage 1 1] twoPinnedBuf_reached 0 ⟨some 0, 0, ⟨-1, -1⟩, some 0, true⟩
    rfl rfl

/-- C28 at a concrete session with an eviction: the LRU list holds the pages 2
and 1, the memory-resident ones. -/
theorem lru_list_holds_resident_pages_witness :
    (∀ c ∈ recycleCalls, c.fopenOk = true) ∧
    (finalBuf (session trimDeps 4 16 32 recycleCalls)).lruList.map SListNode.data = [2, 1] ∧
    ∀ (i : Nat) (p : SPageInfo),
      (finalBuf (session trimDeps 4 16 32 recycleCalls)).pages[i]? = some p →
      ((∃ n ∈ (finalBuf (session trimDeps 4 16 32 recycleCalls)).lruList, n.data = i) ↔
        p.pData ≠ none) :=
  ⟨by decide, by decide, (lru_list_holds_resident_pages trimDeps 4 16 32 recycleCalls
    (finalBuf (session trimDeps 4 16 32 recycleCalls))
    (finalRets (session trimDeps 4 16 32 recycleCalls)) rfl (by decide)).1⟩

/-- C29 at a concrete session with an eviction: the next `getNewDataBuf` does
not fail at `assert(d->pn == pn)`. -/
theorem back_links_hold_witness :
    exec trimDeps (finalBuf (session trimDeps 4 16 32 recycleCalls)) (.newDataBuf Env.good 0)
      ≠ .error .assertEvictNode :=
  ((back_links_hold trimDeps 4 16 32 recycleCalls
    (finalBuf (session trimDeps 4 16 32 recycleCalls))
    (finalRets (session trimDeps 4 16 32 recycleCalls)) rfl).2.2 (.newDataBuf Env.good 0)).1

/-- **C40.**  In every buffer that a session reaches, `releaseResBufPageInfo` on
a pinned page returns, and it changes only that page's `used` flag and
`statis.releasePages`, which grows by 1: the LRU list, the slabs with their
payloads, the scratch file, `inMemPages`, `nextPos`, the other counters, the
tables and every other page are as before, and so are the page's own slab, disk
extent and LRU node. -/
theorem release_changes_only_used_flag (d : Deps) (rowSize pagesize inMemBufSize : Nat)
    (cs : List Call) (b : SDiskbasedResultBuf) (rs : List Ret)
    (h : session d rowSize pagesize inMemBufSize cs = .ok (b, rs))
    (pi : Nat) (p : SPageInfo) (hp : b.pages[pi]? = some p) (hu : p.used = true) :
    ∃ b', releaseResBufPageInfo b pi = .ok b' ∧
      b'.pages = b.pages.set pi { p with used := false } ∧
      (∀ (j : Nat), j ≠ pi → b'.pages[j]? = b.pages[j]?) ∧
      (∃ q, b'.pages[pi]? = some q ∧ q.used = false ∧ q.pData = p.pData ∧ q.info = p.info ∧
        q.pn = p.pn ∧ q.pageId = p.pageId) ∧
      b'.statis.releasePages = b.statis.releasePages + 1 ∧
      b'.statis.getPages = b.statis.getPages ∧
      b'.statis.flushPages = b.statis.flushPages ∧
      b'.statis.flushBytes = b.statis.flushBytes ∧
      b'.statis.loadBytes = b.statis.loadBytes ∧
      b'.lruList = b.lruList ∧ b'.mem = b.mem ∧ b'.file = b.file ∧
      b'.fileSize = b.fileSize ∧ b'.inMemPages = b.inMemPages ∧ b'.nextPos = b.nextPos ∧
      b'.pFree = b.pFree ∧ b'.numOfPages = b.numOfPages ∧ b'.totalBufSize = b.totalBufSize ∧
      b'.allocateId = b.allocateId ∧ b'.groupSet = b.groupSet ∧ b'.all = b.all ∧
      b'.comp = b.comp ∧ b'.pageSize = b.pageSize ∧
      b'.numOfRowsPerPage = b.numOfRowsPerPage ∧ b'.nodeSeq = b.nodeSeq := by
  have hd : p.pData ≠ none := ((session_pinInv h).1 pi p hp hu).1
  have hlt : pi < b.pages.length := (List.getElem?_eq_some.1 hp).1
  refine ⟨{ b with
            pages := b.pages.set pi { p with used := false }
            statis := { b.statis with releasePages := b.statis.releasePages + 1 } },
    ?_, rfl, ?_, ?_, rfl, rfl, rfl, rfl, rfl, rfl, rfl, rfl, rfl, rfl, rfl, rfl, rfl, rfl,
    rfl, rfl, rfl, rfl, rfl, rfl, rfl⟩
  · unfold releaseResBufPageInfo
    simp [hp, hu, hd]
  · intro j hj
    simp only
    rw [List.getElem?_set_ne (Ne.symm hj)]
  · refine ⟨{ p with used := false }, ?_, rfl, rfl, rfl, rfl, rfl⟩
    simp only
    rw [List.getElem?_set_self hlt]

/-! ## The first-fit scan of the free list -/

theorem allocateFromFree_none {size : Int} {l : List SFreeListItem}
    (h : ∀ it ∈ l, it.len < size) : allocateFromFree size l = none := by
  induction l with
  | nil => rfl
  | cons a t ih =>
    have ha : ¬ (a.len ≥ size) := by
      have := h a (List.mem_cons_self _ _)
      omega
    have ht := ih (fun it hit => h it (List.mem_cons_of_mem _ hit))
    simp [allocateFromFree, ha, ht]

theorem allocateFromFree_some {size : Int} {l : List SFreeListItem} {i : Nat}
    {it : SFreeListItem} (hi : l[i]? = some it) (hfit : size ≤ it.len)
    (hbefore : ∀ (j : Nat) (x : SFreeListItem), j < i → l[j]? = some x → x.len < size) :
    allocateFromFree size l = some (it.offset, l.set i ⟨it.offset + size, it.len - size⟩) := by
  induction l generalizing i with
  | nil => simp at hi
  | cons a t ih =>
    cases i with
    | zero =>
      simp only [List.getElem?_cons_zero, Option.some.injEq] at hi
      subst hi
      simp [allocateFromFree, hfit]
    | succ k =>
      simp only [List.getElem?_cons_succ] at hi
      have ha : ¬ (a.len ≥ size) := by
        have := hbefore 0 a (Nat.succ_pos k) (by simp)
        omega
      have ht := ih hi (fun j x hj hx => hbefore (j + 1) x (by omega) (by simpa using hx))
      simp [allocateFromFree, ha, ht]

/-- **C32.**  Without a free list `allocatePositionInFile` returns `nextPos`.
With a free list (of regions of non-negative length) it returns the offset of
the first item, in the order of the list, whose `len` is at least `size`,
advances that item's offset by `size`, reduces its `len` by `size` and leaves
every other item as it is; if no item is long enough it returns `nextPos` and
leaves the list as it is.  One of the two cases always applies. -/
theorem allocatePositionInFile_first_fit (b : SDiskbasedResultBuf) (size : Nat) :
    (b.pFree = none → allocatePositionInFile b size = (b.nextPos, none)) ∧
    (∀ l, b.pFree = some l → (∀ it ∈ l, 0 ≤ it.len) →
      (∀ (i : Nat) (it : SFreeListItem), l[i]? = some it → (size : Int) ≤ it.len →
        (∀ (j : Nat) (x : SFreeListItem), j < i → l[j]? = some x → x.len < (size : Int)) →
        allocatePositionInFile b size
          = (it.offset, some (l.set i ⟨it.offset + size, it.len - size⟩))) ∧
      ((∀ it ∈ l, it.len < (size : Int)) →
        allocatePositionInFile b size = (b.nextPos, some l)) ∧
      ((∃ (i : Nat) (it : SFreeListItem), l[i]? = some it ∧ (size : Int) ≤ it.len ∧
          ∀ (j : Nat) (x : SFreeListItem), j < i → l[j]? = some x → x.len < (size : Int)) ∨
        ∀ it ∈ l, it.len < (size : Int))) := by
  refine ⟨?_, ?_⟩
  · intro hn
    simp [allocatePositionInFile, hn]
  · intro l hl hnn
    refine ⟨?_, ?_, ?_⟩
    · intro i it hi hfit hbefore
      simp [allocatePositionInFile, hl, allocateFromFree_some hi hfit hbefore]
    · intro hall
      simp [allocatePositionInFile, hl, allocateFromFree_none hall]
    · clear hl hnn
      induction l with
      | nil => exact Or.inr (by simp)
      | cons a t ih =>
        by_cases ha : (size : Int) ≤ a.len
        · exact Or.inl ⟨0, a, by simp, ha, by intro j x hj; omega⟩
        · rcases ih with ⟨i, it, hi, hfit, hbefore⟩ | hall
          · refine Or.inl ⟨i + 1, it, by simpa using hi, hfit, ?_⟩
            intro j x hj hx
            cases j with
            | zero =>
              simp only [List.getElem?_cons_zero, Option.some.injEq] at hx
              subst hx
              omega
            | succ k =>
              exact hbefore k x (by omega) (by simpa using hx)
          · refine Or.inr ?_
            intro it hit
            rcases List.mem_cons.1 hit with h1 | h1
            · subst h1
              omega
            · exact hall it h1

/-! ## The total size of the pages -/

theorem exec_pageCount {d : Deps} {b b' : SDiskbasedResultBuf} {c : Call} {r : Ret}
    (h : exec d b c = .ok (b', r)) :
    b'.numOfPages = b.numOfPages + (if c.isNew = true then 1 else 0) ∧
    b'.pages.length = b.pages.length + (if c.isNew = true then 1 else 0) ∧
    b'.pageSize = b.pageSize := by
  cases c with
  | newDataBuf env g =>
    simp only [exec] at h
    split at h
    · simp at h
    · rename_i b1 pageId page hg
      simp only [Except.ok.injEq, Prod.mk.injEq] at h
      obtain ⟨hb, _⟩ := h
      subst hb
      obtain ⟨b2, avail, hacq, _, hpages, _, _, hnum, _⟩ := getNewDataBuf_ok hg
      obtain ⟨b3, avail3, hacq3, _, _, _, _, _, _, hps, _⟩ := getNewDataBuf_rest hg
      obtain ⟨e1, _⟩ := acquired_unique hacq hacq3
      subst e1
      obtain ⟨s1, _, _, s4, _, _, _, s8⟩ := acquired_sameTables hacq
      simp only [Call.isNew, if_true]
      refine ⟨by omega, ?_, by rw [hps, s4]⟩
      rw [hpages, List.length_append, List.length_singleton, s8]
  | resBufPage env id =>
    simp only [exec] at h
    split at h
    · simp at h
    · rename_i b1 page hg
      simp only [Except.ok.injEq, Prod.mk.injEq] at h
      obtain ⟨hb, _⟩ := h
      subst hb
      simp only [Call.isNew, Bool.false_eq_true, if_false, Nat.add_zero]
      obtain ⟨pi, p, _, hpi, hp, hcase⟩ := getResBufPage_ok hg
      rcases hcase with ⟨_, _, _, hst, _⟩ | ⟨hnone, _, b2, avail, hacq, hpages, _, _, hnum, _⟩
      · exact ⟨hst.1, hst.2.2.2.2.2.2.2, hst.2.2.2.1⟩
      · obtain ⟨s1, _, _, s4, _, _, _, s8⟩ := acquired_sameTables hacq
        obtain ⟨b3, avail3, r3, hacq3, hload, _⟩ := getResBufPage_reload hg hpi hp hnone
        obtain ⟨e1, e2⟩ := acquired_unique hacq hacq3
        subst e1
        subst e2
        obtain ⟨_, _, _, hst, _⟩ := loadPageFromDisk_ok hload
        refine ⟨by omega, ?_, ?_⟩
        · rw [hpages, List.length_set, s8]
        · rw [hst.2.2.2.1, ← s4]
          cases avail <;> simp [attachSlab, lruListPushFront]
  | release page =>
    simp only [exec] at h
    split at h
    · simp at h
    · rename_i b1 hg
      simp only [Except.ok.injEq, Prod.mk.injEq] at h
      obtain ⟨hb, _⟩ := h
      subst hb
      obtain ⟨slab, pi, p, _, _, _, _, _, hb1⟩ := releaseResBufPage_ok hg
      subst hb1
      simp [Call.isNew]
  | store page bytes =>
    simp only [exec] at h
    split at h
    · simp at h
    · rename_i b1 hg
      simp only [Except.ok.injEq, Prod.mk.injEq] at h
      obtain ⟨hb, _⟩ := h
      subst hb
      obtain ⟨slab, _, hb1⟩ := storePayload_ok hg
      subst hb1
      simp [Call.isNew]

theorem session_pageCount {d : Deps} {rowSize pagesize inMemBufSize : Nat} {cs : List Call}
    {b : SDiskbasedResultBuf} {rs : List Ret}
    (h : session d rowSize pagesize inMemBufSize cs = .ok (b, rs)) :
    b.pages.length = b.numOfPages ∧ b.pageSize = pagesize := by
  unfold session at h
  split at h
  · simp at h
  · rename_i b0 hc
    have h0 : b0.pages.length = b0.numOfPages ∧ b0.pageSize = pagesize := by
      obtain ⟨_, _, c3, _, _, c6, _, _, _, _, c11, _⟩ := createDiskbasedResultBuffer_ok hc
      rw [c3, c6]
      exact ⟨rfl, c11⟩
    refine runCalls_induct
      (fun b => b.pages.length = b.numOfPages ∧ b.pageSize = pagesize) (fun _ => True)
      ?_ (fun _ _ => trivial) h0 h
    intro b1 b2 c r _ hP hex
    obtain ⟨e1, e2, e3⟩ := exec_pageCount hex
    exact ⟨by omega, by rw [e3]; exact hP.2⟩

theorem evicOneDataPage_flushBudget {d : Deps} {env : Env} {b : SDiskbasedResultBuf}
    (h : evicOneDataPage d env b = .error .assertFlushBudget) :
    ¬ (b.numOfPages * b.pageSize = b.totalBufSize ∧ b.inMemPages ≤ b.numOfPages) := by
  unfold evicOneDataPage at h
  split at h
  · rename_i e hel
    simp only [Except.error.injEq] at h
    subst h
    rcases eldestFrom_fault hel with h1 | h1 <;> simp at h1
  · simp at h
  · rename_i pn hel
    split at h
    · simp at h
    · rename_i p hp
      split at h
      · simp at h
      · unfold flushPageToDisk at h
        split at h
        · rename_i hbad
          simpa using hbad
        · split at h
          · split at h
            · split at h
              · rename_i e hfl
                simp only [Except.error.injEq] at h
                subst h
                rcases doFlushPageToDisk_fault_kind hfl with h1 | h1 | h1 <;> simp at h1
              · simp at h
            · simp at h
          · split at h
            · rename_i e hfl
              simp only [Except.error.injEq] at h
              subst h
              rcases doFlushPageToDisk_fault_kind hfl with h1 | h1 | h1 <;> simp at h1
            · simp at h

theorem getNewDataBuf_fault_full {d : Deps} {env : Env} {b : SDiskbasedResultBuf}
    {groupId : Int} {e : Fault} (h : getNewDataBuf d env b groupId = .error e) :
    (e = .assertLruRoom ∧ ∃ b1 avail, Acquired d env b b1 avail ∧
      ¬ (b1.lruList.length < b1.inMemPages ∧ 0 < b1.inMemPages)) ∨
    (b.inMemPages ≤ b.numOfPages ∧ evicOneDataPage d env (counted b) = .error e) := by
  unfold getNewDataBuf at h
  simp only at h
  split at h
  · rename_i e2 hev
    simp only [Except.error.injEq] at h
    subst h
    split at hev
    · rename_i hno
      exact Or.inr ⟨by simpa [NO_AVAILABLE_PAGES] using hno, hev⟩
    · simp at hev
  · rename_i b1 avail hev
    split at h
    · rename_i hroom
      simp only [Except.error.injEq] at h
      refine Or.inl ⟨h.symm, b1, avail, acquired_of_eq hev, ?_⟩
      simpa [registerPage] using hroom
    · simp at h

theorem getResBufPage_flushBudget {d : Deps} {env : Env} {b : SDiskbasedResultBuf} {id : Int}
    (h : getResBufPage d env b id = .error .assertFlushBudget) :
    b.inMemPages ≤ b.numOfPages ∧
      evicOneDataPage d env (counted b) = .error .assertFlushBudget := by
  unfold getResBufPage at h
  split at h
  · simp at h
  · simp only at h
    split at h
    · simp at h
    · split at h
      · simp at h
      · split at h
        · split at h
          · simp at h
          · split at h
            · simp at h
            · split at h
              · simp at h
              · split at h
                · simp at h
                · simp at h
        · split at h
          · simp at h
          · split at h
            · rename_i e2 hev
              simp only [Except.error.injEq] at h
              subst h
              split at hev
              · rename_i hno
                exact ⟨by simpa [NO_AVAILABLE_PAGES] using hno, hev⟩
              · simp at hev
            · split at h
              · rename_i e2 hl
                simp only [Except.error.injEq] at h
                subst h
                rcases loadPageFromDisk_fault hl with h1 | h1 <;> simp at h1
              · simp at h

/-- **C38.**  In every buffer that a session reaches `totalBufSize` is
`numOfPages * pageSize`, `numOfPages` is the number of `getNewDataBuf` calls made
(the number of page objects), and `getResBufSize` returns the page size times
that number.  A call adds 1 to `numOfPages` if it is a `getNewDataBuf` and leaves
it unchanged otherwise, whatever it evicts.  No call fails at the assertion at
the top of `flushPageToDisk`. -/
theorem totalBufSize_counts_created_pages (d : Deps) (rowSize pagesize inMemBufSize : Nat)
    (cs : List Call) (b : SDiskbasedResultBuf) (rs : List Ret)
    (h : session d rowSize pagesize inMemBufSize cs = .ok (b, rs)) :
    b.totalBufSize = b.numOfPages * b.pageSize ∧ b.pageSize = pagesize ∧
    b.numOfPages = (cs.filter Call.isNew).length ∧ b.pages.length = b.numOfPages ∧
    getResBufSize b = pagesize * (cs.filter Call.isNew).length ∧
    (∀ (c : Call) (b' : SDiskbasedResultBuf) (r : Ret), exec d b c = .ok (b', r) →
      b'.numOfPages = b.numOfPages + (if c.isNew = true then 1 else 0) ∧
      b'.totalBufSize = b'.numOfPages * b'.pageSize) ∧
    (∀ (c : Call), exec d b c ≠ .error .assertFlushBudget) := by
  have hL := session_linkInv h
  have htot : b.numOfPages * b.pageSize = b.totalBufSize := hL.2.2.2.2
  obtain ⟨hlen, hps⟩ := session_pageCount h
  have hT := (session_tableInv h).1
  rw [groupsOf_length] at hT
  refine ⟨htot.symm, hps, by omega, hlen, ?_, ?_, ?_⟩
  · unfold getResBufSize
    rw [← htot, hps, Nat.mul_comm]
    congr 1
    omega
  · intro c b' r hex
    exact ⟨(exec_pageCount hex).1, (exec_linkInv hL hex).2.2.2.2.symm⟩
  · intro c hex
    cases c with
    | newDataBuf env g =>
      simp only [exec] at hex
      split at hex
      · rename_i e hg
        simp only [Except.error.injEq] at hex
        subst hex
        rcases getNewDataBuf_fault_full hg with ⟨h1, _⟩ | ⟨hfull, hev⟩
        · simp at h1
        · exact evicOneDataPage_flushBudget hev ⟨htot, hfull⟩
      · simp at hex
    | resBufPage env id =>
      simp only [exec] at hex
      split at hex
      · rename_i e hg
        simp only [Except.error.injEq] at hex
        subst hex
        obtain ⟨hfull, hev⟩ := getResBufPage_flushBudget hg
        exact evicOneDataPage_flushBudget hev ⟨htot, hfull⟩
      · simp at hex
    | release page =>
      simp only [exec] at hex
      split at hex
      · rename_i e hg
        simp only [Except.error.injEq] at hex
        subst hex
        unfold releaseResBufPage at hg
        split at hg
        · simp at hg
        · split at hg
          · simp at hg
          · unfold releaseResBufPageInfo at hg
            split at hg
            · simp at hg
            · split at hg
              · simp at hg
              · simp at hg
      · simp at hex
    | store page bytes =>
      simp only [exec] at hex
      split at hex
      · rename_i e hg
        simp only [Except.error.injEq] at hex
        subst hex
        unfold storePayload at hg
        split at hg
        · simp at hg
        · split at hg
          · simp at hg
          · simp at hg
      · simp at hex


/-! ## Fetching a page that is in memory -/

theorem getResBufPage_single {d : Deps} {env : Env} {b : SDiskbasedResultBuf} {id : Int}
    {pi s : Nat} {p : SPageInfo} (hid : 0 ≤ id) (hpi : taosHashGet b.all id = some pi)
    (hp : b.pages[pi]? = some p) (hs : p.pData = some s) (hone : b.numOfPages = 1) :
    getResBufPage d env b id =
      .ok ({ counted b with pages := b.pages.set pi { p with used := true } }, s) := by
  unfold getResBufPage
  simp only [ge_iff_le, hid, not_true_eq_false, if_false, hpi, hp, hs, hone, if_true]
  simp [counted, hone, hs]

theorem getResBufPage_linked {d : Deps} {env : Env} {b : SDiskbasedResultBuf} {id : Int}
    {pi s n : Nat} {p : SPageInfo} {node : SListNode} (hid : 0 ≤ id)
    (hpi : taosHashGet b.all id = some pi) (hp : b.pages[pi]? = some p)
    (hs : p.pData = some s) (hone : b.numOfPages ≠ 1) (hn : p.pn = some n)
    (hf : b.lruList.find? (fun m => m.id == n) = some node) (hback : node.data = pi) :
    getResBufPage d env b id =
      .ok ({ counted b with
             lruList := lruListMoveToFront b.lruList node
             pages := b.pages.set pi { p with used := true } }, s) := by
  unfold getResBufPage
  simp only [ge_iff_le, hid, not_true_eq_false, if_false, hpi, hp, hs, hone, hn, hf, hback]
  simp [counted, hn, hs]

theorem popNode_popNode (l : List SListNode) (k : Nat) :
    tdListPopNode (tdListPopNode l k) k = tdListPopNode l k := by
  unfold tdListPopNode
  rw [List.filter_filter]
  simp

theorem moveToFront_moveToFront (l : List SListNode) (node : SListNode) :
    lruListMoveToFront (lruListMoveToFront l node) node = lruListMoveToFront l node := by
  unfold lruListMoveToFront
  have : tdListPopNode (node :: tdListPopNode l node.id) node.id = tdListPopNode l node.id := by
    have h1 : tdListPopNode (node :: tdListPopNode l node.id) node.id
        = tdListPopNode (tdListPopNode l node.id) node.id := by
      unfold tdListPopNode
      simp
    rw [h1, popNode_popNode]
  rw [this]

/-- **C35.**  In every buffer that a session reaches, for a page `id >= 0` that
is memory-resident: if the page is pinned, `getResBufPage(id)` returns its
payload and the page is pinned afterwards; and whenever `getResBufPage(id)`
returns, a second `getResBufPage(id)` right after it returns the same payload
and leaves the buffer as the first call left it, except that `statis.getPages`
is counted up once more. -/
theorem getResBufPage_on_resident_page_is_idempotent (d : Deps)
    (rowSize pagesize inMemBufSize : Nat) (cs : List Call) (b : SDiskbasedResultBuf)
    (rs : List Ret) (h : session d rowSize pagesize inMemBufSize cs = .ok (b, rs))
    (id : Int) (pi s : Nat) (p : SPageInfo) (hid : 0 ≤ id)
    (hpi : taosHashGet b.all id = some pi) (hp : b.pages[pi]? = some p)
    (hs : p.pData = some s) :
    (p.used = true → ∀ (env : Env), ∃ b1 q, getResBufPage d env b id = .ok (b1, s) ∧
      b1.pages[pi]? = some q ∧ q.used = true ∧ q.pData = some s) ∧
    (∀ (env env' : Env) (b1 : SDiskbasedResultBuf) (page : Nat),
      getResBufPage d env b id = .ok (b1, page) →
      page = s ∧ (∃ q, b1.pages[pi]? = some q ∧ q.used = true ∧ q.pData = some s) ∧
      getResBufPage d env' b1 id = .ok (counted b1, s)) := by
  have hS := session_lruSound h
  have hL := (session_linkInv h).1
  have hP := session_pinInv h
  have hlt : pi < b.pages.length := (List.getElem?_eq_some.1 hp).1
  have hset : (b.pages.set pi { p with used := true })[pi]? = some { p with used := true } :=
    List.getElem?_set_self hlt
  refine ⟨?_, ?_⟩
  · intro hu env
    by_cases hone : b.numOfPages = 1
    · exact ⟨_, _, getResBufPage_single hid hpi hp hs hone, hset, rfl, hs⟩
    · obtain ⟨_, n, hn, hnd, hpn⟩ := hP.1 pi p hp hu
      have hex : ∃ a ∈ b.lruList, (fun m : SListNode => m.id == n.id) a = true :=
        ⟨n, hn, by simp⟩
      obtain ⟨node, hf⟩ := Option.isSome_iff_exists.1 (List.find?_isSome.2 hex)
      have hmem : node ∈ b.lruList := List.mem_of_find?_eq_some hf
      have hnid := List.find?_some hf
      simp only [beq_iff_eq] at hnid
      obtain ⟨q, hq, hqn, _⟩ := hS node hmem
      rw [hnid] at hqn
      have hback : node.data = pi := hL.1 node.data pi q p n.id hq hp hqn hpn
      exact ⟨_, _, getResBufPage_linked hid hpi hp hs hone hpn hf hback, hset, rfl, hs⟩
  · intro env env' b1 page h1
    obtain ⟨hpage, hb1⟩ := getResBufPage_resident h1 hpi hp hs
    have hlru := getResBufPage_resident_lru h1 hpi hp hs
    have hpages1 : b1.pages = b.pages.set pi { p with used := true } := by rw [hb1]
    have hall1 : b1.all = b.all := by rw [hb1]; rfl
    have hnum1 : b1.numOfPages = b.numOfPages := by rw [hb1]; rfl
    have hp1 : b1.pages[pi]? = some { p with used := true } := by rw [hpages1]; exact hset
    have hpi1 : taosHashGet b1.all id = some pi := by rw [hall1]; exact hpi
    have hsame : b1.pages.set pi { p with used := true } = b1.pages := by
      rw [hpages1, List.set_set]
    refine ⟨hpage, ⟨_, hp1, rfl, hs⟩, ?_⟩
    by_cases hone : b.numOfPages = 1
    · rw [getResBufPage_single hid hpi1 hp1 hs (by rw [hnum1]; exact hone)]
      have e : ({ p with used := true } : SPageInfo) =
          { ({ p with used := true } : SPageInfo) with used := true } := rfl
      rw [← e, hsame]
      rfl
    · rcases hlru with ⟨h0, _⟩ | ⟨node, hmem, hback, hpn, hl1⟩
      · exact absurd h0 hone
      · have hf1 : b1.lruList.find? (fun m => m.id == node.id) = some node := by
          rw [hl1]
          unfold lruListMoveToFront
          simp
        rw [getResBufPage_linked hid hpi1 hp1 hs (by rw [hnum1]; exact hone) hpn hf1 hback]
        have e : ({ p with used := true } : SPageInfo) =
            { ({ p with used := true } : SPageInfo) with used := true } := rfl
        have hmm : lruListMoveToFront b1.lruList node = b1.lruList := by
          rw [hl1, moveToFront_moveToFront]
        rw [← e, hsame, hmm]
        rfl

/-! ## Every page id is registered once -/

/-- **C31.**  After a session with at most 2^31 `getNewDataBuf` calls, the page
id returned by the k-th of them (counting from 0) is a key of the table `all`,
and it occurs exactly once in the page list of the group `g` that the call was
made with and in no other group's list. -/
theorem page_ids_are_registered_once (d : Deps) (rowSize pagesize inMemBufSize : Nat)
    (cs : List Call) (b : SDiskbasedResultBuf) (rs : List Ret)
    (h : session d rowSize pagesize inMemBufSize cs = .ok (b, rs))
    (hk : (cs.filter Call.isNew).length ≤ 2147483648)
    (k : Nat) (id : Int) (hid : (newPageIds rs)[k]? = some id) :
    taosHashGet b.all id ≠ none ∧
    ∃ g, (groupsOf cs)[k]? = some g ∧
      (pageIdsOf b (getDataBufPagesIdList b g)).count (some id) = 1 ∧
      ∀ g', g' ≠ g → some id ∉ pageIdsOf b (getDataBufPagesIdList b g') := by
  obtain ⟨hlen, _, hpid, hlist⟩ := session_tableInv h
  have hids := session_newPageIds h hk
  have hgl := groupsOf_length cs
  rw [hids] at hid
  rw [List.getElem?_map] at hid
  have hklt : k < (cs.filter Call.isNew).length := by
    by_contra hc
    rw [List.getElem?_eq_none (by simpa using hc)] at hid
    simp at hid
  rw [List.getElem?_range hklt] at hid
  simp only [Option.map_some', Option.some.injEq] at hid
  subst hid
  have hkg : k < (groupsOf cs).length := by omega
  -- the ids of a group list
  have hmap : ∀ g', pageIdsOf b (getDataBufPagesIdList b g')
      = (idsOfGroup (groupsOf cs) g').map (fun (i : Nat) => some (i : Int)) := by
    intro g'
    unfold pageIdsOf
    rw [hlist g']
    apply List.map_congr_left
    intro i hi
    have hilt := mem_idsOfGroup_lt hi
    have hi2 : i < b.pages.length := by omega
    rw [List.getElem?_eq_getElem hi2]
    simp only [Option.map_some', Option.some.injEq]
    rw [hpid i _ (List.getElem?_eq_getElem hi2)]
    exact wrapInt32_of_lt i (by omega)
  have hinj : Function.Injective (fun (i : Nat) => some (i : Int)) := by
    intro x y hxy
    simp only [Option.some.injEq] at hxy
    exact_mod_cast hxy
  refine ⟨?_, (groupsOf cs)[k], List.getElem?_eq_getElem hkg, ?_, ?_⟩
  · rw [(session_knownIds h _), hids]
    exact List.mem_map.2 ⟨k, List.mem_range.2 hklt, rfl⟩
  · rw [hmap]
    have hone : ∀ l : List Nat, l.Nodup → k ∈ l →
        List.count (some (k : Int)) (l.map (fun (i : Nat) => some (i : Int))) = 1 := by
      intro l
      induction l with
      | nil => simp
      | cons a t ih =>
        intro hnd hmem
        rw [List.nodup_cons] at hnd
        rw [List.map_cons, List.count_cons]
        by_cases hak : a = k
        · subst hak
          have hnot : some (a : Int) ∉ t.map (fun (i : Nat) => some (i : Int)) := by
            intro hm
            obtain ⟨i, hi, hie⟩ := List.mem_map.1 hm
            have := hinj hie
            subst this
            exact hnd.1 hi
          rw [List.count_eq_zero_of_not_mem hnot]
          simp
        · have hkt : k ∈ t := by
            rcases List.mem_cons.1 hmem with h1 | h1
            · exact absurd h1.symm hak
            · exact h1
          rw [ih hnd.2 hkt]
          have hne : ¬ ((a : Int) = (k : Int)) := by exact_mod_cast hak
          simp [hne]
    apply hone
    · unfold idsOfGroup
      exact (List.nodup_range _).filter _
    · exact mem_idsOfGroup.2 (List.getElem?_eq_getElem hkg)
  · intro g' hg' hmem
    rw [hmap] at hmem
    obtain ⟨i, hi, hie⟩ := List.mem_map.1 hmem
    have := hinj hie
    subst this
    have h1 := mem_idsOfGroup.1 hi
    rw [List.getElem?_eq_getElem hkg] at h1
    simp only [Option.some.injEq] at h1
    exact hg' h1.symm

/-! ## The disk extents do not overlap -/

theorem length_popNode {l : List SListNode} {n : SListNode}
    (hnd : (l.map SListNode.id).Nodup) (hn : n ∈ l) :
    (tdListPopNode l n.id).length + 1 = l.length := by
  induction l with
  | nil => simp at hn
  | cons a t ih =>
    rw [List.map_cons, List.nodup_cons] at hnd
    by_cases ha : a.id = n.id
    · have hrest : tdListPopNode t n.id = t := by
        unfold tdListPopNode
        apply List.filter_eq_self.2
        intro m hm
        have : m.id ≠ a.id := by
          intro he
          exact hnd.1 (he ▸ List.mem_map_of_mem _ hm)
        simp only [bne_iff_ne, ne_eq]
        rw [← ha]
        exact this
      have : tdListPopNode (a :: t) n.id = tdListPopNode t n.id := by
        unfold tdListPopNode
        simp [ha]
      rw [this, hrest]
      rfl
    · have hnt : n ∈ t := by
        rcases List.mem_cons.1 hn with h1 | h1
        · rw [h1] at ha
          exact absurd rfl ha
        · exact h1
      have : tdListPopNode (a :: t) n.id = a :: tdListPopNode t n.id := by
        unfold tdListPopNode
        simp [ha]
      rw [this, List.length_cons, List.length_cons, ih hnd.2 hnt]

theorem releaseResBufPage_fault {b : SDiskbasedResultBuf} {page : Nat} {e : Fault}
    (h : releaseResBufPage b page = .error e) : e = .badPointer ∨ e = .assertRelease := by
  unfold releaseResBufPage at h
  split at h
  · simp only [Except.error.injEq] at h
    exact Or.inl h.symm
  · split at h
    · simp only [Except.error.injEq] at h
      exact Or.inl h.symm
    · unfold releaseResBufPageInfo at h
      split at h
      · simp only [Except.error.injEq] at h
        exact Or.inl h.symm
      · split at h
        · simp only [Except.error.injEq] at h
          exact Or.inr h.symm
        · simp at h

theorem storePayload_fault {b : SDiskbasedResultBuf} {page : Nat} {bytes : List Nat}
    {e : Fault} (h : storePayload b page bytes = .error e) :
    e = .badPointer ∨ e = .bufferOverrun := by
  unfold storePayload at h
  split at h
  · simp only [Except.error.injEq] at h
    exact Or.inl h.symm
  · split at h
    · simp at h
    · simp only [Except.error.injEq] at h
      exact Or.inr h.symm

/-- The slab search leaves room for one more node in the LRU list. -/
theorem acquired_room {d : Deps} {env : Env} {b b1 : SDiskbasedResultBuf}
    {avail : Option Nat} (hR : RoomInv b) (hF : LruFresh b)
    (h : Acquired d env b b1 avail) :
    b1.lruList.length = linkedPages b1 ∧ b1.lruList.length + 1 ≤ b1.inMemPages ∧
    2 ≤ b1.inMemPages ∧ b1.pages.length = b1.numOfPages := by
  obtain ⟨r1, r2, r3, r4⟩ := hR
  have hle : linkedPages b ≤ b.pages.length := List.countP_le_length _
  rcases h with ⟨hroom, hb, _⟩ | ⟨hfull, hev⟩
  · subst hb
    exact ⟨r1, by
      have : (counted b).lruList.length = b.lruList.length := rfl
      have : (counted b).inMemPages = b.inMemPages := rfl
      omega, r3, r4⟩
  · rcases evicOneDataPage_ok hev with ⟨_, _, hb⟩ | ⟨n, p, q, hel, hp, hpn, _, hl, hpages, hqn,
      _, _, him, _, hst, _⟩
    · subst hb
      refine ⟨r1, ?_, ?_, r4⟩
      · have e1 : ({ counted b with inMemPages := (counted b).inMemPages * 3 / 2 } :
            SDiskbasedResultBuf).lruList.length = b.lruList.length := rfl
        have e2 : ({ counted b with inMemPages := (counted b).inMemPages * 3 / 2 } :
            SDiskbasedResultBuf).inMemPages = b.inMemPages * 3 / 2 := rfl
        rw [e1, e2]
        omega
      · have e2 : ({ counted b with inMemPages := (counted b).inMemPages * 3 / 2 } :
            SDiskbasedResultBuf).inMemPages = b.inMemPages * 3 / 2 := rfl
        rw [e2]
        omega
    · have hmem : n ∈ b.lruList := (getEldestUnrefedPage_some hel).1
      have hp' : b.pages[n.data]? = some p := hp
      have hl' : b1.lruList = tdListPopNode b.lruList n.id := hl
      have hpages' : b1.pages = b.pages.set n.data q := hpages
      have him' : b1.inMemPages = b.inMemPages := him
      have hlen := length_popNode hF.1 hmem
      have hcnt := countP_set_add (fun x : SPageInfo => x.pn.isSome) b.pages n.data p q hp'
      simp only [hpn, hqn, Option.isSome_some, Option.isSome_none, if_true,
        Bool.false_eq_true, if_false] at hcnt
      have hnum : b1.numOfPages = b.numOfPages := hst.1
      have hplen : b1.pages.length = b.pages.length := hst.2.2.2.2.2.2.2
      refine ⟨?_, by rw [hl', him']; omega, by rw [him']; exact r3, by omega⟩
      unfold linkedPages at r1 ⊢
      rw [hl', hpages']
      omega

theorem exec_room {d : Deps} {b b' : SDiskbasedResultBuf} {c : Call} {r : Ret}
    (hR : RoomInv b) (hF : LruFresh b) (h : exec d b c = .ok (b', r)) : RoomInv b' := by
  cases c with
  | newDataBuf env g =>
    simp only [exec] at h
    split at h
    · simp at h
    · rename_i b2 pageId page hg
      simp only [Except.ok.injEq, Prod.mk.injEq] at h
      obtain ⟨hb, _⟩ := h
      subst hb
      obtain ⟨b1, avail, hacq, _, hpages, hl, him, hnum, _⟩ := getNewDataBuf_ok hg
      obtain ⟨a1, a2, a3, a4⟩ := acquired_room hR hF hacq
      refine ⟨?_, by rw [hl, him, List.length_cons]; omega, by rw [him]; exact a3, ?_⟩
      · unfold linkedPages at a1 ⊢
        rw [hl, hpages, List.countP_append, List.length_cons, a1]
        simp
      · rw [hpages, List.length_append, List.length_singleton, hnum, a4]
  | resBufPage env id =>
    simp only [exec] at h
    split at h
    · simp at h
    · rename_i b2 page hg
      simp only [Except.ok.injEq, Prod.mk.injEq] at h
      obtain ⟨hb, _⟩ := h
      subst hb
      obtain ⟨r1, r2, r3, r4⟩ := hR
      obtain ⟨pi, p, _, hpi, hp, hcase⟩ := getResBufPage_ok hg
      rcases hcase with ⟨_, hpages, him, hst, _, hl⟩ |
        ⟨hnone, hpn, b1, avail, hacq, hpages, hl, him, hnum, _⟩
      · have hcnt := countP_set_add (fun x : SPageInfo => x.pn.isSome) b.pages pi p
          { p with used := true } hp
        simp only at hcnt
        have hlen : b2.lruList.length = b.lruList.length := by
          rcases hl with h1 | ⟨node, hmem, _, _, h1⟩
          · rw [h1]
          · rw [h1]
            unfold lruListMoveToFront
            rw [List.length_cons]
            exact length_popNode hF.1 hmem
        refine ⟨?_, by rw [hlen, him]; exact r2, by rw [him]; exact r3, ?_⟩
        · unfold linkedPages at r1 ⊢
          rw [hlen, hpages]
          omega
        · rw [hpages, List.length_set, hst.1]
          exact r4
      · obtain ⟨a1, a2, a3, a4⟩ := acquired_room ⟨r1, r2, r3, r4⟩ hF hacq
        have hp1 : b1.pages[pi]? = some p := acquired_page_kept hacq hp hpn
        have hcnt := countP_set_add (fun x : SPageInfo => x.pn.isSome) b1.pages pi p
          { p with pData := some page, pn := some b1.nodeSeq } hp1
        simp only [hpn, Option.isSome_some, Option.isSome_none, if_true,
          Bool.false_eq_true, if_false] at hcnt
        refine ⟨?_, by rw [hl, him, List.length_cons]; omega, by rw [him]; exact a3, ?_⟩
        · unfold linkedPages at a1 ⊢
          rw [hl, hpages, List.length_cons]
          omega
        · rw [hpages, List.length_set, hnum]
          exact a4
  | release page =>
    simp only [exec] at h
    split at h
    · simp at h
    · rename_i b2 hg
      simp only [Except.ok.injEq, Prod.mk.injEq] at h
      obtain ⟨hb, _⟩ := h
      subst hb
      obtain ⟨r1, r2, r3, r4⟩ := hR
      obtain ⟨slab, pi, p, _, _, hp, _, _, hb2⟩ := releaseResBufPage_ok hg
      subst hb2
      have hcnt := countP_set_add (fun x : SPageInfo => x.pn.isSome) b.pages pi p
        { p with used := false } hp
      simp only at hcnt
      refine ⟨?_, r2, r3, ?_⟩
      · unfold linkedPages at r1 ⊢
        simp only
        omega
      · simp only [List.length_set]
        exact r4
  | store page bytes =>
    simp only [exec] at h
    split at h
    · simp at h
    · rename_i b2 hg
      simp only [Except.ok.injEq, Prod.mk.injEq] at h
      obtain ⟨hb, _⟩ := h
      subst hb
      obtain ⟨slab, _, hb2⟩ := storePayload_ok hg
      subst hb2
      exact hR

theorem session_roomInv {d : Deps} {rowSize pagesize inMemBufSize : Nat} {cs : List Call}
    {b : SDiskbasedResultBuf} {rs : List Ret}
    (h : session d rowSize pagesize inMemBufSize cs = .ok (b, rs)) :
    RoomInv b ∧ LruFresh b := by
  unfold session at h
  split at h
  · simp at h
  · rename_i b0 hc
    have h0 : RoomInv b0 ∧ LruFresh b0 := by
      obtain ⟨c1, c2, c3, c4, c5, c6, _⟩ := createDiskbasedResultBuffer_ok hc
      refine ⟨⟨?_, ?_, ?_, ?_⟩, ?_, ?_⟩
      · unfold linkedPages
        rw [c3, c4]
        rfl
      · rw [c4]
        exact Nat.zero_le _
      · rw [c5]
        exact (Nat.le_div_iff_mul_le c1).2 (by omega)
      · rw [c3, c6]
        rfl
      · rw [c4]
        exact List.nodup_nil
      · rw [c4]
        intro n hn
        simp at hn
    exact runCalls_induct (fun x => RoomInv x ∧ LruFresh x) (fun _ => True)
      (fun _ _ _ _ _ hP hs => ⟨exec_room hP.1 hP.2 hs, exec_lruFresh hP.2 hs⟩)
      (fun _ _ => trivial) h0 h

/-- **C37.**  In every buffer that a session reaches (any calls, any I/O
outcome) the LRU list has at most `inMemPages` nodes and `inMemPages` is at
least 2.  No call made on it fails at
`assert(listNEles(lruList) < inMemPages && inMemPages > 0)` of `getNewDataBuf`:
in the state in which the assertion is evaluated, after the search for a slab,
the list is shorter than `inMemPages`.  A call that changes `inMemPages` raises
it to `inMemPages * 3 / 2`, which is at least 1 more. -/
theorem lru_room_assertion_holds (d : Deps) (rowSize pagesize inMemBufSize : Nat)
    (cs : List Call) (b : SDiskbasedResultBuf) (rs : List Ret)
    (h : session d rowSize pagesize inMemBufSize cs = .ok (b, rs)) :
    pagesize * 2 ≤ inMemBufSize ∧
    b.lruList.length ≤ b.inMemPages ∧ 2 ≤ b.inMemPages ∧
    (∀ (c : Call), exec d b c ≠ .error .assertLruRoom) ∧
    (∀ (env : Env) (b1 : SDiskbasedResultBuf) (avail : Option Nat),
      Acquired d env b b1 avail → b1.lruList.length < b1.inMemPages ∧ 0 < b1.inMemPages) ∧
    (∀ (c : Call) (b' : SDiskbasedResultBuf) (r : Ret), exec d b c = .ok (b', r) →
      b'.inMemPages ≠ b.inMemPages →
      b'.inMemPages = b.inMemPages * 3 / 2 ∧ b.inMemPages + 1 ≤ b'.inMemPages) := by
  obtain ⟨hR, hF⟩ := session_roomInv h
  have hcreate : pagesize * 2 ≤ inMemBufSize := by
    unfold session at h
    split at h
    · simp at h
    · rename_i b0 hc
      exact (createDiskbasedResultBuffer_ok hc).2.1
  refine ⟨hcreate, hR.2.1, hR.2.2.1, ?_, ?_, ?_⟩
  · intro c hex
    cases c with
    | newDataBuf env g =>
      simp only [exec] at hex
      split at hex
      · rename_i e hg
        simp only [Except.error.injEq] at hex
        subst hex
        rcases getNewDataBuf_fault_full hg with ⟨_, b1, avail, hacq, hbad⟩ | ⟨_, hev⟩
        · obtain ⟨_, a2, a3, _⟩ := acquired_room hR hF hacq
          exact hbad ⟨by omega, by omega⟩
        · rcases evicOneDataPage_fault hev with h1 | h1 | h1 | h1 | h1 | h1 <;> simp at h1
      · simp at hex
    | resBufPage env id =>
      simp only [exec] at hex
      split at hex
      · rename_i e hg
        simp only [Except.error.injEq] at hex
        subst hex
        rcases getResBufPage_fault hg with h1 | h1 | h1 | h1 | h1 | h1 | hev
        · simp at h1
        · simp at h1
        · simp at h1
        · simp at h1
        · simp at h1
        · simp at h1
        · rcases evicOneDataPage_fault hev with h1 | h1 | h1 | h1 | h1 | h1 <;> simp at h1
      · simp at hex
    | release page =>
      simp only [exec] at hex
      split at hex
      · rename_i e hg
        simp only [Except.error.injEq] at hex
        subst hex
        rcases releaseResBufPage_fault hg with h1 | h1 <;> simp at h1
      · simp at hex
    | store page bytes =>
      simp only [exec] at hex
      split at hex
      · rename_i e hg
        simp only [Except.error.injEq] at hex
        subst hex
        rcases storePayload_fault hg with h1 | h1 <;> simp at h1
      · simp at hex
  · intro env b1 avail hacq
    obtain ⟨_, a2, a3, _⟩ := acquired_room hR hF hacq
    exact ⟨by omega, by omega⟩
  · intro c b' r hex hne
    have h2 := ((exec_inMemPages hex).2 hne).2.2
    refine ⟨h2, ?_⟩
    have := hR.2.2.1
    omega

/-! ## The LRU list and the memory-resident pages -/

/-- **C39.**  In every buffer reached by a session in which the creation of the
scratch file does not fail, a page has an LRU node (`pn != NULL`) if and only if
it is memory-resident (`pData != NULL`), whether it is pinned or not; a
memory-resident page occurs exactly once in `lruList`, at the node that its `pn`
points to, and a page that is not memory-resident does not occur; so the length
of `lruList` is the number of memory-resident pages. -/
theorem lru_nodes_are_the_resident_pages (d : Deps) (rowSize pagesize inMemBufSize : Nat)
    (cs : List Call) (b : SDiskbasedResultBuf) (rs : List Ret)
    (h : session d rowSize pagesize inMemBufSize cs = .ok (b, rs))
    (hio : ∀ c ∈ cs, c.fopenOk = true) :
    (∀ (i : Nat) (p : SPageInfo), b.pages[i]? = some p → (p.pn ≠ none ↔ p.pData ≠ none)) ∧
    (∀ (i : Nat) (p : SPageInfo), b.pages[i]? = some p → p.pData ≠ none →
      (b.lruList.map SListNode.data).count i = 1 ∧
      ∃ n ∈ b.lruList, n.data = i ∧ p.pn = some n.id) ∧
    (∀ (i : Nat) (p : SPageInfo), b.pages[i]? = some p → p.pData = none →
      (b.lruList.map SListNode.data).count i = 0) ∧
    b.lruList.length = residentPages b := by
  obtain ⟨hS, hC, hF⟩ := session_lruExact h hio
  obtain ⟨hR, _⟩ := session_roomInv h
  have hok := (session_linkInv h).2.1
  have hiff : ∀ (i : Nat) (p : SPageInfo), b.pages[i]? = some p →
      (p.pn ≠ none ↔ p.pData ≠ none) := by
    intro i p hp
    constructor
    · intro hpn hd
      exact hpn ((hok p (List.mem_iff_getElem?.2 ⟨i, hp⟩)).2 hd).1
    · intro hd hpn
      obtain ⟨n, hn, hni⟩ := hC i p hp hd
      obtain ⟨q, hq, hqn, _⟩ := hS n hn
      rw [hni, hp] at hq
      simp only [Option.some.injEq] at hq
      subst hq
      rw [hpn] at hqn
      simp at hqn
  have hinj : ∀ n ∈ b.lruList, ∀ m ∈ b.lruList, n.data = m.data → n = m := by
    intro n hn m hm hnm
    obtain ⟨q, hq, hqn, _⟩ := hS n hn
    obtain ⟨q2, hq2, hqn2, _⟩ := hS m hm
    rw [hnm, hq2] at hq
    simp only [Option.some.injEq] at hq
    subst hq
    rw [hqn2] at hqn
    simp only [Option.some.injEq] at hqn
    cases n
    cases m
    simp only at hnm hqn
    simp only [SListNode.mk.injEq]
    exact ⟨hqn.symm, hnm⟩
  have hnd : (b.lruList.map SListNode.data).Nodup :=
    List.Nodup.map_on hinj (List.Nodup.of_map _ hF.1)
  refine ⟨hiff, ?_, ?_, ?_⟩
  · intro i p hp hd
    obtain ⟨n, hn, hni⟩ := hC i p hp hd
    obtain ⟨q, hq, hqn, _⟩ := hS n hn
    rw [hni, hp] at hq
    simp only [Option.some.injEq] at hq
    subst hq
    refine ⟨?_, n, hn, hni, hqn⟩
    exact List.count_eq_one_of_mem hnd (List.mem_map.2 ⟨n, hn, hni⟩)
  · intro i p hp hd
    apply List.count_eq_zero_of_not_mem
    intro hm
    obtain ⟨n, hn, hni⟩ := List.mem_map.1 hm
    obtain ⟨q, hq, _, hqd⟩ := hS n hn
    rw [hni, hp] at hq
    simp only [Option.some.injEq] at hq
    subst hq
    exact hqd hd
  · rw [hR.1]
    unfold linkedPages residentPages
    apply List.countP_congr
    intro p hp
    obtain ⟨i, hi⟩ := List.mem_iff_getElem?.1 hp
    have := hiff i p hi
    cases hpn : p.pn <;> cases hpd : p.pData <;> simp [hpn, hpd] at this ⊢


/-! ## When an eviction is attempted -/

/-- A slab search that runs `evicOneDataPage`: either every page in the LRU list
is pinned and the budget grows, or a victim is taken and a flush is counted. -/
theorem acquired_attempt {d : Deps} {env : Env} {b b1 : SDiskbasedResultBuf}
    {avail : Option Nat} (h : Acquired d env b b1 avail) (hfull : b.inMemPages ≤ b.numOfPages) :
    evicOneDataPage d env (counted b) = .ok (b1, avail) ∧
    ((getEldestUnrefedPage b = .ok none ∧ b1.inMemPages = b.inMemPages * 3 / 2 ∧
        b1.statis.flushPages = b.statis.flushPages) ∨
      (∃ n, getEldestUnrefedPage b = .ok (some n) ∧ b1.inMemPages = b.inMemPages ∧
        b1.statis.flushPages = b.statis.flushPages + 1)) := by
  rcases h with ⟨hroom, _, _⟩ | ⟨_, hev⟩
  · omega
  · refine ⟨hev, ?_⟩
    cases avail with
    | none =>
      rcases evicOneDataPage_ok hev with ⟨hel, _, hb⟩ | ⟨n, _, _, hel, _⟩
      · subst hb
        exact Or.inl ⟨hel, rfl, rfl⟩
      · obtain ⟨p0, _, _, _, hb⟩ := evicOneDataPage_flush_failed hev hel
        subst hb
        exact Or.inr ⟨n, hel, rfl, rfl⟩
    | some s =>
      obtain ⟨n, _, _, _, _, _, _, hel, _, _, _, _, _, _, _, hst, _⟩ :=
        evicOneDataPage_flushed hev
      rcases evicOneDataPage_ok hev with ⟨_, hr, _⟩ | ⟨_, _, _, _, _, _, _, _, _, _, _, _, him, _⟩
      · simp at hr
      · refine Or.inr ⟨n, hel, him, ?_⟩
        rw [hst]
        rfl

/-- **C33, as stated, fails.**  After `beforeEarlyEvictionCalls` five pages are
memory-resident, the budget is six pages and six pages were created.  The next
`getNewDataBuf` runs an eviction all the same: with page 5 released it flushes
page 5 (a second flush is counted, the budget stays six), and with every page
pinned it raises the budget from six to nine. -/
theorem eviction_with_room_in_budget :
    observe (session trimDeps 4 16 64 beforeEarlyEvictionCalls)
      (fun b => (residentPages b, b.inMemPages, b.numOfPages, b.statis.flushPages))
      = some (5, 6, 6, 1) ∧
    observe (session trimDeps 4 16 64 earlyEvictionCalls)
      (fun b => (b.inMemPages, b.statis.flushPages, b.pages.map (fun p => p.pData)))
      = some (6, 2, [none, some 1, some 2, some 3, some 0, none, some 4]) ∧
    observe (session trimDeps 4 16 64 earlyGrowthCalls)
      (fun b => (b.inMemPages, b.statis.flushPages, residentPages b))
      = some (9, 1, 6) :=
  ⟨by decide, by decide, by decide⟩

/-- **C33, amended.**  `getNewDataBuf`, and `getResBufPage` for a page that is
not in memory, attempt an eviction exactly when `numOfPages >= inMemPages`,
where `numOfPages` is the number of pages created so far, in memory or not (it
is never less than the number of memory-resident pages).  In a buffer that a
session reaches: while `numOfPages < inMemPages` they take a new slab, flush
nothing and leave the budget as it is, and `getNewDataBuf` does return then;
once `numOfPages >= inMemPages` they run `evicOneDataPage`, which either finds
every page of the LRU list pinned and raises the budget, or takes a victim and
counts a flush. -/
theorem eviction_is_attempted_by_page_count (d : Deps) (rowSize pagesize inMemBufSize : Nat)
    (cs : List Call) (b : SDiskbasedResultBuf) (rs : List Ret)
    (h : session d rowSize pagesize inMemBufSize cs = .ok (b, rs)) :
    residentPages b ≤ b.numOfPages ∧
    (∀ (env : Env) (g : Int), b.numOfPages < b.inMemPages →
      ∃ b' id, getNewDataBuf d env b g = .ok (b', id, b.mem.length) ∧
        b'.inMemPages = b.inMemPages ∧ b'.statis.flushPages = b.statis.flushPages ∧
        b'.file = b.file ∧
        b'.mem = b.mem ++ [⟨some b.pages.length, List.replicate b.pageSize 0⟩] ∧
        ∀ (i : Nat) (p : SPageInfo), b.pages[i]? = some p → b'.pages[i]? = some p) ∧
    (∀ (env : Env) (g : Int) (b' : SDiskbasedResultBuf) (id : Int) (page : Nat),
      b.inMemPages ≤ b.numOfPages → getNewDataBuf d env b g = .ok (b', id, page) →
      (getEldestUnrefedPage b = .ok none ∧ b'.inMemPages = b.inMemPages * 3 / 2 ∧
          b'.statis.flushPages = b.statis.flushPages) ∨
        (∃ n, getEldestUnrefedPage b = .ok (some n) ∧ b'.inMemPages = b.inMemPages ∧
          b'.statis.flushPages = b.statis.flushPages + 1)) ∧
    (∀ (env : Env) (id : Int) (pi : Nat) (p : SPageInfo) (b' : SDiskbasedResultBuf)
      (page : Nat), taosHashGet b.all id = some pi → b.pages[pi]? = some p →
      p.pData = none → getResBufPage d env b id = .ok (b', page) →
      (b.numOfPages < b.inMemPages →
        page = b.mem.length ∧ b'.mem.length = b.mem.length + 1 ∧
        b'.inMemPages = b.inMemPages ∧ b'.statis.flushPages = b.statis.flushPages ∧
        b'.file = b.file ∧
        ∀ (i : Nat) (q : SPageInfo), i ≠ pi → b.pages[i]? = some q →
          b'.pages[i]? = some q) ∧
      (b.inMemPages ≤ b.numOfPages →
        (getEldestUnrefedPage b = .ok none ∧ b'.inMemPages = b.inMemPages * 3 / 2 ∧
            b'.statis.flushPages = b.statis.flushPages) ∨
          (∃ n, getEldestUnrefedPage b = .ok (some n) ∧ b'.inMemPages = b.inMemPages ∧
            b'.statis.flushPages = b.statis.flushPages + 1))) := by
  obtain ⟨hR, hF⟩ := session_roomInv h
  refine ⟨?_, ?_, ?_, ?_⟩
  · rw [← hR.2.2.2]
    exact List.countP_le_length _
  · intro env g hroom
    cases hres : getNewDataBuf d env b g with
    | error e =>
      exfalso
      rcases getNewDataBuf_fault_full hres with ⟨_, b1, avail, hacq, hbad⟩ | ⟨hfull, _⟩
      · obtain ⟨_, a2, a3, _⟩ := acquired_room hR hF hacq
        exact hbad ⟨by omega, by omega⟩
      · omega
    | ok res =>
      obtain ⟨b', id, page⟩ := res
      obtain ⟨b1, avail, hacq, _, hpages, _, him, _, _, _, _, _, hpg, _⟩ := getNewDataBuf_ok hres
      obtain ⟨b1', avail', hacq', hst, _, hfile, _, _, _, _, _, hmem⟩ := getNewDataBuf_rest hres
      obtain ⟨u1, u2⟩ := acquired_unique hacq hacq'
      subst u1 u2
      obtain ⟨hb1, hav⟩ := acquired_no_evict hacq hroom
      subst hb1 hav
      have hpage : page = b.mem.length := hpg rfl
      subst hpage
      refine ⟨b', id, rfl, him, by rw [hst]; rfl, hfile, hmem, ?_⟩
      intro i p hp
      have hi : i < (counted b).pages.length := (List.getElem?_eq_some.1 hp).1
      rw [hpages, List.getElem?_append_left hi]
      exact hp
  · intro env g b' id page hfull hres
    obtain ⟨b1, avail, hacq, _, _, _, him, _⟩ := getNewDataBuf_ok hres
    obtain ⟨b1', avail', hacq', hst, _⟩ := getNewDataBuf_rest hres
    obtain ⟨u1, u2⟩ := acquired_unique hacq hacq'
    subst u1 u2
    rcases (acquired_attempt hacq hfull).2 with ⟨a1, a2, a3⟩ | ⟨n, a1, a2, a3⟩
    · exact Or.inl ⟨a1, by rw [him, a2], by rw [hst, a3]⟩
    · exact Or.inr ⟨n, a1, by rw [him, a2], by rw [hst, a3]⟩
  · intro env id pi p b' page hpi hp hnone hres
    obtain ⟨pi2, p2, _, hpi2, hp2, hcase⟩ := getResBufPage_ok hres
    rw [hpi] at hpi2
    simp only [Option.some.injEq] at hpi2
    subst hpi2
    rw [hp] at hp2
    simp only [Option.some.injEq] at hp2
    subst hp2
    rcases hcase with ⟨hd, _⟩ | ⟨_, hpn, b1, avail, hacq, hpages, _, him, _, _, _, _, hpg, _⟩
    · rw [hnone] at hd
      simp at hd
    · obtain ⟨b1', avail', r, hacq', hload, _⟩ := getResBufPage_reload hres hpi hp hnone
      obtain ⟨u1, u2⟩ := acquired_unique hacq hacq'
      subst u1 u2
      have hp1 : b1.pages[pi]? = some p := acquired_page_kept hacq hp hpn
      obtain ⟨_, m2, m3, _, _⟩ := reload_mid_state avail hp1
      obtain ⟨_, _, _, _, _, _, _, _, hfile, _, _, _, hfp, _⟩ := loadPageFromDisk_full hload
      obtain ⟨_, _, _, _, hml⟩ := loadPageFromDisk_ok hload
      have hflush : b'.statis.flushPages = b1.statis.flushPages := by rw [hfp, m3]
      refine ⟨?_, ?_⟩
      · intro hroom
        obtain ⟨hb1, hav⟩ := acquired_no_evict hacq hroom
        subst hb1 hav
        refine ⟨hpg rfl, ?_, him, by rw [hflush]; rfl, by rw [hfile, m2]; rfl, ?_⟩
        · rw [hml]
          simp [attachSlab, lruListPushFront, counted]
        · intro i q hi hq
          rw [hpages, getElem?_set_ne' _ _ _ _ (Ne.symm hi)]
          exact hq
      · intro hfull
        rcases (acquired_attempt hacq hfull).2 with ⟨a1, a2, a3⟩ | ⟨n, a1, a2, a3⟩
        · exact Or.inl ⟨a1, by rw [him, a2], by rw [hflush, a3]⟩
        · exact Or.inr ⟨n, a1, by rw [him, a2], by rw [hflush, a3]⟩


/-! ## The LRU list is in the order of the last acquisitions -/

/-- C31 at the groups 7, 7, 9, 9, 9, 7: the page id 5, returned by the last
call, is a key of `all`, occurs once in the list of group 7 and in no other
list; the ids in the list of group 7 are 0, 1, 5. -/
theorem page_ids_are_registered_once_witness :
    pageIdsOf (finalBuf (session trimDeps 4 16 32 (newCalls groupRequests)))
      (getDataBufPagesIdList (finalBuf (session trimDeps 4 16 32 (newCalls groupRequests))) 7)
      = [some 0, some 1, some 5] ∧
    (taosHashGet (finalBuf (session trimDeps 4 16 32 (newCalls groupRequests))).all 5 ≠ none ∧
      ∃ g, (groupsOf (newCalls groupRequests))[5]? = some g ∧
        (pageIdsOf (finalBuf (session trimDeps 4 16 32 (newCalls groupRequests)))
          (getDataBufPagesIdList (finalBuf (session trimDeps 4 16 32 (newCalls groupRequests)))
            g)).count (some 5) = 1 ∧
        ∀ g', g' ≠ g →
          some 5 ∉ pageIdsOf (finalBuf (session trimDeps 4 16 32 (newCalls groupRequests)))
            (getDataBufPagesIdList
              (finalBuf (session trimDeps 4 16 32 (newCalls groupRequests))) g')) :=
  ⟨by decide, page_ids_are_registered_once trimDeps 4 16 32 (newCalls groupRequests)
    (finalBuf (session trimDeps 4 16 32 (newCalls groupRequests)))
    (finalRets (session trimDeps 4 16 32 (newCalls groupRequests))) rfl (by decide) 5 5
    (by decide)⟩

/-- C32 on the free list `threeRegions`: a request of 6 bytes is served from
the second region, the first being too short, and splits it; a request of 20
bytes finds no region and is served at `nextPos`. -/
theorem allocatePositionInFile_first_fit_witness :
    allocatePositionInFile { twoPinnedBuf with pFree := some threeRegions, nextPos := 50 } 6
      = (10, some [⟨0, 4⟩, ⟨16, 2⟩, ⟨30, 16⟩]) ∧
    allocatePositionInFile { twoPinnedBuf with pFree := some threeRegions, nextPos := 50 } 20
      = (50, some threeRegions) :=
  ⟨((allocatePositionInFile_first_fit
      { twoPinnedBuf with pFree := some threeRegions, nextPos := 50 } 6).2
      threeRegions rfl (by decide)).1 1 ⟨10, 8⟩ rfl (by decide)
      (by
        intro j x hj hx
        have h0 : j = 0 := by omega
        subst h0
        simp only [threeRegions, List.getElem?_cons_zero, Option.some.injEq] at hx
        subst hx
        decide),
   ((allocatePositionInFile_first_fit
      { twoPinnedBuf with pFree := some threeRegions, nextPos := 50 } 20).2
      threeRegions rfl (by decide)).2.1 (by decide)⟩

/-- C33 at a buffer with one page under a budget of two: `getNewDataBuf` takes
a new slab, the slab 1, and neither flushes nor raises the budget. -/
theorem eviction_is_attempted_by_page_count_witness :
    (finalBuf (session trimDeps 4 16 32 [.newDataBuf Env.good 0])).mem.length = 1 ∧
    ∃ b' id,
      getNewDataBuf trimDeps Env.good
        (finalBuf (session trimDeps 4 16 32 [.newDataBuf Env.good 0])) 0
        = .ok (b', id, (finalBuf (session trimDeps 4 16 32 [.newDataBuf Env.good 0])).mem.length) ∧
      b'.inMemPages = (finalBuf (session trimDeps 4 16 32 [.newDataBuf Env.good 0])).inMemPages ∧
      b'.statis.flushPages
        = (finalBuf (session trimDeps 4 16 32 [.newDataBuf Env.good 0])).statis.flushPages ∧
      b'.file = (finalBuf (session trimDeps 4 16 32 [.newDataBuf Env.good 0])).file ∧
      b'.mem = (finalBuf (session trimDeps 4 16 32 [.newDataBuf Env.good 0])).mem ++
        [⟨some (finalBuf (session trimDeps 4 16 32 [.newDataBuf Env.good 0])).pages.length,
          List.replicate (finalBuf (session trimDeps 4 16 32 [.newDataBuf Env.good 0])).pageSize
            0⟩] ∧
      ∀ (i : Nat) (p : SPageInfo),
        (finalBuf (session trimDeps 4 16 32 [.newDataBuf Env.good 0])).pages[i]? = some p →
        b'.pages[i]? = some p :=
  ⟨by decide, (eviction_is_attempted_by_page_count trimDeps 4 16 32 [.newDataBuf Env.good 0]
    (finalBuf (session trimDeps 4 16 32 [.newDataBuf Env.good 0]))
    (finalRets (session trimDeps 4 16 32 [.newDataBuf Env.good 0])) rfl).2.1 Env.good 0
    (by decide)⟩

/-- C35 at `twoPinnedBuf`: page 0 is pinned and in memory; `getResBufPage(0)`
returns its payload, and a second call changes nothing but the counter. -/
theorem getResBufPage_on_resident_page_is_idempotent_witness :
    (∀ (env : Env), ∃ b1 q, getResBufPage trimDeps env twoPinnedBuf 0 = .ok (b1, 0) ∧
      b1.pages[0]? = some q ∧ q.used = true ∧ q.pData = some 0) ∧
    (∀ (env env' : Env) (b1 : SDiskbasedResultBuf) (page : Nat),
      getResBufPage trimDeps env twoPinnedBuf 0 = .ok (b1, page) →
      page = 0 ∧ (∃ q, b1.pages[0]? = some q ∧ q.used = true ∧ q.pData = some 0) ∧
      getResBufPage trimDeps env' b1 0 = .ok (counted b1, 0)) :=
  ⟨(getResBufPage_on_resident_page_is_idempotent trimDeps 4 16 32 twoPinnedCalls twoPinnedBuf
      _ twoPinnedBuf_reached 0 0 0 ⟨some 0, 0, ⟨-1, -1⟩, some 0, true⟩ (by decide) rfl rfl
      rfl).1 rfl,
   (getResBufPage_on_resident_page_is_idempotent trimDeps 4 16 32 twoPinnedCalls twoPinnedBuf
      _ twoPinnedBuf_reached 0 0 0 ⟨some 0, 0, ⟨-1, -1⟩, some 0, true⟩ (by decide) rfl rfl
      rfl).2⟩

/-- C37 at `twoPinnedBuf`: the list has two nodes under a budget of two, and
the next `getNewDataBuf`, which has to raise the budget, does not fail at the
assertion. -/
theorem lru_room_assertion_holds_witness :
    twoPinnedBuf.lruList.length ≤ twoPinnedBuf.inMemPages ∧
    exec trimDeps twoPinnedBuf (.newDataBuf Env.good 0) ≠ .error .assertLruRoom :=
  ⟨(lru_room_assertion_holds trimDeps 4 16 32 twoPinnedCalls twoPinnedBuf _
      twoPinnedBuf_reached).2.1,
   (lru_room_assertion_holds trimDeps 4 16 32 twoPinnedCalls twoPinnedBuf _
      twoPinnedBuf_reached).2.2.2.1 (.newDataBuf Env.good 0)⟩

/-- C38 at a concrete session with an eviction: three pages of 16 bytes were
created, one of them was evicted, and `getResBufSize` returns 48. -/
theorem totalBufSize_counts_created_pages_witness :
    16 * (recycleCalls.filter Call.isNew).length = 48 ∧
    getResBufSize (finalBuf (session trimDeps 4 16 32 recycleCalls))
      = 16 * (recycleCalls.filter Call.isNew).length :=
  ⟨by decide, (totalBufSize_counts_created_pages trimDeps 4 16 32 recycleCalls
    (finalBuf (session trimDeps 4 16 32 recycleCalls))
    (finalRets (session trimDeps 4 16 32 recycleCalls)) rfl).2.2.2.2.1⟩

/-- C39 at a concrete session with an eviction: two of the three pages are in
memory and the LRU list has two nodes. -/
theorem lru_nodes_are_the_resident_pages_witness :
    residentPages (finalBuf (session trimDeps 4 16 32 recycleCalls)) = 2 ∧
    (finalBuf (session trimDeps 4 16 32 recycleCalls)).lruList.length
      = residentPages (finalBuf (session trimDeps 4 16 32 recycleCalls)) :=
  ⟨by decide, (lru_nodes_are_the_resident_pages trimDeps 4 16 32 recycleCalls
    (finalBuf (session trimDeps 4 16 32 recycleCalls))
    (finalRets (session trimDeps 4 16 32 recycleCalls)) rfl (by decide)).2.2.2⟩

/-- C40 at `twoPinnedBuf`: the release of page 0 returns, and the LRU list and
the slabs are as before. -/
theorem release_changes_only_used_flag_witness :
    ∃ b', releaseResBufPageInfo twoPinnedBuf 0 = .ok b' ∧
      b'.pages = twoPinnedBuf.pages.set 0 ⟨some 0, 0, ⟨-1, -1⟩, some 0, false⟩ ∧
      b'.statis.releasePages = twoPinnedBuf.statis.releasePages + 1 ∧
      b'.lruList = twoPinnedBuf.lruList ∧ b'.mem = twoPinnedBuf.mem :=
  match release_changes_only_used_flag trimDeps 4 16 32 twoPinnedCalls twoPinnedBuf _
    twoPinnedBuf_reached 0 ⟨some 0, 0, ⟨-1, -1⟩, some 0, true⟩ rfl rfl with
  | ⟨b', h1, h2, _, _, h5, _, _, _, _, h10, h11, _⟩ => ⟨b', h1, h2, h5, h10, h11⟩

end QResultBuf
